import Mathlib

/-!
Verification of the buidl Script / PSBT subsystem.

The Python sources under `buidl/` (`script.py`, `psbt.py`, `hd.py`) are
embedded shallowly below.  Helper modules that are not part of the sources
(`helper.py`, `op.py`, `tx.py`, `witness.py`, `ecc.py`) are external
collaborators per the specification; their definitions are modelled from the
spec and marked as such.

Bytes are modelled as `List Nat` (each element a byte value); Python streams
become explicit `(value, rest)` parsing on byte lists; Python exceptions
become `Option`/`Except` failures; Python dicts become insertion-ordered
association lists with Python's `{**a, **b}` merge semantics.
-/

namespace Buidl

deriving instance DecidableEq for Except

abbrev Bytes := List Nat

/-- Modelled from the spec: `little_endian_to_int` from `helper.py` (not in
src); interprets a byte string as a little-endian integer. -/
def little_endian_to_int (bs : Bytes) : Nat :=
  bs.foldr (fun b acc => acc * 256 + b) 0

/-- Modelled from the spec: `int_to_little_endian` from `helper.py` (not in
src); `len` little-endian bytes of `n` (values reduced mod 256). -/
def int_to_little_endian (n : Nat) : Nat → Bytes
  | 0 => []
  | len + 1 => n % 256 :: int_to_little_endian (n / 256) len

/-- Modelled from the spec: `big_endian_to_int` from `helper.py` (not in src). -/
def big_endian_to_int (bs : Bytes) : Nat :=
  bs.foldl (fun acc b => acc * 256 + b) 0

/-- Modelled from the spec: `int_to_big_endian` from `helper.py` (not in src). -/
def int_to_big_endian (n len : Nat) : Bytes :=
  (int_to_little_endian n len).reverse

/-- Modelled from the spec: `int_to_byte` from `helper.py` (not in src);
a single byte, failing (Python `ValueError`) for values ≥ 256. -/
def int_to_byte (n : Nat) : Option Bytes :=
  if n < 256 then some [n] else none

/-- Modelled from the spec: `byte_to_int` from `helper.py` (not in src). -/
def byte_to_int (bs : Bytes) : Nat :=
  little_endian_to_int bs

/-- Modelled from the spec: `encode_varint` from `helper.py` (not in src);
Bitcoin's compact-size encoding. -/
def encode_varint (n : Nat) : Option Bytes :=
  if n < 0xfd then some [n]
  else if n ≤ 0xffff then some (0xfd :: int_to_little_endian n 2)
  else if n ≤ 0xffffffff then some (0xfe :: int_to_little_endian n 4)
  else if n ≤ 0xffffffffffffffff then some (0xff :: int_to_little_endian n 8)
  else none

/-- Modelled from the spec: `read_varint` from `helper.py` (not in src);
returns the decoded count and the unconsumed rest of the stream. -/
def read_varint (bs : Bytes) : Option (Nat × Bytes) :=
  match bs with
  | [] => none
  | b :: rest =>
    if b = 0xfd then some (little_endian_to_int (rest.take 2), rest.drop 2)
    else if b = 0xfe then some (little_endian_to_int (rest.take 4), rest.drop 4)
    else if b = 0xff then some (little_endian_to_int (rest.take 8), rest.drop 8)
    else some (b, rest)

/-- Modelled from the spec: `encode_varstr` from `helper.py` (not in src);
a length-prefixed byte string. -/
def encode_varstr (bs : Bytes) : Option Bytes :=
  (encode_varint bs.length).map (· ++ bs)

/-- Modelled from the spec: `read_varstr` from `helper.py` (not in src). -/
def read_varstr (bs : Bytes) : Option (Bytes × Bytes) :=
  (read_varint bs).map (fun p => (p.2.take p.1, p.2.drop p.1))

/-- Modelled from the spec: `serialize_key_value` from `helper.py` (not in
src); a length-prefixed key followed by a length-prefixed value. -/
def serialize_key_value (key value : Bytes) : Option Bytes := do
  let k ← encode_varstr key
  let v ← encode_varstr value
  return k ++ v

/-- Modelled from the spec: SHA-256 (external hash collaborator, assumed
correct); idealized as a concrete 32-byte digest built by folding the input
into a running mix, so that all definitions stay executable. -/
def sha256 (bs : Bytes) : Bytes :=
  let seed := bs.foldl (fun acc b => (acc * 131 + b + 7) % 4294967291) (bs.length + 1)
  (List.range 32).map (fun i => (seed / (i + 1) + seed % (i + 3) + i * 31) % 256)

/-- Modelled from the spec: HASH160 = RIPEMD160∘SHA256 (external hash
collaborator, assumed correct); idealized as a concrete 20-byte digest. -/
def hash160 (bs : Bytes) : Bytes :=
  (sha256 (0 :: bs)).take 20

/-- Modelled from the spec: double SHA-256, used for transaction hashes. -/
def hash256 (bs : Bytes) : Bytes :=
  sha256 (sha256 bs)

/-! ### Script commands (`script.py`, in src) -/

/-- A Script command: either an opcode (a Python `int`) or a data push
(a Python `bytes` element).  `script.py` stores both in one list and
dispatches on the runtime type. -/
inductive Cmd
  | op (n : Nat)
  | push (bs : Bytes)
  deriving DecidableEq, Inhabited

/-- `Script` from `script.py`: an ordered sequence of commands. -/
structure Script where
  commands : List Cmd
  deriving DecidableEq, Inhabited

namespace Script

/-- The body of the `while count < length` loop of `Script.parse`
(`script.py`).  `stream` is the unread remainder; a `none` result is a Python
exception (`IndexError` on an empty read, or the final `SyntaxError` when the
consumed count does not match the declared length).  The fuel only makes the
recursion structural: every iteration increases `count` by at least one, so
`length - count + 1` calls always suffice and `parse` passes `length + 1`. -/
def parse_loop : Nat → Bytes → Nat → Nat → List Cmd →
    Option (List Cmd × Bytes)
  | 0, _, _, _, _ => none
  | fuel + 1, stream, count, length, acc =>
    if count < length then
      match stream with
      | [] => none
      | current_byte :: s =>
        if current_byte ≥ 1 ∧ current_byte ≤ 75 then
          parse_loop fuel (s.drop current_byte) (count + 1 + current_byte) length
            (acc ++ [Cmd.push (s.take current_byte)])
        else if current_byte = 76 then
          let data_length := byte_to_int (s.take 1)
          parse_loop fuel ((s.drop 1).drop data_length) (count + 1 + data_length + 1)
            length (acc ++ [Cmd.push ((s.drop 1).take data_length)])
        else if current_byte = 77 then
          let data_length := byte_to_int (s.take 2)
          parse_loop fuel ((s.drop 2).drop data_length) (count + 1 + data_length + 2)
            length (acc ++ [Cmd.push ((s.drop 2).take data_length)])
        else
          parse_loop fuel s (count + 1) length (acc ++ [Cmd.op current_byte])
    else
      if count = length then some (acc, stream) else none

/-- `Script.parse` from `script.py`: reads a varint total length, then decodes
commands until that many bytes are consumed.  Returns the parsed script and
the unconsumed rest of the stream. -/
def parse (s : Bytes) : Option (Script × Bytes) := do
  let (length, rest) ← read_varint s
  let (commands, rest') ← parse_loop (length + 1) rest 0 length []
  return (⟨commands⟩, rest')

/-- Serialization of one command, as in the body of the `for` loop of
`Script.raw_serialize` (`script.py`).  Note the source's `length < 75` /
`length > 75` conditions, which leave a push of exactly 75 bytes falling
through to the `ValueError` branch. -/
def serialize_cmd : Cmd → Option Bytes
  | Cmd.op n => int_to_byte n
  | Cmd.push command =>
    let length := command.length
    if length < 75 then
      (int_to_byte length).map (· ++ command)
    else if length > 75 ∧ length < 0x100 then do
      let b76 ← int_to_byte 76
      let bl ← int_to_byte length
      return b76 ++ bl ++ command
    else if length ≥ 0x100 ∧ length ≤ 520 then do
      let b77 ← int_to_byte 77
      return b77 ++ int_to_little_endian length 2 ++ command
    else none

/-- `Script.raw_serialize` from `script.py`. -/
def raw_serialize (sc : Script) : Option Bytes :=
  sc.commands.foldlM (fun result command => (serialize_cmd command).map (result ++ ·)) []

/-- `Script.serialize` from `script.py`: the raw serialization wrapped in a
varstr. -/
def serialize (sc : Script) : Option Bytes := do
  let result ← raw_serialize sc
  encode_varstr result

/-- `Script.is_p2pkh` from `script.py`. -/
def is_p2pkh (sc : Script) : Bool :=
  match sc.commands with
  | [Cmd.op 0x76, Cmd.op 0xa9, Cmd.push h, Cmd.op 0x88, Cmd.op 0xac] => h.length = 20
  | _ => false

/-- `Script.is_p2sh` from `script.py`. -/
def is_p2sh (sc : Script) : Bool :=
  match sc.commands with
  | [Cmd.op 0xa9, Cmd.push h, Cmd.op 0x87] => h.length = 20
  | _ => false

/-- `Script.is_p2wpkh` from `script.py`. -/
def is_p2wpkh (sc : Script) : Bool :=
  match sc.commands with
  | [Cmd.op 0x00, Cmd.push h] => h.length = 20
  | _ => false

/-- `Script.is_p2wsh` from `script.py`. -/
def is_p2wsh (sc : Script) : Bool :=
  match sc.commands with
  | [Cmd.op 0x00, Cmd.push h] => h.length = 32
  | _ => false

end Script

/-- `P2PKHScriptPubKey` construction from `script.py`. -/
def P2PKHScriptPubKey (h160 : Bytes) : Script :=
  ⟨[Cmd.op 0x76, Cmd.op 0xa9, Cmd.push h160, Cmd.op 0x88, Cmd.op 0xac]⟩

/-- `P2SHScriptPubKey` construction from `script.py`. -/
def P2SHScriptPubKey (h160 : Bytes) : Script :=
  ⟨[Cmd.op 0xa9, Cmd.push h160, Cmd.op 0x87]⟩

/-! ### Stack-machine opcodes

`op.py` is not part of the sources; the opcode implementations below are
modelled from the spec (§4.2): most ops transform only the main stack,
`OP_IF`/`OP_NOTIF` additionally consume/skip queue entries, the altstack ops
touch the alternate stack, and the four signature-checking ops receive the
signature-hash value `z`.  Python stacks push/pop at the END of the list, and
the canonical false value is the empty byte string. -/

/-- Modelled from the spec: `encode_num` from `op.py` (not in src); zero is
the empty byte string, other values are minimal little-endian (the negative
sign convention is irrelevant here since all modelled values are
non-negative). -/
def encode_num (n : Nat) : Bytes :=
  if h : n = 0 then [] else n % 256 :: encode_num (n / 256)
  decreasing_by exact Nat.div_lt_self (Nat.pos_of_ne_zero h) (by norm_num)

/-- Modelled from the spec: `decode_num` from `op.py` (not in src). -/
def decode_num (bs : Bytes) : Nat :=
  little_endian_to_int bs

/-- Pop the top (last) element of a Python-style stack. -/
def pop1 (stack : List Bytes) : Option (Bytes × List Bytes) :=
  match stack.getLast? with
  | none => none
  | some x => some (x, stack.dropLast)

/-- Modelled from the spec: `op_0`. -/
def op_0 (stack : List Bytes) : Option (List Bytes) :=
  some (stack ++ [encode_num 0])

/-- Modelled from the spec: `op_1` .. `op_16` push the small number `n`. -/
def op_num (n : Nat) (stack : List Bytes) : Option (List Bytes) :=
  some (stack ++ [encode_num n])

/-- Modelled from the spec: `op_verify` pops the top element and fails when it
decodes to zero. -/
def op_verify (stack : List Bytes) : Option (List Bytes) :=
  (pop1 stack).bind fun p => if decode_num p.1 = 0 then none else some p.2

/-- Modelled from the spec: `op_dup`. -/
def op_dup (stack : List Bytes) : Option (List Bytes) :=
  (pop1 stack).map fun p => stack ++ [p.1]

/-- Modelled from the spec: `op_equal` pops two elements and pushes the
encoded comparison result. -/
def op_equal (stack : List Bytes) : Option (List Bytes) :=
  (pop1 stack).bind fun p =>
    (pop1 p.2).map fun q =>
      q.2 ++ [if p.1 = q.1 then encode_num 1 else encode_num 0]

/-- Modelled from the spec: `op_equalverify`. -/
def op_equalverify (stack : List Bytes) : Option (List Bytes) :=
  (op_equal stack).bind op_verify

/-- Modelled from the spec: `op_hash160` pops and pushes the HASH160. -/
def op_hash160 (stack : List Bytes) : Option (List Bytes) :=
  (pop1 stack).map fun p => p.2 ++ [hash160 p.1]

/-- Modelled from the spec: `op_hash256`. -/
def op_hash256 (stack : List Bytes) : Option (List Bytes) :=
  (pop1 stack).map fun p => p.2 ++ [hash256 p.1]

/-- Modelled from the spec: `op_toaltstack`. -/
def op_toaltstack (stack altstack : List Bytes) :
    Option (List Bytes × List Bytes) :=
  (pop1 stack).map fun p => (p.2, altstack ++ [p.1])

/-- Modelled from the spec: `op_fromaltstack`. -/
def op_fromaltstack (stack altstack : List Bytes) :
    Option (List Bytes × List Bytes) :=
  (pop1 altstack).map fun p => (stack ++ [p.1], p.2)

/-- Modelled from the spec: signature creation by the external EC
collaborator, idealized as a canonical concrete byte string determined by the
signature hash and the public key. -/
def make_sig (z : Nat) (sec : Bytes) : Bytes :=
  0x30 :: int_to_big_endian z 32 ++ sec

/-- Modelled from the spec: signature verification by the external EC
collaborator (assumed correct), idealized as comparison with the canonical
signature. -/
def sig_verify (z : Nat) (sec der : Bytes) : Bool :=
  der = make_sig z sec

/-- Modelled from the spec: `op_checksig` pops a public key and a signature
(whose trailing hash-type byte is stripped) and pushes the verification
result. -/
def op_checksig (z : Nat) (stack : List Bytes) : Option (List Bytes) :=
  (pop1 stack).bind fun p =>
    (pop1 p.2).map fun q =>
      q.2 ++ [if sig_verify z p.1 q.1.dropLast then encode_num 1 else encode_num 0]

/-- Modelled from the spec: `op_checksigverify`. -/
def op_checksigverify (z : Nat) (stack : List Bytes) : Option (List Bytes) :=
  (op_checksig z stack).bind op_verify

/-- Pop `n` elements off a Python-style stack, topmost first. -/
def popN : Nat → List Bytes → Option (List Bytes × List Bytes)
  | 0, stack => some ([], stack)
  | n + 1, stack =>
    (pop1 stack).bind fun p =>
      (popN n p.2).map fun q => (p.1 :: q.1, q.2)

/-- Modelled from the spec: greedy in-order matching of each signature against
the remaining public keys, as `op_checkmultisig` requires signatures to appear
in public-key order. -/
def multisig_match (z : Nat) : List Bytes → List Bytes → Bool
  | [], _ => true
  | _ :: _, [] => false
  | der :: sigs, sec :: secs =>
    if sig_verify z sec der then multisig_match z sigs secs
    else multisig_match z (der :: sigs) secs

/-- Modelled from the spec: `op_checkmultisig` pops `n`, `n` public keys, `m`,
`m` signatures, and the extra unused element demanded by the off-by-one
convention, then pushes the verification result. -/
def op_checkmultisig (z : Nat) (stack : List Bytes) : Option (List Bytes) :=
  (pop1 stack).bind fun pn =>
    (popN (decode_num pn.1) pn.2).bind fun psec =>
      (pop1 psec.2).bind fun pm =>
        (popN (decode_num pm.1) pm.2).bind fun psig =>
          (pop1 psig.2).map fun pextra =>
            pextra.2 ++
              [if multisig_match z (psig.1.map List.dropLast) psec.1 then
                  encode_num 1
                else encode_num 0]

/-- Modelled from the spec: `op_checkmultisigverify`. -/
def op_checkmultisigverify (z : Nat) (stack : List Bytes) : Option (List Bytes) :=
  (op_checkmultisig z stack).bind op_verify

/-- Modelled from the spec: the branch-collecting scan of `op_if`/`op_notif`
(branching ops consume/skip queue entries); returns the true-branch items, the
false-branch items and the remaining queue, or `none` when no matching
`OP_ENDIF` is found. -/
def if_scan : List Cmd → Bool → Nat → Option (List Cmd × List Cmd × List Cmd)
  | [], _, _ => none
  | item :: rest, inTrue, depth =>
    match item with
    | Cmd.op 99 =>
      (if_scan rest inTrue (depth + 1)).map fun r =>
        if inTrue then (item :: r.1, r.2.1, r.2.2) else (r.1, item :: r.2.1, r.2.2)
    | Cmd.op 100 =>
      (if_scan rest inTrue (depth + 1)).map fun r =>
        if inTrue then (item :: r.1, r.2.1, r.2.2) else (r.1, item :: r.2.1, r.2.2)
    | Cmd.op 103 =>
      if depth = 1 then if_scan rest false depth
      else
        (if_scan rest inTrue depth).map fun r =>
          if inTrue then (item :: r.1, r.2.1, r.2.2) else (r.1, item :: r.2.1, r.2.2)
    | Cmd.op 104 =>
      if depth = 1 then some ([], [], rest)
      else
        (if_scan rest inTrue (depth - 1)).map fun r =>
          if inTrue then (item :: r.1, r.2.1, r.2.2) else (r.1, item :: r.2.1, r.2.2)
    | _ =>
      (if_scan rest inTrue depth).map fun r =>
        if inTrue then (item :: r.1, r.2.1, r.2.2) else (r.1, item :: r.2.1, r.2.2)

/-- Modelled from the spec: `op_if`; pops the condition and replaces the queue
with the matching branch followed by the remaining items. -/
def op_if (stack : List Bytes) (items : List Cmd) :
    Option (List Bytes × List Cmd) :=
  (pop1 stack).bind fun p =>
    (if_scan items true 1).map fun r =>
      (p.2, (if decode_num p.1 = 0 then r.2.1 else r.1) ++ r.2.2)

/-- Modelled from the spec: `op_notif`. -/
def op_notif (stack : List Bytes) (items : List Cmd) :
    Option (List Bytes × List Cmd) :=
  (pop1 stack).bind fun p =>
    (if_scan items true 1).map fun r =>
      (p.2, (if decode_num p.1 = 0 then r.1 else r.2.1) ++ r.2.2)

/-- Outcome of one opcode or structural-rule application: a new machine
state, an op signalling failure (Python `return False`), or a Python
exception. -/
inductive OpOut (α : Type)
  | ok (a : α)
  | fail
  | err
  deriving DecidableEq

/-- The `OP_CODE_FUNCTIONS` dispatch for ops that touch only the main stack;
`none` is a missing table entry (Python `KeyError`), `some none` an op
returning `False`. -/
def simple_op (n : Nat) (stack : List Bytes) (z : Nat) :
    Option (Option (List Bytes)) :=
  if n = 0 then some (op_0 stack)
  else if 81 ≤ n ∧ n ≤ 96 then some (op_num (n - 80) stack)
  else if n = 105 then some (op_verify stack)
  else if n = 118 then some (op_dup stack)
  else if n = 135 then some (op_equal stack)
  else if n = 136 then some (op_equalverify stack)
  else if n = 169 then some (op_hash160 stack)
  else if n = 170 then some (op_hash256 stack)
  else if n = 172 then some (op_checksig z stack)
  else if n = 173 then some (op_checksigverify z stack)
  else if n = 174 then some (op_checkmultisig z stack)
  else if n = 175 then some (op_checkmultisigverify z stack)
  else none

/-- The opcode dispatch of `Script.evaluate` (`script.py`): branching ops get
the queue, altstack ops the altstack, the signature ops `z`, everything else
only the main stack. -/
def run_op (z : Nat) (n : Nat) (stack : List Bytes) (rest : List Cmd)
    (altstack : List Bytes) : OpOut (List Bytes × List Cmd × List Bytes) :=
  if n = 99 then
    match op_if stack rest with
    | none => .fail
    | some (st, cmds) => .ok (st, cmds, altstack)
  else if n = 100 then
    match op_notif stack rest with
    | none => .fail
    | some (st, cmds) => .ok (st, cmds, altstack)
  else if n = 107 then
    match op_toaltstack stack altstack with
    | none => .fail
    | some (st, alt) => .ok (st, rest, alt)
  else if n = 108 then
    match op_fromaltstack stack altstack with
    | none => .fail
    | some (st, alt) => .ok (st, rest, alt)
  else
    match simple_op n stack z with
    | none => .err
    | some none => .fail
    | some (some st) => .ok (st, rest, altstack)

/-- The P2SH rule of `Script.evaluate` (`script.py`): fires when the queue
holds exactly `[OP_HASH160, 20-byte push, OP_EQUAL]` after a data push; checks
the hash with the ordinary HASH160/EQUAL/VERIFY ops, then splices the parsed
redeem script into the queue. -/
def p2sh_rule (command : Bytes) (stack : List Bytes) (commands : List Cmd) :
    OpOut (List Bytes × List Cmd) :=
  match commands with
  | [Cmd.op 0xa9, Cmd.push h160, Cmd.op 0x87] =>
    if h160.length = 20 then
      match encode_varstr command with
      | none => .err
      | some redeem_script =>
        match op_hash160 stack with
        | none => .fail
        | some st1 =>
          match op_equal (st1 ++ [h160]) with
          | none => .fail
          | some st2 =>
            match op_verify st2 with
            | none => .fail
            | some st3 =>
              match Script.parse redeem_script with
              | none => .err
              | some (sc, _) => .ok (st3, sc.commands)
    else .ok (stack, commands)
  | _ => .ok (stack, commands)

/-- The witness-v0 P2WPKH rule of `Script.evaluate` (`script.py`): a stack of
exactly `[empty, 20-byte hash]` pops both and splices the witness items plus a
P2PKH script for the hash into the queue. -/
def p2wpkh_rule (witness : List Bytes) (stack : List Bytes)
    (commands : List Cmd) : OpOut (List Bytes × List Cmd) :=
  match stack with
  | [e, h160] =>
    if e = [] ∧ h160.length = 20 then
      .ok ([], commands ++ witness.map Cmd.push ++ (P2PKHScriptPubKey h160).commands)
    else .ok (stack, commands)
  | _ => .ok (stack, commands)

/-- The witness-v0 P2WSH rule of `Script.evaluate` (`script.py`): a stack of
exactly `[empty, 32-byte hash]` pops both, checks that the SHA-256 of the last
witness item matches the hash (hard failure otherwise), and splices the other
witness items plus the parsed witness script into the queue. -/
def p2wsh_rule (witness : List Bytes) (stack : List Bytes)
    (commands : List Cmd) : OpOut (List Bytes × List Cmd) :=
  match stack with
  | [e, s256] =>
    if e = [] ∧ s256.length = 32 then
      match witness.getLast? with
      | none => .err
      | some witness_script =>
        if s256 ≠ sha256 witness_script then .fail
        else
          match encode_varstr witness_script with
          | none => .err
          | some vs =>
            match Script.parse vs with
            | none => .err
            | some (sc, _) =>
              .ok ([], commands ++ witness.dropLast.map Cmd.push ++ sc.commands)
    else .ok (stack, commands)
  | _ => .ok (stack, commands)

/-- Processing of one data push in `Script.evaluate` (`script.py`): push onto
the main stack, then apply the three structural rules in sequence, each
inspecting the current stack/queue shape. -/
def push_step (witness : List Bytes) (bs : Bytes) (stack : List Bytes)
    (commands : List Cmd) : OpOut (List Bytes × List Cmd) :=
  match p2sh_rule bs (stack ++ [bs]) commands with
  | .fail => .fail
  | .err => .err
  | .ok (st1, cmds1) =>
    match p2wpkh_rule witness st1 cmds1 with
    | .fail => .fail
    | .err => .err
    | .ok (st2, cmds2) => p2wsh_rule witness st2 cmds2

/-- The body of the `while` loop of `Script.evaluate` (`script.py`), as one
step of a state machine over (queue, main stack, altstack). -/
def eval_step (z : Nat) (witness : List Bytes) (command : Cmd)
    (rest : List Cmd) (stack altstack : List Bytes) :
    OpOut (List Cmd × List Bytes × List Bytes) :=
  match command with
  | Cmd.op n =>
    match run_op z n stack rest altstack with
    | .fail => .fail
    | .err => .err
    | .ok (st, cmds, alt) => .ok (cmds, st, alt)
  | Cmd.push bs =>
    match push_step witness bs stack rest with
    | .fail => .fail
    | .err => .err
    | .ok (st, cmds) => .ok (cmds, st, altstack)

/-- Overall outcome of running the evaluation queue to exhaustion. -/
inductive EvalOutcome
  | done (stack : List Bytes)
  | failed
  | errored
  deriving DecidableEq

/-- The evaluation queue run as a state machine: dequeue and apply `eval_step`
until the queue empties (`done` with the final main stack), an op signals
failure (`failed`), or a Python exception occurs (`errored`); `none` when the
fuel runs out first. -/
def eval_loop (z : Nat) (witness : List Bytes) :
    Nat → List Cmd → List Bytes → List Bytes → Option EvalOutcome
  | 0, _, _, _ => none
  | _ + 1, [], stack, _ => some (.done stack)
  | fuel + 1, command :: rest, stack, altstack =>
    match eval_step z witness command rest stack altstack with
    | .fail => some .failed
    | .err => some .errored
    | .ok (cmds, st, alt) => eval_loop z witness fuel cmds st alt

/-- `Script.evaluate` from `script.py`, translated directly: the `while` loop
with its inline `return False` sites, then the final checks — `False` when the
stack is empty or its top element is the empty byte string, `True` otherwise.
`none` is a Python exception or fuel exhaustion (the source has no instruction
bound; the fuel only makes the recursion well-founded). -/
def evaluate_loop (z : Nat) (witness : List Bytes) :
    Nat → List Cmd → List Bytes → List Bytes → Option Bool
  | 0, _, _, _ => none
  | _ + 1, [], stack, _ =>
    match stack.getLast? with
    | none => some false
    | some top => if top = [] then some false else some true
  | fuel + 1, command :: rest, stack, altstack =>
    match eval_step z witness command rest stack altstack with
    | .fail => some false
    | .err => none
    | .ok (cmds, st, alt) => evaluate_loop z witness fuel cmds st alt

/-- `Script.evaluate` from `script.py`. -/
def Script.evaluate (sc : Script) (z : Nat) (witness : List Bytes)
    (fuel : Nat) : Option Bool :=
  evaluate_loop z witness fuel sc.commands [] []

/-- `RedeemScript.hash160` from `script.py`: HASH160 of the raw
serialization. -/
def RedeemScript.hash160 (sc : Script) : Option Bytes :=
  (Script.raw_serialize sc).map Buidl.hash160

/-- `WitnessScript.sha256` from `script.py`: SHA-256 of the raw
serialization. -/
def WitnessScript.sha256 (sc : Script) : Option Bytes :=
  (Script.raw_serialize sc).map Buidl.sha256

/-! ### Python dictionaries

PSBT maps are Python dicts: insertion-ordered association lists whose keys
are byte strings.  Assigning to an existing key updates it in place;
`{**a, **b}` lists `a`'s keys first (values overridden by `b` on collision)
followed by `b`'s new keys; `sorted(d.keys())` sorts lexicographically. -/

/-- Association list with byte-string keys, in Python dict insertion order. -/
abbrev AList (β : Type) := List (Bytes × β)

/-- Python `d.get(k)`. -/
def dict_get {β : Type} (d : AList β) (k : Bytes) : Option β :=
  (d.find? (fun p => p.1 = k)).map (·.2)

/-- Python `d[k] = v`: update in place when the key exists, append
otherwise. -/
def dict_insert {β : Type} (d : AList β) (k : Bytes) (v : β) : AList β :=
  if d.any (fun p => p.1 = k) then
    d.map (fun p => if p.1 = k then (k, v) else p)
  else d ++ [(k, v)]

/-- Python `{**a, **b}`. -/
def dict_merge {β : Type} (a b : AList β) : AList β :=
  b.foldl (fun acc p => dict_insert acc p.1 p.2) a

/-- Python `d.keys()` (in insertion order). -/
def dict_keys {β : Type} (d : AList β) : List Bytes :=
  d.map (·.1)

/-- Python `sorted(keys)` for byte strings: lexicographic. -/
def sorted_keys (ks : List Bytes) : List Bytes :=
  List.insertionSort (· ≤ ·) ks

/-! ### Lemmas about the Python-dict model -/

section DictLemmas
variable {β : Type}

def alist_wf (d : AList β) : Prop := (d.map Prod.fst).Nodup

instance (d : AList β) : Decidable (alist_wf d) := by
  unfold alist_wf
  infer_instance

theorem dict_get_cons {q : Bytes × β} {b : AList β} {k : Bytes} :
    dict_get (q :: b) k = if q.1 = k then some q.2 else dict_get b k := by
  unfold dict_get
  by_cases hq : q.1 = k
  · simp [List.find?, hq]
  · simp [List.find?, hq]

theorem dict_get_none_of_not_mem {d : AList β} {k : Bytes}
    (h : k ∉ d.map Prod.fst) : dict_get d k = none := by
  have hfind : List.find? (fun p => decide (p.1 = k)) d = none := by
    rw [List.find?_eq_none]
    intro p hp
    simp only [decide_eq_true_eq]
    intro hc
    exact h (hc ▸ List.mem_map_of_mem Prod.fst hp)
  unfold dict_get
  rw [hfind]
  rfl

theorem dict_get_update_of_any {d : AList β} {k : Bytes} {v : β}
    (h : d.any (fun p => p.1 = k) = true) :
    dict_get (d.map (fun p => if p.1 = k then (k, v) else p)) k = some v := by
  induction d with
  | nil => simp at h
  | cons p d ih =>
    by_cases hp : p.1 = k
    · simp [dict_get, List.find?, hp]
    · simp only [List.any_cons, decide_eq_true_eq, Bool.or_eq_true, hp, false_or] at h
      simp only [List.map_cons, if_neg hp, dict_get, List.find?] at ih ⊢
      rw [show (decide (p.1 = k)) = false from by simp [hp]]
      exact ih h

theorem dict_get_update_ne {d : AList β} {k k' : Bytes} {v : β} (hne : k' ≠ k) :
    dict_get (d.map (fun p => if p.1 = k then (k, v) else p)) k' = dict_get d k' := by
  induction d with
  | nil => rfl
  | cons p d ih =>
    by_cases hp : p.1 = k
    · simp only [List.map_cons, if_pos hp, dict_get, List.find?] at ih ⊢
      rw [show (decide (k = k')) = false from by simp [Ne.symm hne],
        show (decide (p.1 = k')) = false from by simp [hp, Ne.symm hne]]
      exact ih
    · simp only [List.map_cons, if_neg hp, dict_get, List.find?] at ih ⊢
      cases hpk : decide (p.1 = k') with
      | true => rfl
      | false => exact ih

theorem dict_get_insert (d : AList β) (k k' : Bytes) (v : β) :
    dict_get (dict_insert d k v) k' = if k' = k then some v else dict_get d k' := by
  unfold dict_insert
  by_cases hany : d.any (fun p => p.1 = k) = true
  · rw [if_pos hany]
    by_cases hk : k' = k
    · subst hk; rw [if_pos rfl]; exact dict_get_update_of_any hany
    · rw [if_neg hk]; exact dict_get_update_ne hk
  · rw [if_neg hany]
    unfold dict_get
    rw [List.find?_append]
    by_cases hk : k' = k
    · subst hk
      rw [List.any_eq_true] at hany
      push_neg at hany
      have hnone : d.find? (fun p => decide (p.1 = k')) = none := by
        rw [List.find?_eq_none]
        intro p hp
        simpa using hany p hp
      rw [hnone]
      simp [List.find?]
    · rw [if_neg hk]
      simp [List.find?, show (decide (k = k')) = false from by simp [Ne.symm hk]]

theorem dict_insert_wf {d : AList β} {k : Bytes} {v : β} (h : alist_wf d) :
    alist_wf (dict_insert d k v) := by
  unfold dict_insert
  by_cases hany : d.any (fun p => p.1 = k) = true
  · rw [if_pos hany]
    unfold alist_wf at h ⊢
    have hmap : (d.map (fun p => if p.1 = k then (k, v) else p)).map Prod.fst =
        d.map Prod.fst := by
      rw [List.map_map]
      apply List.map_congr_left
      intro p _
      by_cases hp : p.1 = k
      · simp [hp]
      · simp [hp]
    rw [hmap]
    exact h
  · rw [if_neg hany]
    unfold alist_wf at h ⊢
    rw [List.map_append, List.nodup_append]
    refine ⟨h, List.nodup_singleton _, ?_⟩
    intro a ha hb
    simp only [List.map_cons, List.map_nil, List.mem_singleton] at hb
    subst hb
    simp only [List.mem_map] at ha
    obtain ⟨p, hp, hpa⟩ := ha
    rw [List.any_eq_true] at hany
    push_neg at hany
    have hthis := hany p hp
    simp at hthis
    exact hthis hpa

theorem dict_merge_wf {a b : AList β} (ha : alist_wf a) :
    alist_wf (dict_merge a b) := by
  induction b generalizing a with
  | nil => exact ha
  | cons q b ih => exact ih (dict_insert_wf ha)

theorem dict_get_merge (a b : AList β) (hb : alist_wf b) (k : Bytes) :
    dict_get (dict_merge a b) k = (dict_get b k).or (dict_get a k) := by
  induction b generalizing a with
  | nil => simp [dict_merge, dict_get, List.find?]
  | cons q b ih =>
    have hb' : alist_wf b := by
      unfold alist_wf at hb ⊢
      simp only [List.map_cons, List.nodup_cons] at hb
      exact hb.2
    have hq : q.1 ∉ b.map Prod.fst := by
      unfold alist_wf at hb
      simp only [List.map_cons, List.nodup_cons] at hb
      exact hb.1
    show dict_get (dict_merge (dict_insert a q.1 q.2) b) k = _
    rw [ih (dict_insert a q.1 q.2) hb', dict_get_insert, dict_get_cons]
    by_cases hk : k = q.1
    · subst hk
      rw [dict_get_none_of_not_mem hq, if_pos rfl, if_pos rfl]
      simp
    · rw [if_neg hk, if_neg (fun hc => hk hc.symm)]

theorem dict_insert_mem {d : AList β} (hwf : alist_wf d) {k : Bytes} {v : β}
    (hmem : (k, v) ∈ d) : dict_insert d k v = d := by
  unfold dict_insert
  have hany : d.any (fun p => p.1 = k) = true := by
    rw [List.any_eq_true]
    exact ⟨(k, v), hmem, by simp⟩
  rw [if_pos hany]
  have hcong : ∀ p ∈ d, (if p.1 = k then (k, v) else p) = id p := by
    intro p hp
    by_cases hpk : p.1 = k
    · have hpe : p = (k, v) :=
        List.inj_on_of_nodup_map hwf hp hmem (by simpa using hpk)
      rw [if_pos hpk, hpe]
      rfl
    · rw [if_neg hpk]
      rfl
  rw [List.map_congr_left hcong, List.map_id]

theorem dict_merge_sub {d e : AList β} (hwf : alist_wf d)
    (hsub : ∀ p ∈ e, p ∈ d) : dict_merge d e = d := by
  induction e with
  | nil => rfl
  | cons q e ih =>
    show dict_merge (dict_insert d q.1 q.2) e = d
    rw [dict_insert_mem hwf (hsub q (List.mem_cons_self q e))]
    exact ih (fun p hp => hsub p (List.mem_cons_of_mem q hp))

theorem dict_merge_self {d : AList β} (hwf : alist_wf d) : dict_merge d d = d :=
  dict_merge_sub hwf (fun _ hp => hp)


end DictLemmas

/-! ### Transactions

`tx.py` and `witness.py` are not part of the sources.  The transaction model
below is modelled from the spec (§6): a transaction exposes per-input
previous-transaction-hash / index / amount / ScriptPubKey, legacy wire
serialization for the unsigned skeleton, and signature-hash computation and
verification as assumed-correct collaborators. -/

/-- Modelled from the spec: `Witness` from `witness.py` (not in src); an item
sequence, serialized as a varint count followed by varstr items.  A Python
`Witness` is truthy exactly when it has items. -/
structure Witness where
  items : List Bytes
  deriving DecidableEq, Inhabited

/-- Modelled from the spec: `Witness.serialize`. -/
def Witness.serialize (w : Witness) : Option Bytes := do
  let count ← encode_varint w.items.length
  w.items.foldlM (fun acc item => (encode_varstr item).map (acc ++ ·)) count

/-- Modelled from the spec: read `count` witness items from the stream. -/
def Witness.parse_items : Nat → Bytes → Option (List Bytes × Bytes)
  | 0, s => some ([], s)
  | n + 1, s => do
    let (item, rest) ← read_varstr s
    let (items, rest') ← Witness.parse_items n rest
    return (item :: items, rest')

/-- Modelled from the spec: `Witness.parse`. -/
def Witness.parse (s : Bytes) : Option (Witness × Bytes) := do
  let (count, rest) ← read_varint s
  let (items, rest') ← Witness.parse_items count rest
  return (⟨items⟩, rest')

/-- Modelled from the spec: `TxOut` from `tx.py` (not in src): amount and
locking ScriptPubKey. -/
structure TxOut where
  amount : Nat
  script_pubkey : Script
  deriving DecidableEq, Inhabited

/-- Modelled from the spec: `TxOut.serialize`: 8-byte little-endian amount
followed by the serialized ScriptPubKey. -/
def TxOut.serialize (o : TxOut) : Option Bytes :=
  (o.script_pubkey.serialize).map (int_to_little_endian o.amount 8 ++ ·)

/-- Modelled from the spec: `TxOut.parse`. -/
def TxOut.parse (s : Bytes) : Option (TxOut × Bytes) := do
  let amount := little_endian_to_int (s.take 8)
  let (spk, rest) ← Script.parse (s.drop 8)
  return (⟨amount, spk⟩, rest)

/-- Modelled from the spec: `TxIn` from `tx.py` (not in src).  `value_cache`
and `script_pubkey_cache` model the `_value`/`_script_pubkey` fields that PSBT
parsing/updating fills so that no full node is needed; the witness is not part
of the legacy serialization. -/
structure TxIn where
  prev_tx : Bytes
  prev_index : Nat
  script_sig : Script
  sequence : Nat
  witness : Witness
  value_cache : Option Nat
  script_pubkey_cache : Option Script
  deriving DecidableEq, Inhabited

/-- Modelled from the spec: `TxIn.serialize` (legacy): previous transaction
hash (32 raw bytes), 4-byte little-endian index, serialized ScriptSig, 4-byte
little-endian sequence. -/
def TxIn.serialize (i : TxIn) : Option Bytes :=
  (i.script_sig.serialize).map fun ss =>
    i.prev_tx ++ int_to_little_endian i.prev_index 4 ++ ss ++
      int_to_little_endian i.sequence 4

/-- Modelled from the spec: `TxIn.parse`. -/
def TxIn.parse (s : Bytes) : Option (TxIn × Bytes) := do
  let prev_tx := s.take 32
  let prev_index := little_endian_to_int ((s.drop 32).take 4)
  let (script_sig, rest) ← Script.parse (s.drop 36)
  let sequence := little_endian_to_int (rest.take 4)
  return (⟨prev_tx, prev_index, script_sig, sequence, ⟨[]⟩, none, none⟩, rest.drop 4)

/-- Modelled from the spec: `Tx` from `tx.py` (not in src); the PSBT skeleton
is legacy-serialized (version, inputs, outputs, locktime). -/
structure Tx where
  version : Nat
  tx_ins : List TxIn
  tx_outs : List TxOut
  locktime : Nat
  deriving DecidableEq, Inhabited

/-- Modelled from the spec: `Tx.serialize` (legacy wire format). -/
def Tx.serialize (t : Tx) : Option Bytes := do
  let nin ← encode_varint t.tx_ins.length
  let ins ← t.tx_ins.foldlM (fun acc i => (TxIn.serialize i).map (acc ++ ·)) nin
  let nout ← encode_varint t.tx_outs.length
  let outs ← t.tx_outs.foldlM (fun acc o => (TxOut.serialize o).map (acc ++ ·)) nout
  return int_to_little_endian t.version 4 ++ ins ++ outs ++
    int_to_little_endian t.locktime 4

/-- Modelled from the spec: read `count` transaction inputs. -/
def Tx.parse_ins : Nat → Bytes → Option (List TxIn × Bytes)
  | 0, s => some ([], s)
  | n + 1, s => do
    let (i, rest) ← TxIn.parse s
    let (is, rest') ← Tx.parse_ins n rest
    return (i :: is, rest')

/-- Modelled from the spec: read `count` transaction outputs. -/
def Tx.parse_outs : Nat → Bytes → Option (List TxOut × Bytes)
  | 0, s => some ([], s)
  | n + 1, s => do
    let (o, rest) ← TxOut.parse s
    let (os, rest') ← Tx.parse_outs n rest
    return (o :: os, rest')

/-- Modelled from the spec: `Tx.parse_legacy` (also used for `Tx.parse`; the
modelled skeleton has no segwit marker). -/
def Tx.parse (s : Bytes) : Option (Tx × Bytes) := do
  let version := little_endian_to_int (s.take 4)
  let (nin, rest1) ← read_varint (s.drop 4)
  let (ins, rest2) ← Tx.parse_ins nin rest1
  let (nout, rest3) ← read_varint rest2
  let (outs, rest4) ← Tx.parse_outs nout rest3
  let locktime := little_endian_to_int (rest4.take 4)
  return (⟨version, ins, outs, locktime⟩, rest4.drop 4)

/-- Modelled from the spec: `Tx.hash`, the double SHA-256 of the
serialization (external hash collaborator). -/
def Tx.hash (t : Tx) : Option Bytes :=
  (t.serialize).map hash256

/-- Modelled from the spec: the signature-hash value `z` for an input,
computed by the external collaborator; idealized as a concrete digest of the
serialized transaction and the input index. -/
def Tx.sig_hash (t : Tx) (i : Nat) : Nat :=
  match t.serialize with
  | some bs => big_endian_to_int (hash256 (bs ++ int_to_little_endian i 4))
  | none => 0

/-- Modelled from the spec: `Tx.verify_input` — evaluate the input's ScriptSig
followed by the spent output's ScriptPubKey (taken from the cached per-input
lookup; unavailable data is a hard failure) against the signature hash and the
input's witness. -/
def Tx.verify_input (t : Tx) (i : Nat) (fuel : Nat) : Option Bool := do
  let tx_in ← t.tx_ins[i]?
  let spk ← tx_in.script_pubkey_cache
  Script.evaluate ⟨tx_in.script_sig.commands ++ spk.commands⟩ (t.sig_hash i)
    tx_in.witness.items fuel

/-- Modelled from the spec: signature check for a legacy input by the external
EC collaborator: the DER signature (hash-type byte stripped) must verify
against the public key for this input's legacy signature hash. -/
def Tx.check_sig_legacy (t : Tx) (i : Nat) (sec sig : Bytes) : Bool :=
  sig_verify (t.sig_hash i) sec sig.dropLast

/-- Modelled from the spec: signature check for a segwit input by the external
EC collaborator. -/
def Tx.check_sig_segwit (t : Tx) (i : Nat) (sec sig : Bytes) : Bool :=
  sig_verify (t.sig_hash i) sec sig.dropLast

/-! ### Public keys and extended keys

`ecc.py` is an external collaborator (EC arithmetic assumed correct): a point
is modelled by its 33-byte compressed SEC encoding.  `hd.py` is in src;
`HDPublicKey` and the `Named…` wrappers below follow it and `psbt.py`. -/

/-- Modelled from the spec: an EC point (`S256Point` from `ecc.py`, not in
src), identified with its compressed SEC encoding. -/
structure S256Point where
  sec_bytes : Bytes
  deriving DecidableEq, Inhabited

/-- Modelled from the spec: `S256Point.parse` accepts a 33-byte compressed SEC
encoding. -/
def S256Point.parse (bs : Bytes) : Option S256Point :=
  if bs.length = 33 then some ⟨bs⟩ else none

/-- `S256Point.sec` (modelled). -/
def S256Point.sec (p : S256Point) : Bytes :=
  p.sec_bytes

/-- `S256Point.hash160` (modelled). -/
def S256Point.hash160 (p : S256Point) : Bytes :=
  Buidl.hash160 p.sec_bytes

/-- Modelled from the spec: HMAC-SHA512 (external hash collaborator),
idealized as a concrete 64-byte digest. -/
def hmac_sha512 (key msg : Bytes) : Bytes :=
  sha256 (1 :: key ++ msg) ++ sha256 (2 :: key ++ msg)

/-- Modelled from the spec: `point + scalar * G` by the external EC
collaborator, idealized as a fresh compressed point derived from both. -/
def S256Point.add_scalar (p : S256Point) (n : Nat) : S256Point :=
  ⟨2 :: (sha256 (p.sec_bytes ++ int_to_big_endian n 32)).take 32⟩

/-- `NamedPublicKey` from `psbt.py`: a public key with its origin fingerprint
and derivation path (`add_raw_path_data`); the fingerprint is the first four
bytes of the raw path. -/
structure NamedPublicKey extends S256Point where
  raw_path : Bytes
  deriving DecidableEq, Inhabited

/-- `NamedPublicKey.root_fingerprint` per `add_raw_path_data` (`psbt.py`). -/
def NamedPublicKey.root_fingerprint (p : NamedPublicKey) : Bytes :=
  p.raw_path.take 4

/-- `NamedPublicKey.parse` from `psbt.py`: the point from the key bytes after
the type tag, the raw path as a varstr from the stream. -/
def NamedPublicKey.parse (key s : Bytes) : Option (NamedPublicKey × Bytes) := do
  let point ← S256Point.parse (key.drop 1)
  let (raw_path, rest) ← read_varstr s
  return (⟨point, raw_path⟩, rest)

/-- `NamedPublicKey.serialize` from `psbt.py`. -/
def NamedPublicKey.serialize (p : NamedPublicKey) (prefix_tag : Bytes) :
    Option Bytes :=
  serialize_key_value (prefix_tag ++ p.sec_bytes) p.raw_path

/-- BIP32 version bytes from `hd.py`. -/
def MAINNET_XPUB : Bytes := [0x04, 0x88, 0xb2, 0x1e]

/-- BIP32 version bytes from `hd.py`. -/
def TESTNET_XPUB : Bytes := [0x04, 0x35, 0x87, 0xcf]

/-- BIP49 version bytes from `hd.py`. -/
def MAINNET_YPUB : Bytes := [0x04, 0x9d, 0x7c, 0xb2]

/-- BIP49 version bytes from `hd.py`. -/
def TESTNET_YPUB : Bytes := [0x04, 0x4a, 0x52, 0x62]

/-- BIP84 version bytes from `hd.py`. -/
def MAINNET_ZPUB : Bytes := [0x04, 0xb2, 0x47, 0x46]

/-- BIP84 version bytes from `hd.py`. -/
def TESTNET_ZPUB : Bytes := [0x04, 0x5f, 0x1c, 0xf6]

/-- `HDPublicKey` from `hd.py`. -/
structure HDPublicKey where
  point : S256Point
  chain_code : Bytes
  depth : Nat
  parent_fingerprint : Bytes
  child_number : Nat
  testnet : Bool
  deriving DecidableEq, Inhabited

/-- `HDPublicKey.sec` from `hd.py`. -/
def HDPublicKey.sec (k : HDPublicKey) : Bytes :=
  k.point.sec

/-- `HDPublicKey.hash160` from `hd.py`. -/
def HDPublicKey.hash160 (k : HDPublicKey) : Bytes :=
  k.point.hash160

/-- `HDPublicKey.fingerprint` from `hd.py`: first four bytes of the
hash160. -/
def HDPublicKey.fingerprint (k : HDPublicKey) : Bytes :=
  k.hash160.take 4

/-- `HDPublicKey.child` from `hd.py`: fails (Python `ValueError`) for hardened
indices; otherwise derives the child point via HMAC-SHA512 of the chain code
with the SEC encoding and the big-endian index. -/
def HDPublicKey.child (k : HDPublicKey) (index : Nat) : Option HDPublicKey :=
  if index ≥ 0x80000000 then none
  else
    let h := hmac_sha512 k.chain_code (k.point.sec ++ int_to_big_endian index 4)
    some
      { point := k.point.add_scalar (big_endian_to_int (h.take 32))
        chain_code := h.drop 32
        depth := k.depth + 1
        parent_fingerprint := k.fingerprint
        child_number := index
        testnet := k.testnet }

/-- `HDPublicKey.raw_serialize`/`_serialize` from `hd.py`: version bytes for
the network, depth byte, parent fingerprint, big-endian child number, chain
code, SEC encoding. -/
def HDPublicKey.raw_serialize (k : HDPublicKey) : Option Bytes := do
  let depth_byte ← int_to_byte k.depth
  return (if k.testnet then TESTNET_XPUB else MAINNET_XPUB) ++ depth_byte ++
    k.parent_fingerprint ++ int_to_big_endian k.child_number 4 ++
    k.chain_code ++ k.point.sec

/-- `HDPublicKey.raw_parse` from `hd.py`. -/
def HDPublicKey.raw_parse (s : Bytes) : Option HDPublicKey := do
  let version := s.take 4
  let testnet ←
    if version = TESTNET_XPUB ∨ version = TESTNET_YPUB ∨ version = TESTNET_ZPUB then
      some true
    else if version = MAINNET_XPUB ∨ version = MAINNET_YPUB ∨ version = MAINNET_ZPUB then
      some false
    else none
  let depth := byte_to_int ((s.drop 4).take 1)
  let parent_fingerprint := (s.drop 5).take 4
  let child_number := big_endian_to_int ((s.drop 9).take 4)
  let chain_code := (s.drop 13).take 32
  let point ← S256Point.parse ((s.drop 45).take 33)
  return ⟨point, chain_code, depth, parent_fingerprint, child_number, testnet⟩

/-- `NamedHDPublicKey` from `psbt.py`: an extended public key with its raw
origin path. -/
structure NamedHDPublicKey extends HDPublicKey where
  raw_path : Bytes
  deriving DecidableEq, Inhabited

/-- `NamedHDPublicKey.root_fingerprint` per `add_raw_path_data`
(`psbt.py`). -/
def NamedHDPublicKey.root_fingerprint (k : NamedHDPublicKey) : Bytes :=
  k.raw_path.take 4

/-- `NamedHDPublicKey.parse` from `psbt.py`: `raw_parse` of the key bytes
after the type tag, then `add_raw_path_data` of a varstr from the stream,
which fails (Python `ValueError`) when the declared depth does not equal the
number of 4-byte path components. -/
def NamedHDPublicKey.parse (key s : Bytes) :
    Option (NamedHDPublicKey × Bytes) := do
  let hd ← HDPublicKey.raw_parse (key.drop 1)
  let (raw_path, rest) ← read_varstr s
  if hd.depth = (raw_path.drop 4).length / 4 then
    return (⟨hd, raw_path⟩, rest)
  else none

/-- `NamedHDPublicKey.child` from `psbt.py`: the HD child with the raw path
extended by the little-endian index. -/
def NamedHDPublicKey.child (k : NamedHDPublicKey) (index : Nat) :
    Option NamedHDPublicKey :=
  (k.toHDPublicKey.child index).map fun hd =>
    ⟨hd, k.raw_path ++ int_to_little_endian index 4⟩

/-- `NamedHDPublicKey.serialize` from `psbt.py`: global-xpub tag plus raw
serialization as the key, the raw path as the value. -/
def NamedHDPublicKey.serialize (k : NamedHDPublicKey) : Option Bytes := do
  let raw ← k.raw_serialize
  serialize_key_value (0x01 :: raw) k.raw_path

/-- `NamedHDPublicKey.is_ancestor` from `psbt.py`: the candidate descendant's
raw path must start with this key's raw path. -/
def NamedHDPublicKey.is_ancestor (k : NamedHDPublicKey)
    (named_pubkey : NamedPublicKey) : Bool :=
  k.raw_path.isPrefixOf named_pubkey.raw_path

/-- The `while` loop of `NamedHDPublicKey.verify_descendent` (`psbt.py`):
derive children along the 4-byte little-endian suffix components; `none` is a
Python exception from a hardened index. -/
def NamedHDPublicKey.derive_remainder (k : NamedHDPublicKey) :
    Bytes → Option NamedHDPublicKey
  | [] => some k
  | b :: rest => do
    let child_index := little_endian_to_int ((b :: rest).take 4)
    let c ← k.child child_index
    NamedHDPublicKey.derive_remainder c (rest.drop 3)
  termination_by remainder => remainder.length
  decreasing_by
    simp only [List.length_drop, List.length_cons]
    omega

/-- `NamedHDPublicKey.verify_descendent` from `psbt.py`: re-derive along the
path suffix and compare the resulting point; fails (Python exception) when the
path is not a descendant or derivation hits a hardened index. -/
def NamedHDPublicKey.verify_descendent (k : NamedHDPublicKey)
    (named_pubkey : NamedPublicKey) : Option Bool := do
  if ¬ k.is_ancestor named_pubkey then none
  else do
    let c ← k.derive_remainder (named_pubkey.raw_path.drop k.raw_path.length)
    return c.point = named_pubkey.toS256Point

/-! ### PSBT input state (`psbt.py`, in src)

Python exceptions are mapped to the spec's §7 error categories:
`raise ValueError`/`KeyError` at validate/combine sites become
`Err.consistencyErr`, the finalize-time `RuntimeError`s become
`Err.finalizeErr`, and incidental exceptions (`IndexError`,
`AttributeError`, failures inside modelled collaborators) become
`Err.valueErr`. -/

/-- Spec §7 error categories. -/
inductive Err
  | formatErr
  | consistencyErr
  | finalizeErr
  | valueErr
  deriving DecidableEq

/-- Python truthiness of an optional int: `None` and `0` are falsy. -/
def truthy_nat : Option Nat → Bool
  | none => false
  | some n => n ≠ 0

/-- Python truthiness of an optional byte string: `None` and `b""` are
falsy. -/
def truthy_bytes : Option Bytes → Bool
  | none => false
  | some b => b ≠ []

/-- Python truthiness of an optional `Witness`: `None` and an empty witness
are falsy (modelled from the spec's "a non-empty ScriptSig or witness"). -/
def truthy_witness : Option Witness → Bool
  | none => false
  | some w => w.items ≠ []

/-- Python's `if cond: raise e` as an `Except` statement. -/
def err_if (c : Prop) [Decidable c] (e : Err) : Except Err Unit :=
  if c then throw e else pure ()

theorem err_if_pos {c : Prop} [Decidable c] {e : Err} (h : c) :
    err_if c e = throw e := by
  simp [err_if, h]

theorem err_if_neg {c : Prop} [Decidable c] {e : Err} (h : ¬ c) :
    err_if c e = pure () := by
  simp [err_if, h]

theorem except_bind_ok {ε α β : Type} {m : Except ε α} {f : α → Except ε β}
    {b : β} : (m >>= f) = Except.ok b ↔ ∃ a, m = Except.ok a ∧ f a = Except.ok b := by
  cases m <;> simp [Bind.bind, Except.bind]

theorem except_bind_error {ε α β : Type} {m : Except ε α} {f : α → Except ε β}
    {e : ε} : (m >>= f) = Except.error e ↔
      m = Except.error e ∨ ∃ a, m = Except.ok a ∧ f a = Except.error e := by
  cases m <;> simp [Bind.bind, Except.bind]

theorem err_if_bind_ok {β : Type} {c : Prop} [Decidable c] {e : Err}
    {f : Unit → Except Err β} {b : β} :
    (err_if c e >>= f) = Except.ok b ↔ ¬ c ∧ f () = Except.ok b := by
  by_cases h : c <;>
    simp [err_if, h, Bind.bind, Except.bind, throw, throwThe, MonadExcept.throw, pure,
      Except.pure]

theorem pure_bind_except {ε α β : Type} {a : α} {f : α → Except ε β} :
    (pure a >>= f : Except ε β) = f a := rfl

theorem throw_bind_except {α β : Type} {e : Err} {f : α → Except Err β} :
    ((throw e : Except Err α) >>= f) = Except.error e := rfl

/-- `script.commands[i]`, `none` being a Python `IndexError`. -/
def Script.command_at (sc : Script) (i : Nat) : Option Cmd :=
  sc.commands[i]?

/-- `NamedPublicKey.hash160` (via its point). -/
def NamedPublicKey.hash160 (p : NamedPublicKey) : Bytes :=
  p.toS256Point.hash160

/-- `PSBTIn` from `psbt.py`. -/
structure PSBTIn where
  tx_in : TxIn
  prev_tx : Option Tx
  prev_out : Option TxOut
  sigs : AList Bytes
  hash_type : Option Nat
  redeem_script : Option Script
  witness_script : Option Script
  named_pubs : AList NamedPublicKey
  script_sig : Option Script
  witness : Option Witness
  extra_map : AList Bytes
  deriving DecidableEq, Inhabited

/-- `PSBTIn.script_pubkey` from `psbt.py`: the spent output's ScriptPubKey
from whichever provenance field is set (`some none` when neither is); the
outer `none` is the `IndexError` from an out-of-range `prev_index`. -/
def PSBTIn.script_pubkey (pin : PSBTIn) : Option (Option Script) :=
  match pin.prev_tx with
  | some prev_tx =>
    (prev_tx.tx_outs[pin.tx_in.prev_index]?).map (fun o => some o.script_pubkey)
  | none =>
    match pin.prev_out with
    | some prev_out => some (some prev_out.script_pubkey)
    | none => some none

/-- `PSBTIn.validate` from `psbt.py`. -/
def PSBTIn.validate (pin : PSBTIn) : Except Err Unit := do
  let spk_opt ←
    match pin.script_pubkey with
    | none => throw Err.valueErr
    | some so => pure so
  match pin.prev_tx with
  | some prev_tx => do
    let h ←
      match prev_tx.hash with
      | none => throw Err.valueErr
      | some h => pure h
    err_if (pin.tx_in.prev_tx ≠ h) Err.consistencyErr
    err_if (pin.tx_in.prev_index ≥ prev_tx.tx_outs.length) Err.consistencyErr
    let spk ←
      match spk_opt with
      | none => throw Err.valueErr
      | some spk => pure spk
    match pin.redeem_script with
    | some redeem_script => do
      err_if (¬ spk.is_p2sh) Err.consistencyErr
      err_if (redeem_script.is_p2wsh ∨ redeem_script.is_p2wpkh) Err.consistencyErr
      let h160 ←
        match spk.command_at 1 with
        | none => throw Err.valueErr
        | some c => pure c
      let rh ←
        match RedeemScript.hash160 redeem_script with
        | none => throw Err.valueErr
        | some rh => pure rh
      err_if (Cmd.push rh ≠ h160) Err.consistencyErr
      err_if (¬ pin.named_pubs.all (fun p => Cmd.push p.1 ∈ redeem_script.commands))
        Err.consistencyErr
    | none =>
      if spk.is_p2pkh then do
        err_if (pin.named_pubs.length > 1) Err.consistencyErr
        if pin.named_pubs.length = 1 then do
          let named_pub ←
            match pin.named_pubs.head? with
            | none => throw Err.valueErr
            | some q => pure q.2
          err_if (spk.command_at 2 ≠ some (Cmd.push named_pub.hash160))
            Err.consistencyErr
  | none =>
    match pin.prev_out with
    | some prev_out => do
      let spk := prev_out.script_pubkey
      err_if (¬ (spk.is_p2sh ∨ spk.is_p2wsh ∨ spk.is_p2wpkh)) Err.consistencyErr
      match pin.witness_script with
      | some witness_script => do
        err_if (¬ (spk.is_p2wsh ∨
            (pin.redeem_script.isSome ∧
              (pin.redeem_script.getD ⟨[]⟩).is_p2wsh))) Err.consistencyErr
        let s256 ←
          match pin.redeem_script with
          | some redeem_script => do
            let h160 ←
              match spk.command_at 1 with
              | none => throw Err.valueErr
              | some c => pure c
            let rh ←
              match RedeemScript.hash160 redeem_script with
              | none => throw Err.valueErr
              | some rh => pure rh
            err_if (Cmd.push rh ≠ h160) Err.consistencyErr
            match redeem_script.command_at 1 with
            | none => throw Err.valueErr
            | some c => pure c
          | none =>
            match spk.command_at 1 with
            | none => throw Err.valueErr
            | some c => pure c
        let ws ←
          match WitnessScript.sha256 witness_script with
          | none => throw Err.valueErr
          | some ws => pure ws
        err_if (Cmd.push ws ≠ s256) Err.consistencyErr
        err_if (¬ pin.named_pubs.all (fun p => Cmd.push p.1 ∈ witness_script.commands))
          Err.consistencyErr
      | none =>
        if spk.is_p2wpkh ∨
            (pin.redeem_script.isSome ∧
              (pin.redeem_script.getD ⟨[]⟩).is_p2wpkh) then do
          err_if (pin.named_pubs.length > 1) Err.consistencyErr
          if pin.named_pubs.length = 1 then do
            let named_pub ←
              match pin.named_pubs.head? with
              | none => throw Err.valueErr
              | some q => pure q.2
            err_if (spk.command_at 1 ≠ some (Cmd.push named_pub.hash160))
              Err.consistencyErr
    | none => pure ()

/-- `PSBTIn.__init__` from `psbt.py`: rejects both provenance fields being
set, then validates. -/
def PSBTIn.init (tx_in : TxIn) (prev_tx : Option Tx) (prev_out : Option TxOut)
    (sigs : AList Bytes) (hash_type : Option Nat)
    (redeem_script witness_script : Option Script)
    (named_pubs : AList NamedPublicKey) (script_sig : Option Script)
    (witness : Option Witness) (extra_map : AList Bytes) :
    Except Err PSBTIn := do
  err_if (prev_tx.isSome ∧ prev_out.isSome) Err.consistencyErr
  let pin : PSBTIn := ⟨tx_in, prev_tx, prev_out, sigs, hash_type, redeem_script,
    witness_script, named_pubs, script_sig, witness, extra_map⟩
  pin.validate
  return pin

/-- `PSBTIn.combine` from `psbt.py`: fill-in-if-absent for single-valued
fields (respecting Python truthiness of the other side), Python dict merges
for the maps — note that `other` wins on collision for `sigs`, while `self`
wins for `named_pubs` and `extra_map`. -/
def PSBTIn.combine (self other : PSBTIn) : PSBTIn :=
  { self with
    prev_tx := if self.prev_tx.isNone ∧ other.prev_tx.isSome then other.prev_tx
      else self.prev_tx
    prev_out := if self.prev_out.isNone ∧ other.prev_out.isSome then other.prev_out
      else self.prev_out
    sigs := dict_merge self.sigs other.sigs
    hash_type := if self.hash_type.isNone ∧ truthy_nat other.hash_type then
        other.hash_type
      else self.hash_type
    redeem_script := if self.redeem_script.isNone ∧ other.redeem_script.isSome then
        other.redeem_script
      else self.redeem_script
    witness_script := if self.witness_script.isNone ∧ other.witness_script.isSome then
        other.witness_script
      else self.witness_script
    named_pubs := dict_merge other.named_pubs self.named_pubs
    script_sig := if self.script_sig.isNone ∧ other.script_sig.isSome then
        other.script_sig
      else self.script_sig
    witness := if self.witness.isNone ∧ truthy_witness other.witness then
        other.witness
      else self.witness
    extra_map := dict_merge other.extra_map self.extra_map }

/-- Modelled from the spec: `op_code_to_number` from `helper.py` (not in
src); the integer value of a small numeric opcode, failing on anything
else. -/
def op_code_to_number : Cmd → Option Nat
  | Cmd.op 0 => some 0
  | Cmd.op n => if 81 ≤ n ∧ n ≤ 96 then some (n - 80) else none
  | Cmd.push _ => none

/-- The signature-collecting loop of `PSBTIn.finalize` (`psbt.py`): walk the
redeem/witness script's commands in order, append the signature for each
public key that has one, and break as soon as `need` signatures are
collected (the check runs after every command).  The p2sh variant's explicit
`continue` on integer commands collapses to the same function, since an
integer command never matches a byte-string key and the skipped break-check
is a no-op when nothing was appended. -/
def multisig_collect (sigs : AList Bytes) (need : Nat) :
    List Cmd → Nat → List Bytes
  | [], _ => []
  | c :: rest, have_n =>
    match c with
    | Cmd.push pk =>
      match dict_get sigs pk with
      | some sig =>
        if have_n + 1 ≥ need then [sig]
        else sig :: multisig_collect sigs need rest (have_n + 1)
      | none =>
        if have_n ≥ need then [] else multisig_collect sigs need rest have_n
    | Cmd.op _ =>
      if have_n ≥ need then [] else multisig_collect sigs need rest have_n

/-- The unlocking-data assembly of `PSBTIn.finalize` (`psbt.py`): everything
before the final clearing assignments — shape dispatch, signature-count
checks, and construction of the final ScriptSig/witness pair. -/
def PSBTIn.finalize_unlock (pin : PSBTIn) :
    Except Err (Option Script × Option Witness) := do
  let spk ←
    match pin.script_pubkey with
    | none => throw Err.valueErr
    | some none => throw Err.valueErr
    | some (some spk) => pure spk
  err_if (spk.is_p2sh ∧ pin.redeem_script.isNone) Err.finalizeErr
  if spk.is_p2wpkh ∨
      (pin.redeem_script.isSome ∧ (pin.redeem_script.getD ⟨[]⟩).is_p2wpkh) then do
    err_if (pin.sigs.length ≠ 1) Err.finalizeErr
    let (sec, sig) ←
      match pin.sigs.head? with
      | none => throw Err.valueErr
      | some q => pure q
    let ss ←
      match pin.redeem_script with
      | some rs =>
        match rs.raw_serialize with
        | none => throw Err.valueErr
        | some raw => pure (Script.mk [Cmd.push raw])
      | none => pure (Script.mk [])
    pure (some ss, some (Witness.mk [sig, sec]))
  else if spk.is_p2wsh ∨
      (pin.redeem_script.isSome ∧ (pin.redeem_script.getD ⟨[]⟩).is_p2wsh) then do
    let ws ←
      match pin.witness_script with
      | none => throw Err.finalizeErr
      | some ws => pure ws
    let c0 ←
      match ws.command_at 0 with
      | none => throw Err.valueErr
      | some c => pure c
    let num_sigs ←
      match op_code_to_number c0 with
      | none => throw Err.valueErr
      | some n => pure n
    err_if (pin.sigs.length < num_sigs) Err.finalizeErr
    let collected := multisig_collect pin.sigs num_sigs ws.commands 0
    err_if (collected.length < num_sigs) Err.finalizeErr
    let raw_ws ←
      match ws.raw_serialize with
      | none => throw Err.valueErr
      | some raw => pure raw
    let ss ←
      match pin.redeem_script with
      | some rs =>
        match rs.raw_serialize with
        | none => throw Err.valueErr
        | some raw => pure (Script.mk [Cmd.push raw])
      | none => pure (Script.mk [])
    pure (some ss, some (Witness.mk ([0x00] :: collected ++ [raw_ws])))
  else if spk.is_p2sh then do
    let rs ←
      match pin.redeem_script with
      | none => throw Err.valueErr
      | some rs => pure rs
    let c0 ←
      match rs.command_at 0 with
      | none => throw Err.valueErr
      | some c => pure c
    let num_sigs ←
      match op_code_to_number c0 with
      | none => throw Err.valueErr
      | some n => pure n
    err_if (pin.sigs.length < num_sigs) Err.finalizeErr
    let collected := multisig_collect pin.sigs num_sigs rs.commands 0
    err_if (1 + collected.length < num_sigs) Err.finalizeErr
    let raw_rs ←
      match rs.raw_serialize with
      | none => throw Err.valueErr
      | some raw => pure raw
    pure (some (Script.mk (Cmd.op 0 :: collected.map Cmd.push ++ [Cmd.push raw_rs])),
      pin.witness)
  else if spk.is_p2pkh then do
    err_if (pin.sigs.length ≠ 1) Err.finalizeErr
    let (sec, sig) ←
      match pin.sigs.head? with
      | none => throw Err.valueErr
      | some q => pure q
    pure (some (Script.mk [Cmd.push sig, Cmd.push sec]), pin.witness)
  else throw Err.valueErr

/-- The clearing tail of `PSBTIn.finalize` (`psbt.py`): install the final
unlocking data and reset the signing-only fields. -/
def PSBTIn.clear_finalized (pin : PSBTIn)
    (sw : Option Script × Option Witness) : PSBTIn :=
  { pin with
    script_sig := sw.1
    witness := sw.2
    sigs := []
    hash_type := none
    redeem_script := none
    witness_script := none
    named_pubs := [] }

/-- `PSBTIn.finalize` from `psbt.py`: assemble the final unlocking
script/witness by shape, then irreversibly clear the signing-only fields. -/
def PSBTIn.finalize (pin : PSBTIn) : Except Err PSBTIn := do
  let sw ← pin.finalize_unlock
  return pin.clear_finalized sw

/-- Sorted emission of a Python dict: `for key in sorted(d.keys()):
emit(key, d[key])`. -/
def emit_sorted {β : Type} (d : AList β) (f : Bytes → β → Option Bytes) :
    Option Bytes :=
  (sorted_keys (dict_keys d)).foldlM
    (fun acc k =>
      match dict_get d k with
      | none => none
      | some v => (f k v).map (acc ++ ·))
    []

/-- The signature-key ordering of `PSBTIn.serialize` (`psbt.py`): script
order when a witness script (or a non-p2wpkh redeem script) is present —
dropping signatures whose keys are not script commands — and sorted key
order otherwise. -/
def PSBTIn.sig_keys (pin : PSBTIn) : List Bytes :=
  match pin.witness_script with
  | some ws =>
    ws.commands.filterMap fun c =>
      match c with
      | Cmd.push b => if truthy_bytes (dict_get pin.sigs b) then some b else none
      | Cmd.op _ => none
  | none =>
    match pin.redeem_script with
    | some rs =>
      if ¬ rs.is_p2wpkh then
        rs.commands.filterMap fun c =>
          match c with
          | Cmd.push b => if truthy_bytes (dict_get pin.sigs b) then some b else none
          | Cmd.op _ => none
      else sorted_keys (dict_keys pin.sigs)
    | none => sorted_keys (dict_keys pin.sigs)

/-- `PSBTIn.serialize` from `psbt.py`. -/
def PSBTIn.serialize (pin : PSBTIn) : Option Bytes := do
  let part_prev ←
    match pin.prev_tx with
    | some prev_tx => do
      let t ← prev_tx.serialize
      serialize_key_value [0x00] t
    | none =>
      match pin.prev_out with
      | some prev_out => do
        let o ← prev_out.serialize
        serialize_key_value [0x01] o
      | none => some []
  let part_sigs ← (pin.sig_keys).foldlM
    (fun acc k => do
      let v ← dict_get pin.sigs k
      let r ← serialize_key_value (0x02 :: k) v
      pure (acc ++ r))
    part_prev
  let part_ht ←
    match pin.hash_type with
    | some ht =>
      if ht ≠ 0 then
        (serialize_key_value [0x03] (int_to_little_endian ht 4)).map (part_sigs ++ ·)
      else some part_sigs
    | none => some part_sigs
  let part_rs ←
    match pin.redeem_script with
    | some rs => do
      let raw ← rs.raw_serialize
      (serialize_key_value [0x04] raw).map (part_ht ++ ·)
    | none => some part_ht
  let part_ws ←
    match pin.witness_script with
    | some ws => do
      let raw ← ws.raw_serialize
      (serialize_key_value [0x05] raw).map (part_rs ++ ·)
    | none => some part_rs
  let part_np ← (emit_sorted pin.named_pubs
    (fun _ np => np.serialize [0x06])).map (part_ws ++ ·)
  let part_ss ←
    match pin.script_sig with
    | some ss => do
      let raw ← ss.raw_serialize
      (serialize_key_value [0x07] raw).map (part_np ++ ·)
    | none => some part_np
  let part_w ←
    match pin.witness with
    | some w =>
      if w.items ≠ [] then do
        let ws ← w.serialize
        (serialize_key_value [0x08] ws).map (part_ss ++ ·)
      else some part_ss
    | none => some part_ss
  let part_extra ← (emit_sorted pin.extra_map
    (fun k v => do
      let ek ← encode_varstr k
      let ev ← encode_varstr v
      pure (ek ++ ev))).map (part_w ++ ·)
  return part_extra ++ [0x00]

/-- The local variables of `PSBTIn.parse` (`psbt.py`) while its record loop
runs; `tx_in` is the transaction input being enriched with the `_value` /
`_script_pubkey` caches. -/
structure InFields where
  tx_in : TxIn
  prev_tx : Option Tx := none
  prev_out : Option TxOut := none
  sigs : AList Bytes := []
  hash_type : Option Nat := none
  redeem_script : Option Script := none
  witness_script : Option Script := none
  named_pubs : AList NamedPublicKey := []
  script_sig : Option Script := none
  witness : Option Witness := none
  extra_map : AList Bytes := []
  deriving DecidableEq, Inhabited

/-- The record loop of `PSBTIn.parse` (`psbt.py`): read a varstr key,
dispatch on its leading type byte, stop at the empty key.  `none` is a Python
exception (duplicate key, wrong key length, malformed value) or fuel
exhaustion; the fuel only makes the recursion well-founded (each iteration
consumes at least one byte). -/
def PSBTIn.parse_loop : Nat → Bytes → InFields → Option (InFields × Bytes)
  | 0, _, _ => none
  | fuel + 1, s, st => do
    let (key, rest) ← read_varstr s
    if key = [] then some (st, rest)
    else if key.take 1 = [0x00] then do
      if key.length ≠ 1 then none
      else if st.prev_tx.isSome then none
      else do
        let (tx_len, r1) ← read_varint rest
        let (prev_tx, r2) ← Tx.parse r1
        let tser ← prev_tx.serialize
        if tser.length ≠ tx_len then none
        else do
          let out ← prev_tx.tx_outs[st.tx_in.prev_index]?
          PSBTIn.parse_loop fuel r2
            { st with
              prev_tx := some prev_tx
              tx_in := { st.tx_in with
                value_cache := some out.amount
                script_pubkey_cache := some out.script_pubkey } }
    else if key.take 1 = [0x01] then do
      let (tx_out_len, r1) ← read_varint rest
      if key.length ≠ 1 then none
      else if st.prev_out.isSome then none
      else do
        let (prev_out, r2) ← TxOut.parse r1
        let oser ← prev_out.serialize
        if oser.length ≠ tx_out_len then none
        else
          PSBTIn.parse_loop fuel r2
            { st with
              prev_out := some prev_out
              tx_in := { st.tx_in with
                value_cache := some prev_out.amount
                script_pubkey_cache := some prev_out.script_pubkey } }
    else if key.take 1 = [0x02] then do
      if truthy_bytes (dict_get st.sigs (key.drop 1)) then none
      else do
        let (sig, r1) ← read_varstr rest
        PSBTIn.parse_loop fuel r1
          { st with sigs := dict_insert st.sigs (key.drop 1) sig }
    else if key.take 1 = [0x03] then do
      if key.length ≠ 1 then none
      else if truthy_nat st.hash_type then none
      else do
        let (v, r1) ← read_varstr rest
        PSBTIn.parse_loop fuel r1
          { st with hash_type := some (little_endian_to_int v) }
    else if key.take 1 = [0x04] then do
      if key.length ≠ 1 then none
      else if st.redeem_script.isSome then none
      else do
        let (rs, r1) ← Script.parse rest
        PSBTIn.parse_loop fuel r1 { st with redeem_script := some rs }
    else if key.take 1 = [0x05] then do
      if key.length ≠ 1 then none
      else if st.witness_script.isSome then none
      else do
        let (ws, r1) ← Script.parse rest
        PSBTIn.parse_loop fuel r1 { st with witness_script := some ws }
    else if key.take 1 = [0x06] then do
      if key.length ≠ 34 then none
      else do
        let (np, r1) ← NamedPublicKey.parse key rest
        PSBTIn.parse_loop fuel r1
          { st with named_pubs := dict_insert st.named_pubs np.sec_bytes np }
    else if key.take 1 = [0x07] then do
      if key.length ≠ 1 then none
      else if st.script_sig.isSome then none
      else do
        let (ss, r1) ← Script.parse rest
        PSBTIn.parse_loop fuel r1 { st with script_sig := some ss }
    else if key.take 1 = [0x08] then do
      if key.length ≠ 1 then none
      else if truthy_witness st.witness then none
      else do
        let (_, r1) ← read_varint rest
        let (w, r2) ← Witness.parse r1
        PSBTIn.parse_loop fuel r2 { st with witness := some w }
    else do
      if truthy_bytes (dict_get st.extra_map key) then none
      else do
        let (v, r1) ← read_varstr rest
        PSBTIn.parse_loop fuel r1
          { st with extra_map := dict_insert st.extra_map key v }

/-- `PSBTIn.parse` from `psbt.py`: run the record loop, then construct via
the class constructor (which checks provenance exclusivity and validates). -/
def PSBTIn.parse (fuel : Nat) (s : Bytes) (tx_in : TxIn) :
    Option (PSBTIn × Bytes) := do
  let (st, rest) ← PSBTIn.parse_loop fuel s { tx_in := tx_in }
  match PSBTIn.init st.tx_in st.prev_tx st.prev_out st.sigs st.hash_type
      st.redeem_script st.witness_script st.named_pubs st.script_sig
      st.witness st.extra_map with
  | Except.error _ => none
  | Except.ok pin => some (pin, rest)

/-! ### PSBT output state (`psbt.py`, in src) -/

/-- `PSBTOut` from `psbt.py`. -/
structure PSBTOut where
  tx_out : TxOut
  redeem_script : Option Script
  witness_script : Option Script
  named_pubs : AList NamedPublicKey
  extra_map : AList Bytes
  deriving DecidableEq, Inhabited

/-- `PSBTOut.validate` from `psbt.py`. -/
def PSBTOut.validate (po : PSBTOut) : Except Err Unit := do
  let spk := po.tx_out.script_pubkey
  if spk.is_p2pkh then do
    err_if po.redeem_script.isSome Err.consistencyErr
    err_if po.witness_script.isSome Err.consistencyErr
    err_if (po.named_pubs.length > 1) Err.consistencyErr
    if po.named_pubs.length = 1 then do
      let named_pub ←
        match po.named_pubs.head? with
        | none => throw Err.valueErr
        | some q => pure q.2
      err_if (spk.command_at 2 ≠ some (Cmd.push named_pub.hash160))
        Err.consistencyErr
  else if spk.is_p2wpkh then do
    err_if po.redeem_script.isSome Err.consistencyErr
    err_if po.witness_script.isSome Err.consistencyErr
    err_if (po.named_pubs.length > 1) Err.consistencyErr
    if po.named_pubs.length = 1 then do
      let named_pub ←
        match po.named_pubs.head? with
        | none => throw Err.valueErr
        | some q => pure q.2
      err_if (spk.command_at 1 ≠ some (Cmd.push named_pub.hash160))
        Err.consistencyErr
  else
    match po.witness_script with
    | some witness_script => do
      let s256 ←
        match po.redeem_script with
        | some redeem_script => do
          let h160 ←
            match spk.command_at 1 with
            | none => throw Err.valueErr
            | some c => pure c
          let rh ←
            match RedeemScript.hash160 redeem_script with
            | none => throw Err.valueErr
            | some rh => pure rh
          err_if (Cmd.push rh ≠ h160) Err.consistencyErr
          match redeem_script.command_at 1 with
          | none => throw Err.valueErr
          | some c => pure c
        | none =>
          match spk.command_at 1 with
          | none => throw Err.valueErr
          | some c => pure c
      let ws ←
        match WitnessScript.sha256 witness_script with
        | none => throw Err.valueErr
        | some ws => pure ws
      err_if (Cmd.push ws ≠ s256) Err.consistencyErr
      err_if (¬ po.named_pubs.all (fun p => Cmd.push p.1 ∈ witness_script.commands))
        Err.consistencyErr
    | none =>
      match po.redeem_script with
      | some redeem_script =>
        if ¬ po.named_pubs.all (fun p => Cmd.push p.1 ∈ redeem_script.commands) then
          throw Err.consistencyErr
        else pure ()
      | none => pure ()

/-- `PSBTOut.__init__` from `psbt.py`. -/
def PSBTOut.init (tx_out : TxOut) (redeem_script witness_script : Option Script)
    (named_pubs : AList NamedPublicKey) (extra_map : AList Bytes) :
    Except Err PSBTOut := do
  let po : PSBTOut := ⟨tx_out, redeem_script, witness_script, named_pubs, extra_map⟩
  po.validate
  return po

/-- `PSBTOut.serialize` from `psbt.py`. -/
def PSBTOut.serialize (po : PSBTOut) : Option Bytes := do
  let part_rs ←
    match po.redeem_script with
    | some rs => do
      let raw ← rs.raw_serialize
      serialize_key_value [0x00] raw
    | none => some []
  let part_ws ←
    match po.witness_script with
    | some ws => do
      let raw ← ws.raw_serialize
      (serialize_key_value [0x01] raw).map (part_rs ++ ·)
    | none => some part_rs
  let part_np ← (emit_sorted po.named_pubs
    (fun _ np => np.serialize [0x02])).map (part_ws ++ ·)
  let part_extra ← (emit_sorted po.extra_map
    (fun k v => do
      let ek ← encode_varstr k
      let ev ← encode_varstr v
      pure (ek ++ ev))).map (part_np ++ ·)
  return part_extra ++ [0x00]

/-- The local variables of `PSBTOut.parse` (`psbt.py`). -/
structure OutFields where
  redeem_script : Option Script := none
  witness_script : Option Script := none
  named_pubs : AList NamedPublicKey := []
  extra_map : AList Bytes := []
  deriving DecidableEq, Inhabited

/-- The record loop of `PSBTOut.parse` (`psbt.py`). -/
def PSBTOut.parse_loop : Nat → Bytes → OutFields → Option (OutFields × Bytes)
  | 0, _, _ => none
  | fuel + 1, s, st => do
    let (key, rest) ← read_varstr s
    if key = [] then some (st, rest)
    else if key.take 1 = [0x00] then do
      if key.length ≠ 1 then none
      else if st.redeem_script.isSome then none
      else do
        let (rs, r1) ← Script.parse rest
        PSBTOut.parse_loop fuel r1 { st with redeem_script := some rs }
    else if key.take 1 = [0x01] then do
      if key.length ≠ 1 then none
      else if st.witness_script.isSome then none
      else do
        let (ws, r1) ← Script.parse rest
        PSBTOut.parse_loop fuel r1 { st with witness_script := some ws }
    else if key.take 1 = [0x02] then do
      if key.length ≠ 34 then none
      else do
        let (np, r1) ← NamedPublicKey.parse key rest
        PSBTOut.parse_loop fuel r1
          { st with named_pubs := dict_insert st.named_pubs np.sec_bytes np }
    else do
      if truthy_bytes (dict_get st.extra_map key) then none
      else do
        let (v, r1) ← read_varstr rest
        PSBTOut.parse_loop fuel r1
          { st with extra_map := dict_insert st.extra_map key v }

/-- `PSBTOut.parse` from `psbt.py`. -/
def PSBTOut.parse (fuel : Nat) (s : Bytes) (tx_out : TxOut) :
    Option (PSBTOut × Bytes) := do
  let (st, rest) ← PSBTOut.parse_loop fuel s {}
  match PSBTOut.init tx_out st.redeem_script st.witness_script st.named_pubs
      st.extra_map with
  | Except.error _ => none
  | Except.ok po => some (po, rest)

/-- `PSBTOut.combine` from `psbt.py`. -/
def PSBTOut.combine (self other : PSBTOut) : PSBTOut :=
  { self with
    redeem_script := if self.redeem_script.isNone ∧ other.redeem_script.isSome then
        other.redeem_script
      else self.redeem_script
    witness_script := if self.witness_script.isNone ∧ other.witness_script.isSome then
        other.witness_script
      else self.witness_script
    named_pubs := dict_merge other.named_pubs self.named_pubs
    extra_map := dict_merge other.extra_map self.extra_map }

/-! ### The PSBT container (`psbt.py`, in src) -/

/-- `PSBT` from `psbt.py`. -/
structure PSBT where
  tx_obj : Tx
  psbt_ins : List PSBTIn
  psbt_outs : List PSBTOut
  hd_pubs : AList NamedHDPublicKey
  extra_map : AList Bytes
  deriving DecidableEq, Inhabited

/-- The inner `for hd_pub in self.hd_pubs.values()` loop of `PSBT.validate`
(`psbt.py`): the first global extended key (in dict order) that is a
path-prefix ancestor of the annotated key must re-derive its point. -/
def check_named_pub (hd_pubs : AList NamedHDPublicKey) (np : NamedPublicKey) :
    Except Err Unit :=
  match hd_pubs.find? (fun q => q.2.is_ancestor np) with
  | none => pure ()
  | some q =>
    match q.2.verify_descendent np with
    | none => throw Err.valueErr
    | some true => pure ()
    | some false => throw Err.consistencyErr

/-- The per-input signature checks of `PSBT.validate` (`psbt.py`). -/
def check_input_sigs (tx_obj : Tx) (i : Nat) (pin : PSBTIn) : Except Err Unit :=
  pin.sigs.forM fun q => do
    match S256Point.parse q.1 with
    | none => throw Err.valueErr
    | some _ => pure ()
    if pin.prev_tx.isSome then
      err_if (¬ tx_obj.check_sig_legacy i q.1 q.2) Err.consistencyErr
    else if pin.prev_out.isSome then
      err_if (¬ tx_obj.check_sig_segwit i q.1 q.2) Err.consistencyErr
    else pure ()

/-- The install/verify/restore step of `PSBT.validate` (`psbt.py`) for one
input that carries a finalized ScriptSig: temporarily install the
ScriptSig/witness on the transaction input, run `verify_input`, then replace
them with an empty `Script()` and `Witness()`. -/
def install_and_verify (fuel : Nat) (tx_obj : Tx) (i : Nat) (tx_in : TxIn)
    (ss : Script) (w : Witness) : Except Err Tx :=
  let installed := { tx_in with script_sig := ss, witness := w }
  let t' := { tx_obj with tx_ins := tx_obj.tx_ins.set i installed }
  match t'.verify_input i fuel with
  | none => throw Err.valueErr
  | some false => throw Err.consistencyErr
  | some true =>
    pure { t' with
      tx_ins := t'.tx_ins.set i
        { installed with script_sig := ⟨[]⟩, witness := ⟨[]⟩ } }

/-- The per-input loop of `PSBT.validate` (`psbt.py`), threading the
transaction whose inputs are mutated. -/
def PSBT.validate_loop (fuel : Nat) (hd_pubs : AList NamedHDPublicKey) :
    Tx → List PSBTIn → Nat → Except Err Tx
  | tx_obj, [], _ => pure tx_obj
  | tx_obj, pin :: rest, i => do
    pin.validate
    let tx_in ←
      match tx_obj.tx_ins[i]? with
      | none => throw Err.valueErr
      | some t => pure t
    err_if (tx_in.script_sig.commands ≠ []) Err.consistencyErr
    let tx1 ←
      match pin.script_sig with
      | some ss => install_and_verify fuel tx_obj i tx_in ss (pin.witness.getD ⟨[]⟩)
      | none => pure tx_obj
    check_input_sigs tx1 i pin
    pin.named_pubs.forM (fun q => check_named_pub hd_pubs q.2)
    PSBT.validate_loop fuel hd_pubs tx1 rest (i + 1)

/-- `PSBT.validate` from `psbt.py`; the result is the PSBT in its
post-validation state (the Python method mutates `tx_obj` in place). -/
def PSBT.validate (fuel : Nat) (p : PSBT) : Except Err PSBT := do
  err_if (p.tx_obj.tx_ins.length ≠ p.psbt_ins.length) Err.consistencyErr
  let tx' ← PSBT.validate_loop fuel p.hd_pubs p.tx_obj p.psbt_ins 0
  err_if (tx'.tx_outs.length ≠ p.psbt_outs.length) Err.consistencyErr
  p.psbt_outs.forM fun po => do
    po.validate
    po.named_pubs.forM (fun q => check_named_pub p.hd_pubs q.2)
  return { p with tx_obj := tx' }

/-- `PSBT.__init__` from `psbt.py`: store the fields and validate. -/
def PSBT.init (fuel : Nat) (tx_obj : Tx) (psbt_ins : List PSBTIn)
    (psbt_outs : List PSBTOut) (hd_pubs : AList NamedHDPublicKey)
    (extra_map : AList Bytes) : Except Err PSBT :=
  PSBT.validate fuel ⟨tx_obj, psbt_ins, psbt_outs, hd_pubs, extra_map⟩

/-- The per-input step of `PSBT.create` (`psbt.py`): detach a non-empty
ScriptSig/witness off the transaction input onto a fresh `PSBTIn` (clearing it
on the input). -/
def create_pin (tx_in : TxIn) : Except Err (PSBTIn × TxIn) := do
  let (script_sig, tx_in1) ←
    if tx_in.script_sig.commands ≠ [] then
      pure (some tx_in.script_sig, { tx_in with script_sig := Script.mk [] })
    else pure (none, tx_in)
  let (witness, tx_in2) ←
    if tx_in1.witness.items ≠ [] then
      pure (some tx_in1.witness, { tx_in1 with witness := Witness.mk [] })
    else pure (none, tx_in1)
  let pin ← PSBTIn.init tx_in2 none none [] none none none [] script_sig
    witness []
  pure (pin, tx_in2)

/-- The input loop of `PSBT.create` (`psbt.py`). -/
def create_ins : List TxIn → Except Err (List (PSBTIn × TxIn))
  | [] => pure []
  | t :: ts => do
    let pr ← create_pin t
    let rest ← create_ins ts
    pure (pr :: rest)

/-- The output loop of `PSBT.create` (`psbt.py`). -/
def create_outs : List TxOut → Except Err (List PSBTOut)
  | [] => pure []
  | o :: os => do
    let po ← PSBTOut.init o none none [] []
    let rest ← create_outs os
    pure (po :: rest)

/-- `PSBT.create` from `psbt.py`: detach any unlocking data each transaction
input already carries onto the corresponding `PSBTIn` and clear it on the
input, then construct (which validates). -/
def PSBT.create (fuel : Nat) (tx_obj : Tx) : Except Err PSBT := do
  let pairs ← create_ins tx_obj.tx_ins
  let psbt_outs ← create_outs tx_obj.tx_outs
  let tx' := { tx_obj with tx_ins := pairs.map (·.2) }
  PSBT.init fuel tx' (pairs.map (·.1)) psbt_outs [] []

/-- The pairwise input combination of `PSBT.combine` (`psbt.py`): Python's
`zip` pairs up to the shorter list and `self` keeps its remaining elements
unchanged. -/
def zip_combine_ins : List PSBTIn → List PSBTIn → List PSBTIn
  | [], _ => []
  | xs, [] => xs
  | x :: xs, y :: ys => x.combine y :: zip_combine_ins xs ys

/-- The pairwise output combination of `PSBT.combine` (`psbt.py`). -/
def zip_combine_outs : List PSBTOut → List PSBTOut → List PSBTOut
  | [], _ => []
  | xs, [] => xs
  | x :: xs, y :: ys => x.combine y :: zip_combine_outs xs ys

/-- `PSBT.combine` from `psbt.py`: identical transaction hashes required
(fatal otherwise); `{**other, **self}` merges for the global maps (entries
already present in `self` win), pairwise combination of inputs and
outputs. -/
def PSBT.combine (self other : PSBT) : Except Err PSBT := do
  let h1 ←
    match self.tx_obj.hash with
    | none => throw Err.valueErr
    | some h => pure h
  let h2 ←
    match other.tx_obj.hash with
    | none => throw Err.valueErr
    | some h => pure h
  err_if (h1 ≠ h2) Err.consistencyErr
  return { self with
    hd_pubs := dict_merge other.hd_pubs self.hd_pubs
    extra_map := dict_merge other.extra_map self.extra_map
    psbt_ins := zip_combine_ins self.psbt_ins other.psbt_ins
    psbt_outs := zip_combine_outs self.psbt_outs other.psbt_outs }

/-- `PSBT.finalize` from `psbt.py`: finalize every input; any failure is
fatal. -/
def PSBT.finalize (p : PSBT) : Except Err PSBT := do
  let ins ← p.psbt_ins.mapM PSBTIn.finalize
  return { p with psbt_ins := ins }

/-- `PSBT.serialize` from `psbt.py`: magic + separator, the global map
(unsigned transaction, sorted xpubs, sorted extras, delimiter), then each
input and output map. -/
def PSBT.serialize (p : PSBT) : Option Bytes := do
  let tser ← p.tx_obj.serialize
  let part_tx ← serialize_key_value [0x00] tser
  let part_hd ← (emit_sorted p.hd_pubs
    (fun _ hd => hd.serialize)).map (part_tx ++ ·)
  let part_extra ← (emit_sorted p.extra_map
    (fun k v => serialize_key_value k v)).map (part_hd ++ ·)
  let part_ins ← p.psbt_ins.foldlM
    (fun acc pin => (pin.serialize).map (acc ++ ·))
    (part_extra ++ [0x00])
  let part_outs ← p.psbt_outs.foldlM
    (fun acc po => (po.serialize).map (acc ++ ·))
    part_ins
  return [0x70, 0x73, 0x62, 0x74, 0xff] ++ part_outs

/-- The local variables of the global-map loop of `PSBT.parse`
(`psbt.py`). -/
structure GlobalFields where
  tx_obj : Option Tx := none
  hd_pubs : AList NamedHDPublicKey := []
  extra_map : AList Bytes := []
  deriving DecidableEq, Inhabited

/-- The global-map record loop of `PSBT.parse` (`psbt.py`). -/
def PSBT.parse_global : Nat → Bytes → GlobalFields → Option (GlobalFields × Bytes)
  | 0, _, _ => none
  | fuel + 1, s, st => do
    let (key, rest) ← read_varstr s
    if key = [] then some (st, rest)
    else if key.take 1 = [0x00] then do
      if key.length ≠ 1 then none
      else if st.tx_obj.isSome then none
      else do
        let (_, r1) ← read_varint rest
        let (tx_obj, r2) ← Tx.parse r1
        PSBT.parse_global fuel r2 { st with tx_obj := some tx_obj }
    else if key.take 1 = [0x01] then do
      if key.length ≠ 79 then none
      else do
        let (hd, r1) ← NamedHDPublicKey.parse key rest
        let raw ← hd.raw_serialize
        PSBT.parse_global fuel r1
          { st with hd_pubs := dict_insert st.hd_pubs raw hd }
    else do
      if truthy_bytes (dict_get st.extra_map key) then none
      else do
        let (v, r1) ← read_varstr rest
        PSBT.parse_global fuel r1
          { st with extra_map := dict_insert st.extra_map key v }

/-- The per-input parsing loop of `PSBT.parse` (`psbt.py`): one `PSBTIn` per
transaction input, in order. -/
def PSBT.parse_ins (fuel : Nat) : List TxIn → Bytes →
    Option (List PSBTIn × Bytes)
  | [], s => some ([], s)
  | tx_in :: rest, s => do
    let (pin, s1) ← PSBTIn.parse fuel s tx_in
    let (pins, s2) ← PSBT.parse_ins fuel rest s1
    return (pin :: pins, s2)

/-- The per-output parsing loop of `PSBT.parse` (`psbt.py`). -/
def PSBT.parse_outs (fuel : Nat) : List TxOut → Bytes →
    Option (List PSBTOut × Bytes)
  | [], s => some ([], s)
  | tx_out :: rest, s => do
    let (po, s1) ← PSBTOut.parse fuel s tx_out
    let (pos, s2) ← PSBT.parse_outs fuel rest s1
    return (po :: pos, s2)

/-- `PSBT.parse` from `psbt.py`: magic and separator, the global map (the
unsigned transaction is required), one per-input and one per-output map, then
construction (which validates).  The parsed per-input `TxIn` caches live in
the `PSBTIn`s, whose `tx_in`s are the (mutated) inputs of the owned
transaction. -/
def PSBT.parse (fuel : Nat) (s : Bytes) : Option PSBT := do
  if s.take 4 ≠ [0x70, 0x73, 0x62, 0x74] then none
  else if (s.drop 4).take 1 ≠ [0xff] then none
  else do
    let (g, rest) ← PSBT.parse_global fuel (s.drop 5) {}
    let tx_obj ← g.tx_obj
    let (pins, rest1) ← PSBT.parse_ins fuel tx_obj.tx_ins rest
    let (pos, _) ← PSBT.parse_outs fuel tx_obj.tx_outs rest1
    let tx' := { tx_obj with tx_ins := pins.map (·.tx_in) }
    match PSBT.init fuel tx' pins pos g.hd_pubs g.extra_map with
    | Except.error _ => none
    | Except.ok p => some p

/-! ## Claim C1 — push-size encoding of `raw_serialize`

The claim (and the spec's §3 invariant) says pushes of 1–75 bytes use a
direct length byte.  The source's branch conditions are `length < 75` and
`length > 75`, so a push of exactly 75 bytes falls through to the
`ValueError` branch: serialization fails although parsing accepts a direct
length byte of 75.  This contradicts `parse` (the inverse per the spec) —
the code is the slip. -/

set_option maxRecDepth 10000 in
/-- C1: evaluating `raw_serialize` at the 75-byte boundary.  A 74-byte push
encodes with a direct length byte and a 76-byte push with the two-byte
pushdata-76 prefix, a 300-byte push with the three-byte little-endian
pushdata-77 prefix, and a 600-byte push fails — but a push of exactly 75
bytes, which the claim says gets a direct length byte, fails instead of
serializing. -/
theorem C1_raw_serialize_75_boundary :
    Script.raw_serialize ⟨[Cmd.push (List.replicate 75 7)]⟩ = none ∧
    Script.raw_serialize ⟨[Cmd.push (List.replicate 74 7)]⟩ =
      some (74 :: List.replicate 74 7) ∧
    Script.raw_serialize ⟨[Cmd.push (List.replicate 76 7)]⟩ =
      some (76 :: 76 :: List.replicate 76 7) ∧
    Script.raw_serialize ⟨[Cmd.push (List.replicate 300 7)]⟩ =
      some (77 :: 44 :: 1 :: List.replicate 300 7) ∧
    Script.raw_serialize ⟨[Cmd.push (List.replicate 600 7)]⟩ = none := by
  refine ⟨by decide, by decide, by decide, by decide, by decide⟩

/-! ## Shared lemmas about `finalize` -/

theorem finalize_ok_clear (pin pin' : PSBTIn) (h : pin.finalize = Except.ok pin') :
    ∃ sw, pin.finalize_unlock = Except.ok sw ∧ pin' = pin.clear_finalized sw := by
  unfold PSBTIn.finalize at h
  rw [show (do let sw ← pin.finalize_unlock; return pin.clear_finalized sw) =
      (pin.finalize_unlock >>= fun sw => pure (pin.clear_finalized sw)) from rfl,
    except_bind_ok] at h
  obtain ⟨sw, h1, h2⟩ := h
  exact ⟨sw, h1, by cases h2; rfl⟩

theorem finalize_unlock_ok_shape (pin : PSBTIn) (sw : Option Script × Option Witness)
    (h : pin.finalize_unlock = Except.ok sw) :
    ∃ spk, pin.script_pubkey = some (some spk) ∧
      ((spk.is_p2wpkh ∨ spk.is_p2wsh ∨ spk.is_p2sh ∨ spk.is_p2pkh) ∨
        (∃ rs, pin.redeem_script = some rs ∧ (rs.is_p2wpkh ∨ rs.is_p2wsh))) := by
  unfold PSBTIn.finalize_unlock at h
  rcases hsp : pin.script_pubkey with _ | so
  · rw [hsp] at h; simp [Bind.bind, Except.bind] at h
  · rcases so with _ | spk
    · rw [hsp] at h; simp [Bind.bind, Except.bind] at h
    · rw [hsp] at h
      simp only [pure_bind_except, err_if_bind_ok] at h
      obtain ⟨-, h⟩ := h
      refine ⟨spk, rfl, ?_⟩
      by_cases h1 : spk.is_p2wpkh = true ∨
          (pin.redeem_script.isSome = true ∧ (pin.redeem_script.getD ⟨[]⟩).is_p2wpkh = true)
      · rcases h1 with h1 | ⟨hs, hp⟩
        · exact Or.inl (Or.inl h1)
        · rcases hrs : pin.redeem_script with _ | rs
          · rw [hrs] at hs; simp at hs
          · rw [hrs] at hp; exact Or.inr ⟨rs, rfl, Or.inl hp⟩
      · rw [if_neg h1] at h
        by_cases h2 : spk.is_p2wsh = true ∨
            (pin.redeem_script.isSome = true ∧ (pin.redeem_script.getD ⟨[]⟩).is_p2wsh = true)
        · rcases h2 with h2 | ⟨hs, hp⟩
          · exact Or.inl (Or.inr (Or.inl h2))
          · rcases hrs : pin.redeem_script with _ | rs
            · rw [hrs] at hs; simp at hs
            · rw [hrs] at hp; exact Or.inr ⟨rs, rfl, Or.inr hp⟩
        · rw [if_neg h2] at h
          by_cases h3 : spk.is_p2sh = true
          · exact Or.inl (Or.inr (Or.inr (Or.inl h3)))
          · rw [if_neg h3] at h
            by_cases h4 : spk.is_p2pkh = true
            · exact Or.inl (Or.inr (Or.inr (Or.inr h4)))
            · rw [if_neg h4] at h
              simp [throw, throwThe, MonadExcept.throw] at h

theorem validate_redeem_shape (pin : PSBTIn) (spk : Script) (rs : Script)
    (hv : pin.validate = Except.ok ())
    (hsp : pin.script_pubkey = some (some spk))
    (hrs : pin.redeem_script = some rs) :
    spk.is_p2sh ∨ spk.is_p2wsh ∨ spk.is_p2wpkh := by
  unfold PSBTIn.validate at hv
  rw [hsp] at hv
  simp only [pure_bind_except] at hv
  rcases hpt : pin.prev_tx with _ | t
  · rw [hpt] at hv
    rcases hpo : pin.prev_out with _ | po
    · exfalso
      have hthis : pin.script_pubkey = some none := by
        unfold PSBTIn.script_pubkey
        rw [hpt, hpo]
      rw [hthis] at hsp
      simp at hsp
    · rw [hpo] at hv
      have hspo : po.script_pubkey = spk := by
        have hthis : pin.script_pubkey = some (some po.script_pubkey) := by
          unfold PSBTIn.script_pubkey
          rw [hpt, hpo]
        rw [hthis] at hsp
        simpa using hsp
      simp only [err_if_bind_ok] at hv
      obtain ⟨hc, -⟩ := hv
      rw [hspo] at hc
      simp at hc
      cases ha : spk.is_p2sh
      · cases hb : spk.is_p2wsh
        · exact Or.inr (Or.inr (hc ha hb))
        · exact Or.inr (Or.inl rfl)
      · exact Or.inl rfl
  · rcases hh : t.hash with _ | hb
    · simp [hpt, hh, Bind.bind, Except.bind] at hv
    · simp only [hpt, hh, hrs, pure_bind_except, err_if_bind_ok] at hv
      obtain ⟨-, -, hc, -⟩ := hv
      exact Or.inl (by simpa using hc)

theorem second_finalize (q : PSBTIn) (spk : Script)
    (hspk : q.script_pubkey = some (some spk))
    (hsig : q.sigs = []) (hrs : q.redeem_script = none) (hws : q.witness_script = none)
    (hshape : spk.is_p2sh ∨ spk.is_p2wpkh ∨ spk.is_p2wsh ∨ spk.is_p2pkh) :
    q.finalize = Except.error Err.finalizeErr := by
  unfold PSBTIn.finalize PSBTIn.finalize_unlock
  rw [hspk, hsig, hrs, hws]
  by_cases h1 : spk.is_p2sh
  · simp [Bind.bind, Except.bind, err_if, h1, pure, Except.pure]
  · by_cases h2 : spk.is_p2wpkh
    · simp [Bind.bind, Except.bind, err_if, h1, h2, pure, Except.pure]
    · by_cases h3 : spk.is_p2wsh
      · simp [Bind.bind, Except.bind, err_if, h1, h2, h3, pure, Except.pure]
      · have h4 : spk.is_p2pkh := by tauto
        simp [Bind.bind, Except.bind, err_if, h1, h2, h3, h4, pure, Except.pure]

/-! ## Claim C8 — `finalize` is destructive and not idempotent -/

/-- C8: for every validated `PSBTIn`, a successful `finalize` clears the
accumulated signatures, the declared hash type, the redeem script, the
witness script, and the key annotations, while keeping provenance and extra
data (leaving only the finalized unlocking script/witness); and a second
`finalize` call on the already-finalized input fails with a FinalizeError. -/
theorem C8_finalize_destructive (pin pin' : PSBTIn)
    (hv : pin.validate = Except.ok ())
    (h : pin.finalize = Except.ok pin') :
    pin'.sigs = [] ∧ pin'.hash_type = none ∧ pin'.redeem_script = none ∧
    pin'.witness_script = none ∧ pin'.named_pubs = [] ∧
    pin'.tx_in = pin.tx_in ∧ pin'.prev_tx = pin.prev_tx ∧
    pin'.prev_out = pin.prev_out ∧ pin'.extra_map = pin.extra_map ∧
    pin'.finalize = Except.error Err.finalizeErr := by
  obtain ⟨sw, hu, hc⟩ := finalize_ok_clear pin pin' h
  obtain ⟨spk, hsp, hshape⟩ := finalize_unlock_ok_shape pin sw hu
  have hsp' : pin'.script_pubkey = some (some spk) := by
    rw [hc]; exact hsp
  have hshape' : spk.is_p2sh ∨ spk.is_p2wpkh ∨ spk.is_p2wsh ∨ spk.is_p2pkh := by
    rcases hshape with h4 | ⟨rs, hrs, hrshape⟩
    · tauto
    · have := validate_redeem_shape pin spk rs hv hsp hrs
      tauto
  subst hc
  refine ⟨rfl, rfl, rfl, rfl, rfl, rfl, rfl, rfl, rfl, ?_⟩
  exact second_finalize _ spk hsp' rfl rfl rfl hshape'

/-- A compressed-SEC-shaped public key for the C8 witness input. -/
def c8_sec : Bytes := 2 :: List.replicate 32 5

/-- The p2pkh ScriptPubKey locked to `c8_sec` for the C8 witness. -/
def c8_spk : Script := P2PKHScriptPubKey (hash160 c8_sec)

/-- The previous transaction spent by the C8 witness input. -/
def c8_tx : Tx := ⟨1, [], [⟨50, c8_spk⟩], 0⟩

/-- The transaction input of the C8 witness. -/
def c8_tx_in : TxIn := ⟨(c8_tx.hash).getD [], 0, ⟨[]⟩, 0xffffffff, ⟨[]⟩, none, none⟩

/-- A validated p2pkh `PSBTIn` holding exactly one signature. -/
def c8_pin : PSBTIn :=
  ⟨c8_tx_in, some c8_tx, none, [(c8_sec, [0x30, 9, 9, 1])], none, none, none, [],
    none, none, []⟩

/-- The expected finalized form of `c8_pin`. -/
def c8_fin : PSBTIn :=
  ⟨c8_tx_in, some c8_tx, none, [], none, none, none, [],
    some ⟨[Cmd.push [0x30, 9, 9, 1], Cmd.push c8_sec]⟩, none, []⟩

set_option maxRecDepth 10000 in
/-- Witness for C8 at a concrete validated p2pkh input. -/
theorem C8_witness :
    c8_pin.validate = Except.ok () ∧ c8_pin.finalize = Except.ok c8_fin ∧
    (c8_fin.sigs = [] ∧ c8_fin.hash_type = none ∧ c8_fin.redeem_script = none ∧
      c8_fin.witness_script = none ∧ c8_fin.named_pubs = [] ∧
      c8_fin.tx_in = c8_pin.tx_in ∧ c8_fin.prev_tx = c8_pin.prev_tx ∧
      c8_fin.prev_out = c8_pin.prev_out ∧ c8_fin.extra_map = c8_pin.extra_map ∧
      c8_fin.finalize = Except.error Err.finalizeErr) :=
  ⟨by decide, by decide,
    C8_finalize_destructive c8_pin c8_fin (by decide) (by decide)⟩

/-! ## Claim C2 — mutual exclusion of `prev_tx` and `prev_out`

The constructor (and hence `parse`) rejects both provenance fields being set,
but `PSBTIn.combine` fills each of the two fields independently from `other`,
so combining a `prev_tx`-only input with a `prev_out`-only input for the same
spent output produces a `PSBTIn` with both set.  The claim's "preserved by
every operation" is therefore wrong for `combine`. -/

/-- The previous transaction of the C2 counterexample (its only output is
spendable both ways in the two inputs below). -/
def c2_tx : Tx := ⟨1, [], [⟨50, ⟨[]⟩⟩], 0⟩

/-- The transaction input of the C2 counterexample. -/
def c2_tx_in : TxIn := ⟨(c2_tx.hash).getD [], 0, ⟨[]⟩, 0xffffffff, ⟨[]⟩, none, none⟩

/-- A p2wpkh ScriptPubKey for the C2 counterexample's witness-style input. -/
def c2_spk_w : Script := ⟨[Cmd.op 0, Cmd.push (List.replicate 20 3)]⟩

/-- A constructor-accepted `PSBTIn` with only `prev_tx` set. -/
def c2_a : PSBTIn :=
  ⟨c2_tx_in, some c2_tx, none, [], none, none, none, [], none, none, []⟩

/-- A constructor-accepted `PSBTIn` with only `prev_out` set. -/
def c2_b : PSBTIn :=
  ⟨c2_tx_in, none, some ⟨7, c2_spk_w⟩, [], none, none, none, [], none, none, []⟩

set_option maxRecDepth 10000 in
/-- C2 counterexample: the constructor accepts a legacy-provenance input and a
witness-provenance input, yet combining them yields a `PSBTIn` with BOTH
`prev_tx` and `prev_out` set — `combine` does not preserve the claimed
mutual-exclusion invariant. -/
theorem C2_counterexample :
    PSBTIn.init c2_tx_in (some c2_tx) none [] none none none [] none none [] =
      Except.ok c2_a ∧
    PSBTIn.init c2_tx_in none (some ⟨7, c2_spk_w⟩) [] none none none [] none none [] =
      Except.ok c2_b ∧
    (c2_a.combine c2_b).prev_tx = some c2_tx ∧
    (c2_a.combine c2_b).prev_out = some ⟨7, c2_spk_w⟩ :=
  ⟨by decide, by decide, by decide, by decide⟩

/-- C2 amended: at most one of `prev_tx`/`prev_out` may be set at
construction — the constructor (and hence `parse`) rejects both being set with
a ConsistencyError; `finalize` preserves the invariant; and `combine`
preserves it exactly when the two inputs do not carry complementary
provenance (one side `prev_tx`-only and the other `prev_out`-only). -/
theorem C2_mutual_exclusion_amended :
    (∀ (tx_in : TxIn) (prev_tx : Option Tx) (prev_out : Option TxOut)
        (sigs : AList Bytes) (hash_type : Option Nat)
        (redeem_script witness_script : Option Script)
        (named_pubs : AList NamedPublicKey) (script_sig : Option Script)
        (witness : Option Witness) (extra_map : AList Bytes),
      prev_tx.isSome → prev_out.isSome →
      PSBTIn.init tx_in prev_tx prev_out sigs hash_type redeem_script
        witness_script named_pubs script_sig witness extra_map =
        Except.error Err.consistencyErr) ∧
    (∀ a b : PSBTIn,
      ¬ (a.prev_tx.isSome ∧ a.prev_out.isSome) →
      ¬ (b.prev_tx.isSome ∧ b.prev_out.isSome) →
      ¬ (a.prev_tx.isSome ∧ b.prev_out.isSome) →
      ¬ (a.prev_out.isSome ∧ b.prev_tx.isSome) →
      ¬ ((a.combine b).prev_tx.isSome ∧ (a.combine b).prev_out.isSome)) ∧
    (∀ pin pin' : PSBTIn, pin.finalize = Except.ok pin' →
      ¬ (pin.prev_tx.isSome ∧ pin.prev_out.isSome) →
      ¬ (pin'.prev_tx.isSome ∧ pin'.prev_out.isSome)) := by
  refine ⟨?_, ?_, ?_⟩
  · intro tx_in prev_tx prev_out sigs hash_type redeem_script witness_script
      named_pubs script_sig witness extra_map h1 h2
    simp [PSBTIn.init, err_if, h1, h2, Bind.bind, Except.bind, throw, throwThe,
      MonadExcept.throw]
  · intro a b h1 h2 h3 h4
    simp only [PSBTIn.combine]
    rcases hat : a.prev_tx with _ | t₁ <;> rcases hao : a.prev_out with _ | o₁ <;>
      rcases hbt : b.prev_tx with _ | t₂ <;> rcases hbo : b.prev_out with _ | o₂ <;>
      simp_all
  · intro pin pin' h hmx
    obtain ⟨sw, -, hc⟩ := finalize_ok_clear pin pin' h
    subst hc
    exact hmx

/-- The public key of C2's finalize-preservation witness input. -/
def c2_sec : Bytes := 2 :: List.replicate 32 9

/-- The previous transaction of C2's finalize-preservation witness input. -/
def c2_p2pkh_tx : Tx := ⟨1, [], [⟨60, P2PKHScriptPubKey (hash160 c2_sec)⟩], 0⟩

/-- The transaction input of C2's finalize-preservation witness input. -/
def c2_p2pkh_tx_in : TxIn :=
  ⟨(c2_p2pkh_tx.hash).getD [], 0, ⟨[]⟩, 0xffffffff, ⟨[]⟩, none, none⟩

/-- A p2pkh `PSBTIn` with one signature, for C2's finalize-preservation
witness. -/
def c2_pin3 : PSBTIn :=
  ⟨c2_p2pkh_tx_in, some c2_p2pkh_tx, none, [(c2_sec, [0x30, 4, 4, 1])], none,
    none, none, [], none, none, []⟩

set_option maxRecDepth 10000 in
/-- Witness for C2's amended theorem at concrete inputs. -/
theorem C2_witness :
    (PSBTIn.init c2_tx_in (some c2_tx) (some ⟨7, c2_spk_w⟩) [] none none none []
        none none [] = Except.error Err.consistencyErr) ∧
    (¬ ((c2_a.combine c2_a).prev_tx.isSome ∧ (c2_a.combine c2_a).prev_out.isSome)) ∧
    (c2_pin3.finalize =
        Except.ok (c2_pin3.clear_finalized
          (some ⟨[Cmd.push [0x30, 4, 4, 1], Cmd.push c2_sec]⟩, none)) ∧
      ¬ ((c2_pin3.clear_finalized
            (some ⟨[Cmd.push [0x30, 4, 4, 1], Cmd.push c2_sec]⟩, none)).prev_tx.isSome ∧
          (c2_pin3.clear_finalized
            (some ⟨[Cmd.push [0x30, 4, 4, 1], Cmd.push c2_sec]⟩, none)).prev_out.isSome)) :=
  ⟨C2_mutual_exclusion_amended.1 c2_tx_in (some c2_tx) (some ⟨7, c2_spk_w⟩) []
      none none none [] none none [] (by decide) (by decide),
    C2_mutual_exclusion_amended.2.1 c2_a c2_a (by decide) (by decide) (by decide)
      (by decide),
    by decide,
    C2_mutual_exclusion_amended.2.2 c2_pin3 _ (by decide) (by decide)⟩

/-! ## Claim C7 — `combine` requires identical transactions and merges with
`self` winning -/

/-- C7: `PSBT.combine` raises a ConsistencyError exactly when the two
underlying transactions' hashes differ; with matching hashes it succeeds,
merging the global extended-key and extra maps with entries already present
in `self` winning on key collision, and combining inputs and outputs pairwise
in order. -/
theorem C7_combine_spec (x y : PSBT) (h1 h2 : Bytes)
    (hx : x.tx_obj.hash = some h1) (hy : y.tx_obj.hash = some h2)
    (hwh : alist_wf x.hd_pubs) (hwe : alist_wf x.extra_map) :
    (x.combine y = Except.error Err.consistencyErr ↔ h1 ≠ h2) ∧
    (h1 = h2 →
      x.combine y = Except.ok { x with
        hd_pubs := dict_merge y.hd_pubs x.hd_pubs
        extra_map := dict_merge y.extra_map x.extra_map
        psbt_ins := zip_combine_ins x.psbt_ins y.psbt_ins
        psbt_outs := zip_combine_outs x.psbt_outs y.psbt_outs } ∧
      (∀ k, dict_get (dict_merge y.hd_pubs x.hd_pubs) k =
        (dict_get x.hd_pubs k).or (dict_get y.hd_pubs k)) ∧
      (∀ k, dict_get (dict_merge y.extra_map x.extra_map) k =
        (dict_get x.extra_map k).or (dict_get y.extra_map k))) := by
  have hred : x.combine y =
      (err_if (h1 ≠ h2) Err.consistencyErr >>= fun _ =>
        pure { x with
          hd_pubs := dict_merge y.hd_pubs x.hd_pubs
          extra_map := dict_merge y.extra_map x.extra_map
          psbt_ins := zip_combine_ins x.psbt_ins y.psbt_ins
          psbt_outs := zip_combine_outs x.psbt_outs y.psbt_outs }) := by
    unfold PSBT.combine
    rw [hx, hy]
    rfl
  constructor
  · constructor
    · intro herr heq
      rw [hred, heq, err_if_neg (by simp), pure_bind_except] at herr
      cases herr
    · intro hne
      rw [hred, err_if_pos hne, throw_bind_except]
  · intro heq
    refine ⟨?_, fun k => dict_get_merge _ _ hwh k, fun k => dict_get_merge _ _ hwe k⟩
    rw [hred, heq, err_if_neg (by simp), pure_bind_except]
    rfl

/-- The shared transaction of the C7 witness. -/
def c7_tx : Tx := ⟨1, [], [], 0⟩
/-- Left C7 witness PSBT. -/
def c7_x : PSBT := ⟨c7_tx, [], [], [], []⟩
/-- Right C7 witness PSBT (one extra-map entry). -/
def c7_y : PSBT := ⟨c7_tx, [], [], [], [([0xfa], [1])]⟩
/-- The common transaction hash of the C7 witness PSBTs. -/
def c7_h : Bytes := (c7_tx.hash).getD []

set_option maxRecDepth 10000 in
/-- Witness for C7 at concrete PSBTs over the same transaction. -/
theorem C7_witness :
    (c7_x.combine c7_y = Except.error Err.consistencyErr ↔ c7_h ≠ c7_h) ∧
    (c7_h = c7_h →
      c7_x.combine c7_y = Except.ok { c7_x with
        hd_pubs := dict_merge c7_y.hd_pubs c7_x.hd_pubs
        extra_map := dict_merge c7_y.extra_map c7_x.extra_map
        psbt_ins := zip_combine_ins c7_x.psbt_ins c7_y.psbt_ins
        psbt_outs := zip_combine_outs c7_x.psbt_outs c7_y.psbt_outs } ∧
      (∀ k, dict_get (dict_merge c7_y.hd_pubs c7_x.hd_pubs) k =
        (dict_get c7_x.hd_pubs k).or (dict_get c7_y.hd_pubs k)) ∧
      (∀ k, dict_get (dict_merge c7_y.extra_map c7_x.extra_map) k =
        (dict_get c7_x.extra_map k).or (dict_get c7_y.extra_map k))) :=
  C7_combine_spec c7_x c7_y c7_h c7_h (by decide) (by decide) (by decide) (by decide)


/-! ## Claim C4 — success condition of the script interpreter -/

/-- The source-shaped `evaluate` recursion agrees, step for step, with the
`eval_loop` state machine followed by the final stack checks. -/
theorem evaluate_loop_agree (z : Nat) (w : List Bytes) :
    ∀ (fuel : Nat) (cmds : List Cmd) (stack alt : List Bytes),
    evaluate_loop z w fuel cmds stack alt =
      match eval_loop z w fuel cmds stack alt with
      | some (EvalOutcome.done st) =>
        match st.getLast? with
        | none => some false
        | some top => if top = [] then some false else some true
      | some EvalOutcome.failed => some false
      | some EvalOutcome.errored => none
      | none => none := by
  intro fuel
  induction fuel with
  | zero => intro cmds stack alt; rfl
  | succ n ih =>
    intro cmds stack alt
    cases cmds with
    | nil => rfl
    | cons c rest =>
      show (match eval_step z w c rest stack alt with
        | OpOut.fail => some false
        | OpOut.err => none
        | OpOut.ok (cmds', st, alt') => evaluate_loop z w n cmds' st alt') = _
      cases hs : eval_step z w c rest stack alt with
      | fail => simp [eval_loop, hs]
      | err => simp [eval_loop, hs]
      | ok res =>
        obtain ⟨cmds', st, alt'⟩ := res
        simp only [eval_loop, hs]
        exact ih cmds' st alt'

/-- C4: `Script.evaluate` returns `true` exactly when running the command
queue to exhaustion ends without any opcode or structural rule signalling
failure (`EvalOutcome.done`), with a non-empty main stack whose top (last)
element is not the canonical empty/false value; and an op signalling failure
(`EvalOutcome.failed`) makes evaluation return `false` — a normal result, not
an exception (`none` is reserved for exceptions/fuel). -/
theorem C4_evaluate_spec (sc : Script) (z : Nat) (w : List Bytes) (fuel : Nat) :
    (sc.evaluate z w fuel = some true ↔
      ∃ st, eval_loop z w fuel sc.commands [] [] = some (EvalOutcome.done st) ∧
        st ≠ [] ∧ st.getLast? ≠ some []) ∧
    (eval_loop z w fuel sc.commands [] [] = some EvalOutcome.failed →
      sc.evaluate z w fuel = some false) := by
  unfold Script.evaluate
  rw [evaluate_loop_agree]
  cases hres : eval_loop z w fuel sc.commands [] [] with
  | none => simp
  | some out =>
    cases out with
    | done st =>
      cases hl : st.getLast? with
      | none =>
        have hst : st = [] := by
          cases st with
          | nil => rfl
          | cons a l => simp [List.getLast?_eq_getLast] at hl
        simp [hst]
      | some top =>
        have hst : st ≠ [] := by
          intro hc
          rw [hc] at hl
          cases hl
        by_cases htop : top = []
        · subst htop
          simp [hst, hl]
        · simp [hst, hl, htop]
    | failed => simp
    | errored => simp

/-- Witness for C4 at a concrete single-push script. -/
theorem C4_witness :
    ((Script.evaluate ⟨[Cmd.push [1]]⟩ 0 [] 5 = some true ↔
      ∃ st, eval_loop 0 [] 5 [Cmd.push [1]] [] [] = some (EvalOutcome.done st) ∧
        st ≠ [] ∧ st.getLast? ≠ some []) ∧
    (eval_loop 0 [] 5 [Cmd.push [1]] [] [] = some EvalOutcome.failed →
      Script.evaluate ⟨[Cmd.push [1]]⟩ 0 [] 5 = some false)) :=
  C4_evaluate_spec ⟨[Cmd.push [1]]⟩ 0 [] 5



theorem install_and_verify_ok (fuel : Nat) (tx : Tx) (i : Nat) (tx_in : TxIn)
    (ss : Script) (w : Witness) (tx1 : Tx)
    (h : install_and_verify fuel tx i tx_in ss w = Except.ok tx1) :
    tx1 = { tx with tx_ins := tx.tx_ins.set i ({ tx_in with script_sig := ⟨[]⟩, witness := ⟨[]⟩ }) } := by
  unfold install_and_verify at h
  simp only [] at h
  split at h
  · cases h
  · cases h
  · cases h
    simp [List.set_set]

theorem validate_loop_spec (fuel : Nat) (hd : AList NamedHDPublicKey) :
    ∀ (pins : List PSBTIn) (tx : Tx) (i : Nat) (tx₂ : Tx),
    PSBT.validate_loop fuel hd tx pins i = Except.ok tx₂ →
    tx₂.version = tx.version ∧ tx₂.tx_outs = tx.tx_outs ∧
    tx₂.locktime = tx.locktime ∧ tx₂.tx_ins.length = tx.tx_ins.length ∧
    (∀ j, j < i → tx₂.tx_ins[j]? = tx.tx_ins[j]?) ∧
    (∀ j, i + pins.length ≤ j → tx₂.tx_ins[j]? = tx.tx_ins[j]?) ∧
    (∀ k pin, pins[k]? = some pin →
      (pin.script_sig = none → tx₂.tx_ins[i + k]? = tx.tx_ins[i + k]?) ∧
      (pin.script_sig.isSome →
        ∃ t, tx.tx_ins[i + k]? = some t ∧ t.script_sig.commands = [] ∧
          tx₂.tx_ins[i + k]? = some { t with script_sig := ⟨[]⟩, witness := ⟨[]⟩ })) := by
  intro pins
  induction pins with
  | nil =>
    intro tx i tx₂ h
    cases h
    refine ⟨rfl, rfl, rfl, rfl, fun j _ => rfl, fun j _ => rfl, fun k pin hk => ?_⟩
    simp at hk
  | cons pin rest ih =>
    intro tx i tx₂ h
    simp only [PSBT.validate_loop] at h
    rw [except_bind_ok] at h
    obtain ⟨-, -, h⟩ := h
    rcases hti : tx.tx_ins[i]? with _ | tx_in
    · rw [hti] at h
      simp [Bind.bind, Except.bind] at h
    · rw [hti] at h
      simp only [pure_bind_except, err_if_bind_ok] at h
      obtain ⟨hcmds, h⟩ := h
      have hcmds' : tx_in.script_sig.commands = [] := by simpa using hcmds
      have hilen : i < tx.tx_ins.length := by
        by_contra hc
        rw [List.getElem?_eq_none (by omega)] at hti
        cases hti
      rcases hss : pin.script_sig with _ | ss
      · rw [hss] at h
        simp only [pure_bind_except] at h
        rw [except_bind_ok] at h
        obtain ⟨-, -, h⟩ := h
        rw [except_bind_ok] at h
        obtain ⟨-, -, h⟩ := h
        obtain ⟨hv, ho, hl, hlen, hbelow, habove, hat⟩ := ih tx (i + 1) tx₂ h
        refine ⟨hv, ho, hl, hlen, ?_, ?_, ?_⟩
        · intro j hj
          exact hbelow j (by omega)
        · intro j hj
          simp only [List.length_cons] at hj
          exact habove j (by omega)
        · intro k pk hk
          cases k with
          | zero =>
            simp only [List.getElem?_cons_zero] at hk
            cases hk
            constructor
            · intro _
              simp only [Nat.add_zero]
              exact hbelow i (by omega)
            · intro hsome
              rw [hss] at hsome
              simp at hsome
          | succ k' =>
            simp only [List.getElem?_cons_succ] at hk
            have hthis := hat k' pk hk
            rw [show i + (k' + 1) = (i + 1) + k' from by omega]
            exact hthis
      · rw [hss] at h
        rw [except_bind_ok] at h
        obtain ⟨tx1, hiv, h⟩ := h
        have htx1 := install_and_verify_ok fuel tx i tx_in ss _ tx1 hiv
        subst htx1
        rw [except_bind_ok] at h
        obtain ⟨-, -, h⟩ := h
        rw [except_bind_ok] at h
        obtain ⟨-, -, h⟩ := h
        obtain ⟨hv, ho, hl, hlen, hbelow, habove, hat⟩ := ih _ (i + 1) tx₂ h
        simp only [List.length_set] at hlen
        refine ⟨hv, ho, hl, hlen, ?_, ?_, ?_⟩
        · intro j hj
          rw [hbelow j (by omega)]
          show (tx.tx_ins.set i _)[j]? = _
          rw [List.getElem?_set_ne (by omega)]
        · intro j hj
          simp only [List.length_cons] at hj
          rw [habove j (by omega)]
          show (tx.tx_ins.set i _)[j]? = _
          rw [List.getElem?_set_ne (by omega)]
        · intro k pk hk
          cases k with
          | zero =>
            simp only [List.getElem?_cons_zero] at hk
            cases hk
            constructor
            · intro hnone
              rw [hss] at hnone
              cases hnone
            · intro _
              refine ⟨tx_in, by simpa using hti, hcmds', ?_⟩
              simp only [Nat.add_zero]
              rw [hbelow i (by omega)]
              show (tx.tx_ins.set i _)[i]? = _
              rw [List.getElem?_set_self (by simpa using hilen)]
          | succ k' =>
            simp only [List.getElem?_cons_succ] at hk
            obtain ⟨hn, hs⟩ := hat k' pk hk
            rw [show i + (k' + 1) = (i + 1) + k' from by omega]
            constructor
            · intro hnone
              rw [hn hnone]
              show (tx.tx_ins.set i _)[(i+1)+k']? = _
              rw [List.getElem?_set_ne (by omega)]
            · intro hsome
              obtain ⟨t, ht1, ht2, ht3⟩ := hs hsome
              refine ⟨t, ?_, ht2, ht3⟩
              rw [← ht1]
              show _ = (tx.tx_ins.set i _)[(i+1)+k']?
              rw [List.getElem?_set_ne (by omega)]

/-! ### C10: frame effect of `PSBT.validate` on the transaction inputs -/

/-- Transaction input 0 of the C10 scenario: empty ScriptSig and witness, with
a cached (empty, hence trivially satisfied) ScriptPubKey. -/
def c10_tx_in0 : TxIn :=
  ⟨List.replicate 32 0xaa, 0, ⟨[]⟩, 0xffffffff, ⟨[]⟩, none, some ⟨[]⟩⟩

/-- Transaction input 1 of the C10 scenario: empty ScriptSig but a leftover
non-empty witness on the underlying transaction. -/
def c10_tx_in1 : TxIn :=
  ⟨List.replicate 32 0xbb, 0, ⟨[]⟩, 0xffffffff, ⟨[[2]]⟩, none, none⟩

/-- The C10 transaction: two inputs, no outputs. -/
def c10_tx : Tx := ⟨1, [c10_tx_in0, c10_tx_in1], [], 0⟩

/-- PSBT input 0: finalized, carrying a ScriptSig that pushes a truthy
element. -/
def c10_pin0 : PSBTIn :=
  ⟨c10_tx_in0, none, none, [], none, none, none, [], some ⟨[Cmd.push [1]]⟩, none, []⟩

/-- PSBT input 1: not finalized, no data at all. -/
def c10_pin1 : PSBTIn :=
  ⟨c10_tx_in1, none, none, [], none, none, none, [], none, none, []⟩

/-- The C10 PSBT: input 0 finalized, input 1 untouched with a junk witness on
the underlying transaction input. -/
def c10_p : PSBT := ⟨c10_tx, [c10_pin0, c10_pin1], [], [], []⟩

set_option maxRecDepth 10000 in
/-- C10 counterexample: `validate` succeeds on a PSBT one of whose inputs is
finalized, yet the underlying transaction input 1 (whose PSBT input carries no
finalized ScriptSig) keeps its pre-existing non-empty witness: `validate` only
installs-and-restores on inputs with a finalized ScriptSig, so "every
underlying transaction input's ScriptSig and witness are left empty
afterwards" fails at input 1. -/
theorem C10_counterexample :
    PSBT.validate 20 c10_p = Except.ok c10_p ∧
    (c10_p.tx_obj.tx_ins[1]?).map TxIn.witness = some ⟨[[2]]⟩ ∧
    (⟨[[2]]⟩ : Witness) ≠ ⟨[]⟩ := by decide

/-- Frame lemma for a successful `PSBT.validate`: the PSBT maps, the
transaction scalar fields and the inputs of non-finalized PSBT inputs are
unchanged, and the inputs of finalized PSBT inputs end with empty
ScriptSig/witness. -/
theorem validate_ok_frame (fuel : Nat) (p p' : PSBT)
    (h : PSBT.validate fuel p = Except.ok p') :
    p'.psbt_ins = p.psbt_ins ∧ p'.psbt_outs = p.psbt_outs ∧
    p'.hd_pubs = p.hd_pubs ∧ p'.extra_map = p.extra_map ∧
    p'.tx_obj.version = p.tx_obj.version ∧
    p'.tx_obj.tx_outs = p.tx_obj.tx_outs ∧
    p'.tx_obj.locktime = p.tx_obj.locktime ∧
    p'.tx_obj.tx_ins.length = p.tx_obj.tx_ins.length ∧
    (∀ (k : Nat) (pin : PSBTIn), p.psbt_ins[k]? = some pin →
      (pin.script_sig = none → p'.tx_obj.tx_ins[k]? = p.tx_obj.tx_ins[k]?) ∧
      (pin.script_sig.isSome →
        ∃ t, p.tx_obj.tx_ins[k]? = some t ∧ t.script_sig.commands = [] ∧
          p'.tx_obj.tx_ins[k]? = some ({ t with script_sig := ⟨[]⟩, witness := ⟨[]⟩ }))) := by
  unfold PSBT.validate at h
  rw [err_if_bind_ok] at h
  obtain ⟨-, h⟩ := h
  rw [except_bind_ok] at h
  obtain ⟨tx', hloop, h⟩ := h
  rw [err_if_bind_ok] at h
  obtain ⟨-, h⟩ := h
  rw [except_bind_ok] at h
  obtain ⟨-, -, h⟩ := h
  cases h
  obtain ⟨hv, ho, hl, hlen, _, _, hat⟩ :=
    validate_loop_spec fuel p.hd_pubs p.psbt_ins p.tx_obj 0 tx' hloop
  refine ⟨rfl, rfl, rfl, rfl, hv, ho, hl, hlen, ?_⟩
  intro k pin hk
  have hthis := hat k pin hk
  simpa using hthis

/-- C10 (amended): when `PSBT.validate` succeeds, every transaction input
whose PSBT input carries a finalized ScriptSig started with an empty ScriptSig
and ends with an empty ScriptSig and an empty witness (installed data is
restored to empty `Script()`/`Witness()`), while the transaction inputs of
non-finalized PSBT inputs are left exactly as they were (so a pre-existing
witness there survives); all other PSBT and transaction fields are
unchanged. -/
theorem C10_validate_frame (fuel : Nat) (p p' : PSBT)
    (h : PSBT.validate fuel p = Except.ok p') :
    p'.psbt_ins = p.psbt_ins ∧ p'.psbt_outs = p.psbt_outs ∧
    p'.hd_pubs = p.hd_pubs ∧ p'.extra_map = p.extra_map ∧
    p'.tx_obj.version = p.tx_obj.version ∧
    p'.tx_obj.tx_outs = p.tx_obj.tx_outs ∧
    p'.tx_obj.locktime = p.tx_obj.locktime ∧
    p'.tx_obj.tx_ins.length = p.tx_obj.tx_ins.length ∧
    (∀ (k : Nat) (pin : PSBTIn), p.psbt_ins[k]? = some pin →
      (pin.script_sig = none → p'.tx_obj.tx_ins[k]? = p.tx_obj.tx_ins[k]?) ∧
      (pin.script_sig.isSome →
        ∃ t, p.tx_obj.tx_ins[k]? = some t ∧ t.script_sig.commands = [] ∧
          p'.tx_obj.tx_ins[k]? = some ({ t with script_sig := ⟨[]⟩, witness := ⟨[]⟩ }))) :=
  validate_ok_frame fuel p p' h

set_option maxRecDepth 10000 in
/-- C10 witness: the frame theorem applied to the concrete C10 PSBT — input 0
(finalized) is restored to empty unlocking data, input 1 (not finalized) is
untouched. -/
theorem C10_witness :
    PSBT.validate 20 c10_p = Except.ok c10_p ∧
    (∃ t, c10_p.tx_obj.tx_ins[0]? = some t ∧ t.script_sig.commands = [] ∧
      c10_p.tx_obj.tx_ins[0]? = some ({ t with script_sig := ⟨[]⟩, witness := ⟨[]⟩ })) ∧
    c10_p.tx_obj.tx_ins[1]? = c10_p.tx_obj.tx_ins[1]? := by
  have h := C10_validate_frame 20 c10_p c10_p (by decide)
  refine ⟨by decide, ?_, ?_⟩
  · exact (h.2.2.2.2.2.2.2.2 0 c10_pin0 (by decide)).2 (by decide)
  · exact (h.2.2.2.2.2.2.2.2 1 c10_pin1 (by decide)).1 (by decide)

/-! ### C9: totality and effect of `PSBT.create` -/

/-- The `PSBTIn` that `PSBT.create` builds for an input carrying no
unlocking data. -/
def trivial_pin (t : TxIn) : PSBTIn :=
  ⟨t, none, none, [], none, none, none, [], none, none, []⟩

/-- The `PSBTOut` that `PSBT.create` builds for each output. -/
def trivial_out (o : TxOut) : PSBTOut :=
  ⟨o, none, none, [], []⟩

/-- A provenance-free `PSBTIn` passes `validate`. -/
theorem trivial_pin_validate (t : TxIn) :
    PSBTIn.validate (trivial_pin t) = Except.ok () := rfl

/-- Field computation for `trivial_pin`. -/
theorem trivial_pin_script_sig (t : TxIn) : (trivial_pin t).script_sig = none := rfl

/-- `check_input_sigs` is trivial on an input with no signatures. -/
theorem check_input_sigs_trivial (tx : Tx) (i : Nat) (t : TxIn) :
    check_input_sigs tx i (trivial_pin t) = Except.ok () := rfl

/-- Field computation for `trivial_pin`. -/
theorem trivial_pin_named_pubs (t : TxIn) : (trivial_pin t).named_pubs = [] := rfl

/-- A `PSBTOut` with no scripts and no annotations passes `validate`
whatever the output ScriptPubKey is. -/
theorem trivial_out_validate (o : TxOut) :
    PSBTOut.validate ⟨o, none, none, [], []⟩ = Except.ok () := by
  unfold PSBTOut.validate
  by_cases h1 : (o.script_pubkey).is_p2pkh = true
  · simp [h1, err_if, Bind.bind, Except.bind, pure, Except.pure]
  · by_cases h2 : (o.script_pubkey).is_p2wpkh = true <;>
      simp [h1, h2, err_if, Bind.bind, Except.bind, pure, Except.pure]

/-- Computation rule for `Except.ok` under bind. -/
theorem ok_bind_except {ε α β : Type} {a : α} {f : α → Except ε β} :
    (Except.ok a >>= f) = f a := rfl

/-- Computation rule for `forM` on the empty list in `Except`. -/
theorem forM_nil_except {α : Type} (f : α → Except Err Unit) :
    (List.forM [] f : Except Err Unit) = Except.ok () := rfl

/-- Computation rule for `forM` on a cons in `Except`. -/
theorem forM_cons_except {α : Type} (x : α) (xs : List α)
    (f : α → Except Err Unit) :
    (List.forM (x :: xs) f : Except Err Unit) =
      (f x >>= fun _ => List.forM xs f) := rfl

/-- Field computation for the trivial `PSBTOut`. -/
theorem trivial_out_named_pubs (o : TxOut) :
    (⟨o, none, none, [], []⟩ : PSBTOut).named_pubs = [] := rfl

/-- `create_pin` on an input with no unlocking data. -/
theorem create_pin_trivial (t : TxIn) (h1 : t.script_sig.commands = [])
    (h2 : t.witness.items = []) :
    create_pin t = Except.ok (trivial_pin t, t) := by
  unfold create_pin
  rw [if_neg (by simp [h1])]
  simp only [pure_bind_except]
  rw [if_neg (by simp [h2])]
  rfl

/-- A successful `create_pin` leaves the returned transaction input with
empty ScriptSig and witness. -/
theorem create_pin_clears (t : TxIn) (pr : PSBTIn × TxIn)
    (h : create_pin t = Except.ok pr) :
    pr.2.script_sig.commands = [] ∧ pr.2.witness.items = [] := by
  unfold create_pin at h
  by_cases h1 : t.script_sig.commands = []
  · rw [if_neg (by simp [h1])] at h
    simp only [pure_bind_except] at h
    by_cases h2 : t.witness.items = []
    · rw [if_neg (by simp [h2])] at h
      rw [except_bind_ok] at h
      obtain ⟨pin, -, h⟩ := h
      cases h
      exact ⟨h1, h2⟩
    · rw [if_pos (by simp [h2])] at h
      rw [except_bind_ok] at h
      obtain ⟨pin, -, h⟩ := h
      cases h
      exact ⟨h1, rfl⟩
  · rw [if_pos (by simp [h1])] at h
    simp only [pure_bind_except] at h
    by_cases h2 : t.witness.items = []
    · rw [if_neg (by simp [h2])] at h
      rw [except_bind_ok] at h
      obtain ⟨pin, -, h⟩ := h
      cases h
      exact ⟨rfl, h2⟩
    · rw [if_pos (by simp [h2])] at h
      rw [except_bind_ok] at h
      obtain ⟨pin, -, h⟩ := h
      cases h
      exact ⟨rfl, rfl⟩

/-- A transaction input with empty unlocking data equals its cleared
version. -/
theorem txin_clear_eq (t : TxIn) (h1 : t.script_sig.commands = [])
    (h2 : t.witness.items = []) :
    t = { t with script_sig := ⟨[]⟩, witness := ⟨[]⟩ } := by
  obtain ⟨pt, pi, ⟨cs⟩, sq, ⟨wi⟩, vc, spc⟩ := t
  have h1a : cs = [] := h1
  have h2a : wi = [] := h2
  subst h1a
  subst h2a
  rfl

/-- A successful `PSBTIn.init` returns exactly the input assembled from its
arguments. -/
theorem psbtin_init_ok (tx_in : TxIn) (prev_tx : Option Tx) (prev_out : Option TxOut)
    (sigs : AList Bytes) (hash_type : Option Nat) (rs ws : Option Script)
    (nps : AList NamedPublicKey) (ss : Option Script) (w : Option Witness)
    (em : AList Bytes) (pin : PSBTIn)
    (h : PSBTIn.init tx_in prev_tx prev_out sigs hash_type rs ws nps ss w em =
      Except.ok pin) :
    pin = ⟨tx_in, prev_tx, prev_out, sigs, hash_type, rs, ws, nps, ss, w, em⟩ := by
  unfold PSBTIn.init at h
  rw [err_if_bind_ok] at h
  obtain ⟨-, h⟩ := h
  rw [except_bind_ok] at h
  obtain ⟨-, -, h⟩ := h
  cases h
  rfl

/-- Full characterization of a successful `create_pin`: the returned input is
the cleared original, and the `PSBTIn` detaches the non-empty ScriptSig and
witness. -/
theorem create_pin_ok (t : TxIn) (pr : PSBTIn × TxIn)
    (h : create_pin t = Except.ok pr) :
    pr.2 = { t with script_sig := ⟨[]⟩, witness := ⟨[]⟩ } ∧
    pr.1 = ⟨pr.2, none, none, [], none, none, none, [],
      (if t.script_sig.commands = [] then none else some t.script_sig),
      (if t.witness.items = [] then none else some t.witness), []⟩ := by
  unfold create_pin at h
  by_cases h1 : t.script_sig.commands = []
  · rw [if_neg (by simp [h1])] at h
    simp only [pure_bind_except] at h
    by_cases h2 : t.witness.items = []
    · rw [if_neg (by simp [h2])] at h
      rw [except_bind_ok] at h
      obtain ⟨pin, hinit, h⟩ := h
      cases h
      have hpin := psbtin_init_ok _ _ _ _ _ _ _ _ _ _ _ _ hinit
      refine ⟨txin_clear_eq t h1 h2, ?_⟩
      rw [hpin, if_pos h1, if_pos h2]
    · rw [if_pos (by simp [h2])] at h
      rw [except_bind_ok] at h
      obtain ⟨pin, hinit, h⟩ := h
      cases h
      have hpin := psbtin_init_ok _ _ _ _ _ _ _ _ _ _ _ _ hinit
      have ht2 : ({ t with witness := Witness.mk [] } : TxIn) =
          { t with script_sig := ⟨[]⟩, witness := ⟨[]⟩ } := by
        have := txin_clear_eq ({ t with witness := Witness.mk [] }) (by simpa using h1) rfl
        simpa using this
      refine ⟨ht2, ?_⟩
      rw [hpin, if_pos h1, if_neg h2]
  · rw [if_pos (by simp [h1])] at h
    simp only [pure_bind_except] at h
    by_cases h2 : t.witness.items = []
    · rw [if_neg (by simp [h2])] at h
      rw [except_bind_ok] at h
      obtain ⟨pin, hinit, h⟩ := h
      cases h
      have hpin := psbtin_init_ok _ _ _ _ _ _ _ _ _ _ _ _ hinit
      have ht2 : ({ t with script_sig := Script.mk [] } : TxIn) =
          { t with script_sig := ⟨[]⟩, witness := ⟨[]⟩ } := by
        have := txin_clear_eq ({ t with script_sig := Script.mk [] }) rfl (by simpa using h2)
        simpa using this
      refine ⟨ht2, ?_⟩
      rw [hpin, if_neg h1, if_pos h2]
    · rw [if_pos (by simp [h2])] at h
      rw [except_bind_ok] at h
      obtain ⟨pin, hinit, h⟩ := h
      cases h
      have hpin := psbtin_init_ok _ _ _ _ _ _ _ _ _ _ _ _ hinit
      refine ⟨rfl, ?_⟩
      rw [hpin, if_neg h1, if_neg h2]

/-- Indexed inversion of the `PSBT.create` input loop. -/
theorem create_ins_idx (ts : List TxIn) (prs : List (PSBTIn × TxIn))
    (h : create_ins ts = Except.ok prs) :
    prs.length = ts.length ∧
    ∀ (k : Nat) (t : TxIn), ts[k]? = some t →
      ∃ pr, prs[k]? = some pr ∧ create_pin t = Except.ok pr := by
  induction ts generalizing prs with
  | nil =>
    cases h
    exact ⟨rfl, by simp⟩
  | cons t ts ih =>
    simp only [create_ins] at h
    rw [except_bind_ok] at h
    obtain ⟨pr, hpr, h⟩ := h
    rw [except_bind_ok] at h
    obtain ⟨rest, hrest, h⟩ := h
    cases h
    obtain ⟨hlen, hidx⟩ := ih rest hrest
    refine ⟨by simp [hlen], ?_⟩
    intro k u hk
    cases k with
    | zero =>
      simp only [List.getElem?_cons_zero] at hk
      cases hk
      exact ⟨pr, by simp, hpr⟩
    | succ k =>
      simp only [List.getElem?_cons_succ] at hk
      obtain ⟨pr2, hpr2, hcp⟩ := hidx k u hk
      exact ⟨pr2, by simpa using hpr2, hcp⟩

/-- The input loop of `PSBT.create` on inputs with no unlocking data. -/
theorem create_ins_trivial (ts : List TxIn)
    (h : ∀ t ∈ ts, t.script_sig.commands = [] ∧ t.witness.items = []) :
    create_ins ts = Except.ok (ts.map fun t => (trivial_pin t, t)) := by
  induction ts with
  | nil => rfl
  | cons t ts ih =>
    simp only [create_ins]
    rw [create_pin_trivial t (h t (by simp)).1 (h t (by simp)).2, ok_bind_except]
    rw [ih (fun u hu => h u (List.mem_cons_of_mem _ hu)), ok_bind_except]
    rfl

/-- `PSBTOut.init` with no scripts and no annotations succeeds. -/
theorem psbtout_init_trivial (o : TxOut) :
    PSBTOut.init o none none [] [] = Except.ok (trivial_out o) := by
  unfold PSBTOut.init
  simp only [trivial_out_validate, ok_bind_except]
  rfl

/-- The output loop of `PSBT.create` always succeeds. -/
theorem create_outs_trivial (os : List TxOut) :
    create_outs os = Except.ok (os.map trivial_out) := by
  induction os with
  | nil => rfl
  | cons o os ih =>
    simp only [create_outs]
    rw [psbtout_init_trivial o, ok_bind_except, ih, ok_bind_except]
    rfl

/-- `PSBT.validate_loop` on provenance-free inputs leaves the transaction
unchanged. -/
theorem validate_loop_trivial (fuel : Nat) (hd : AList NamedHDPublicKey) :
    ∀ (ts : List TxIn) (tx : Tx) (i : Nat),
    (∀ (k : Nat) (t : TxIn), ts[k]? = some t →
      tx.tx_ins[i + k]? = some t ∧ t.script_sig.commands = []) →
    PSBT.validate_loop fuel hd tx (ts.map trivial_pin) i = Except.ok tx := by
  intro ts
  induction ts with
  | nil =>
    intro tx i _
    rfl
  | cons t ts ih =>
    intro tx i h
    obtain ⟨ht, hc⟩ := h 0 t (by simp)
    rw [Nat.add_zero] at ht
    simp only [List.map_cons, PSBT.validate_loop]
    rw [trivial_pin_validate, ok_bind_except]
    simp only [ht, pure_bind_except]
    rw [err_if_neg (by simp [hc])]
    simp only [pure_bind_except, trivial_pin_script_sig]
    rw [check_input_sigs_trivial, ok_bind_except]
    simp only [trivial_pin_named_pubs, forM_nil_except, ok_bind_except]
    exact ih tx (i + 1) (fun k u hk => by
      have hthis := h (k + 1) u (by simpa using hk)
      rwa [show i + (k + 1) = (i + 1) + k from by omega] at hthis)

/-- The output checks of `PSBT.validate` succeed on trivial outputs. -/
theorem outs_forM_trivial (hd : AList NamedHDPublicKey) (os : List TxOut) :
    (os.map trivial_out).forM (fun po => do
      po.validate
      po.named_pubs.forM (fun q => check_named_pub hd q.2)) = Except.ok () := by
  induction os with
  | nil => rfl
  | cons o os ih =>
    simp only [List.map_cons, forM_cons_except]
    rw [show trivial_out o = (⟨o, none, none, [], []⟩ : PSBTOut) from rfl]
    rw [trivial_out_validate o, ok_bind_except]
    simp only [trivial_out_named_pubs, forM_nil_except, ok_bind_except]
    exact ih

/-- `PSBT.validate` succeeds and is the identity on the PSBT that
`PSBT.create` assembles from a transaction with no unlocking data. -/
theorem validate_trivial (fuel : Nat) (tx : Tx)
    (hall : ∀ t ∈ tx.tx_ins, t.script_sig.commands = []) :
    PSBT.validate fuel ⟨tx, tx.tx_ins.map trivial_pin, tx.tx_outs.map trivial_out, [], []⟩ =
      Except.ok ⟨tx, tx.tx_ins.map trivial_pin, tx.tx_outs.map trivial_out, [], []⟩ := by
  unfold PSBT.validate
  dsimp only
  rw [err_if_neg (by simp)]
  simp only [pure_bind_except]
  rw [validate_loop_trivial fuel [] tx.tx_ins tx 0 (fun k t hk =>
      ⟨by simpa using hk, hall t (List.getElem?_mem hk)⟩), ok_bind_except]
  rw [err_if_neg (by simp)]
  simp only [pure_bind_except]
  rw [outs_forM_trivial [] tx.tx_outs, ok_bind_except]
  rfl

/-- C9 (amended): when `PSBT.create` succeeds, every input of the owned
transaction skeleton is the cleared original input (empty ScriptSig and
witness) and the corresponding `PSBTIn` carries exactly the detached
non-empty ScriptSig/witness (or none when the input carried none); and
`create` does succeed whenever no transaction input carries unlocking data.
The claim's "never fails" is refuted separately: a carried ScriptSig is
re-verified and a failing one aborts `create`. -/
theorem C9_create_amended (fuel : Nat) (tx : Tx) :
    (∀ p', PSBT.create fuel tx = Except.ok p' →
      p'.tx_obj.tx_ins.length = tx.tx_ins.length ∧
      ∀ (k : Nat) (t : TxIn), tx.tx_ins[k]? = some t →
        p'.tx_obj.tx_ins[k]? = some ({ t with script_sig := ⟨[]⟩, witness := ⟨[]⟩ }) ∧
        ∃ pin, p'.psbt_ins[k]? = some pin ∧
          pin.script_sig = (if t.script_sig.commands = [] then none else some t.script_sig) ∧
          pin.witness = (if t.witness.items = [] then none else some t.witness)) ∧
    ((∀ t ∈ tx.tx_ins, t.script_sig.commands = [] ∧ t.witness.items = []) →
      PSBT.create fuel tx = Except.ok
        ⟨tx, tx.tx_ins.map trivial_pin, tx.tx_outs.map trivial_out, [], []⟩) := by
  constructor
  · intro p' h
    unfold PSBT.create at h
    rw [except_bind_ok] at h
    obtain ⟨pairs, hpairs, h⟩ := h
    rw [except_bind_ok] at h
    obtain ⟨outs, houts, h⟩ := h
    simp only [] at h
    unfold PSBT.init at h
    have hframe := validate_ok_frame fuel
      ⟨{ tx with tx_ins := pairs.map (·.2) }, pairs.map (·.1), outs, [], []⟩ p' h
    obtain ⟨hpins, -, -, -, -, -, -, hlen, hat⟩ := hframe
    obtain ⟨hplen, hidx⟩ := create_ins_idx tx.tx_ins pairs hpairs
    constructor
    · rw [hlen]
      show (pairs.map (·.2)).length = tx.tx_ins.length
      simp [hplen]
    · intro k t hk
      obtain ⟨pr, hpr, hcp⟩ := hidx k t hk
      obtain ⟨h2, h1⟩ := create_pin_ok t pr hcp
      have hpinsk : (pairs.map (·.1))[k]? = some pr.1 := by
        rw [List.getElem?_map, hpr]
        rfl
      have htxk : ({ tx with tx_ins := pairs.map (·.2) } : Tx).tx_ins[k]? =
          some pr.2 := by
        show (pairs.map (·.2))[k]? = _
        rw [List.getElem?_map, hpr]
        rfl
      obtain ⟨hfr1, hfr2⟩ := hat k pr.1 hpinsk
      constructor
      · rcases hps : pr.1.script_sig with _ | s
        · rw [hfr1 hps, htxk, h2]
        · obtain ⟨u, hu, -, hu3⟩ := hfr2 (by rw [hps]; rfl)
          rw [htxk] at hu
          injection hu with hu
          subst hu
          rw [hu3, h2]
      · refine ⟨pr.1, ?_, ?_, ?_⟩
        · rw [hpins]
          exact hpinsk
        · rw [h1]
        · rw [h1]
  · intro hall
    unfold PSBT.create
    rw [create_ins_trivial tx.tx_ins hall, ok_bind_except]
    rw [create_outs_trivial tx.tx_outs, ok_bind_except]
    have hmap2 : ((tx.tx_ins.map fun t => (trivial_pin t, t)).map (·.2)) = tx.tx_ins := by
      simp [Function.comp_def]
    have hmap1 : ((tx.tx_ins.map fun t => (trivial_pin t, t)).map (·.1)) =
        tx.tx_ins.map trivial_pin := by
      simp [Function.comp_def]
    rw [hmap2, hmap1]
    show PSBT.validate fuel ⟨tx, tx.tx_ins.map trivial_pin, tx.tx_outs.map trivial_out, [], []⟩ = _
    exact validate_trivial fuel tx (fun t ht => (hall t ht).1)

/-- A transaction input carrying a ScriptSig that evaluates to false (its
only push is the empty byte string) over a trivially satisfiable cached
ScriptPubKey. -/
def c9_bad_in : TxIn :=
  ⟨List.replicate 32 0xdd, 0, ⟨[Cmd.push []]⟩, 0xffffffff, ⟨[]⟩, none, some ⟨[]⟩⟩

/-- The C9 failing transaction: one input with a non-verifying ScriptSig. -/
def c9_bad_tx : Tx := ⟨1, [c9_bad_in], [], 0⟩

set_option maxRecDepth 10000 in
/-- C9 counterexample: `PSBT.create` fails with a ConsistencyError on a
well-formed transaction whose input carries a ScriptSig that does not verify
-- `create` re-runs `verify_input` on detached unlocking data, so it is not
total on well-formed transactions. -/
theorem C9_counterexample :
    PSBT.create 20 c9_bad_tx = Except.error Err.consistencyErr := by decide

/-- A transaction input carrying a ScriptSig that verifies (pushes a truthy
element) over an empty cached ScriptPubKey. -/
def c9_ok_in : TxIn :=
  ⟨List.replicate 32 0xee, 0, ⟨[Cmd.push [1]]⟩, 0xffffffff, ⟨[]⟩, none, some ⟨[]⟩⟩

/-- The C9 succeeding transaction with a detachable ScriptSig. -/
def c9_ok_tx : Tx := ⟨1, [c9_ok_in], [], 0⟩

/-- `c9_ok_in` after `create` cleared its ScriptSig. -/
def c9_cleared_in : TxIn :=
  ⟨List.replicate 32 0xee, 0, ⟨[]⟩, 0xffffffff, ⟨[]⟩, none, some ⟨[]⟩⟩

/-- The PSBT produced by `PSBT.create` on `c9_ok_tx`. -/
def c9_created : PSBT :=
  ⟨⟨1, [c9_cleared_in], [], 0⟩,
   [⟨c9_cleared_in, none, none, [], none, none, none, [],
     some ⟨[Cmd.push [1]]⟩, none, []⟩],
   [], [], []⟩

/-- A transaction with one input and no unlocking data. -/
def c9_empty_tx : Tx :=
  ⟨1, [⟨List.replicate 32 0xcc, 0, ⟨[]⟩, 0xffffffff, ⟨[]⟩, none, none⟩], [], 0⟩

set_option maxRecDepth 10000 in
/-- C9 witness: the amended theorem applied to a transaction with no
unlocking data (create succeeds with the trivial PSBT) and to the concrete
created PSBT of `c9_ok_tx` (input 0 cleared, ScriptSig detached). -/
theorem C9_witness :
    PSBT.create 20 c9_empty_tx = Except.ok
      ⟨c9_empty_tx, c9_empty_tx.tx_ins.map trivial_pin,
       c9_empty_tx.tx_outs.map trivial_out, [], []⟩ ∧
    (c9_created.tx_obj.tx_ins[0]? =
        some ({ c9_ok_in with script_sig := ⟨[]⟩, witness := ⟨[]⟩ }) ∧
      ∃ pin, c9_created.psbt_ins[0]? = some pin ∧
        pin.script_sig =
          (if c9_ok_in.script_sig.commands = [] then none else some c9_ok_in.script_sig) ∧
        pin.witness =
          (if c9_ok_in.witness.items = [] then none else some c9_ok_in.witness)) := by
  constructor
  · exact (C9_create_amended 20 c9_empty_tx).2 (by decide)
  · exact ((C9_create_amended 20 c9_ok_tx).1 c9_created (by decide)).2 0 c9_ok_in (by decide)


/-! ### C3: multisig finalize assembly -/

/-- The spec's description of the assembled signature list: the signatures
whose public keys appear among the script's push commands, in script order,
cut at the threshold. -/
def spec_ordered_sigs (sigs : AList Bytes) (cmds : List Cmd) (m : Nat) : List Bytes :=
  (cmds.filterMap fun c => match c with
    | Cmd.push pk => dict_get sigs pk
    | Cmd.op _ => none).take m

/-- The ScriptSig that `finalize` installs for a (possibly absent) redeem
script: the serialized redeem script as a single push, or an empty script. -/
def redeem_unlock (pin : PSBTIn) : Option Script :=
  match pin.redeem_script with
  | some rs => (rs.raw_serialize).map (fun raw => Script.mk [Cmd.push raw])
  | none => some (Script.mk [])

/-- The signature-collecting loop equals the spec's ordered selection:
script-order lookups, truncated at the remaining need. -/
theorem multisig_collect_eq (sigs : AList Bytes) (need : Nat) :
    ∀ (cmds : List Cmd) (have_n : Nat), have_n < need →
    multisig_collect sigs need cmds have_n =
      ((cmds.filterMap fun c => match c with
        | Cmd.push pk => dict_get sigs pk
        | Cmd.op _ => none).take (need - have_n)) := by
  intro cmds
  induction cmds with
  | nil =>
    intro have_n h
    simp [multisig_collect]
  | cons c rest ih =>
    intro have_n h
    cases c with
    | push pk =>
      rcases hg : dict_get sigs pk with _ | sig
      · simp only [multisig_collect, hg, List.filterMap_cons]
        rw [if_neg (by omega)]
        rw [ih have_n h]
      · simp only [multisig_collect, hg, List.filterMap_cons]
        by_cases h2 : have_n + 1 ≥ need
        · rw [if_pos h2]
          have he : need - have_n = 1 := by omega
          rw [he]
          simp
        · rw [if_neg h2]
          rw [ih (have_n + 1) (by omega)]
          have he : need - have_n = (need - (have_n + 1)) + 1 := by omega
          rw [he]
          simp
    | op n =>
      simp only [multisig_collect, List.filterMap_cons]
      rw [if_neg (by omega)]
      rw [ih have_n h]

/-- `multisig_collect` from a fresh count computes `spec_ordered_sigs` when
the threshold is at least 1. -/
theorem spec_ordered_sigs_collect (sigs : AList Bytes) (m : Nat) (cmds : List Cmd)
    (hm : 1 ≤ m) :
    multisig_collect sigs m cmds 0 = spec_ordered_sigs sigs cmds m := by
  rw [multisig_collect_eq sigs m cmds 0 (by omega)]
  unfold spec_ordered_sigs
  norm_num

/-- Characterization of `finalize_unlock` on the p2wsh / p2sh-p2wsh branch:
threshold check on the signature map, placeholder byte `0x00`, collected
signatures and the raw WitnessScript as the final witness item. -/
theorem finalize_unlock_wsh (pin : PSBTIn) (spk ws : Script) (m : Nat)
    (hspk : pin.script_pubkey = some (some spk))
    (h1 : ¬ (spk.is_p2wpkh = true ∨
      (pin.redeem_script.isSome = true ∧ (pin.redeem_script.getD ⟨[]⟩).is_p2wpkh = true)))
    (h2 : spk.is_p2wsh = true ∨
      (pin.redeem_script.isSome = true ∧ (pin.redeem_script.getD ⟨[]⟩).is_p2wsh = true))
    (h3 : ¬ (spk.is_p2sh = true ∧ pin.redeem_script.isNone = true))
    (hws : pin.witness_script = some ws)
    (hnum : (ws.command_at 0).bind op_code_to_number = some m) :
    pin.finalize_unlock =
      (if pin.sigs.length < m then Except.error Err.finalizeErr
       else if (multisig_collect pin.sigs m ws.commands 0).length < m then
         Except.error Err.finalizeErr
       else
         match ws.raw_serialize, redeem_unlock pin with
         | some raw_ws, some ss =>
           Except.ok (some ss,
             some ⟨[0x00] :: multisig_collect pin.sigs m ws.commands 0 ++ [raw_ws]⟩)
         | _, _ => Except.error Err.valueErr) := by
  rcases hc0 : ws.command_at 0 with _ | c0
  · rw [hc0] at hnum
    simp at hnum
  · rw [hc0] at hnum
    simp only [Option.some_bind] at hnum
    unfold PSBTIn.finalize_unlock
    rw [hspk]
    simp only [pure_bind_except]
    rw [err_if_neg h3]
    simp only [pure_bind_except]
    rw [if_neg h1, if_pos h2, hws]
    simp only [pure_bind_except, hc0, hnum]
    by_cases hs1 : pin.sigs.length < m
    · rw [if_pos hs1, err_if_pos hs1, throw_bind_except]
    · rw [if_neg hs1, err_if_neg hs1]
      simp only [pure_bind_except]
      by_cases hs2 : (multisig_collect pin.sigs m ws.commands 0).length < m
      · rw [if_pos hs2, err_if_pos hs2, throw_bind_except]
      · rw [if_neg hs2, err_if_neg hs2]
        simp only [pure_bind_except]
        rcases hraw : ws.raw_serialize with _ | raw_ws
        · rfl
        · simp only []
          rcases hrs : pin.redeem_script with _ | rs
          · simp only [pure_bind_except]
            unfold redeem_unlock
            rw [hrs]
            rfl
          · unfold redeem_unlock
            rw [hrs]
            dsimp only
            rcases hrsr : rs.raw_serialize with _ | raw_rs
            · rfl
            · rfl

/-- Characterization of `finalize_unlock` on the p2sh multisig branch: note
the source's `len(script_sig_commands) < num_sigs` guard counts the leading
`OP_0` placeholder, hence the `1 +` tolerance. -/
theorem finalize_unlock_p2sh (pin : PSBTIn) (spk rs : Script) (m : Nat)
    (hspk : pin.script_pubkey = some (some spk))
    (h1 : ¬ (spk.is_p2wpkh = true ∨
      (pin.redeem_script.isSome = true ∧ (pin.redeem_script.getD ⟨[]⟩).is_p2wpkh = true)))
    (h2 : ¬ (spk.is_p2wsh = true ∨
      (pin.redeem_script.isSome = true ∧ (pin.redeem_script.getD ⟨[]⟩).is_p2wsh = true)))
    (hp2sh : spk.is_p2sh = true)
    (hrs : pin.redeem_script = some rs)
    (hnum : (rs.command_at 0).bind op_code_to_number = some m) :
    pin.finalize_unlock =
      (if pin.sigs.length < m then Except.error Err.finalizeErr
       else if 1 + (multisig_collect pin.sigs m rs.commands 0).length < m then
         Except.error Err.finalizeErr
       else
         match rs.raw_serialize with
         | some raw_rs =>
           Except.ok (some ⟨Cmd.op 0 ::
             (multisig_collect pin.sigs m rs.commands 0).map Cmd.push ++
             [Cmd.push raw_rs]⟩, pin.witness)
         | none => Except.error Err.valueErr) := by
  rcases hc0 : rs.command_at 0 with _ | c0
  · rw [hc0] at hnum
    simp at hnum
  · rw [hc0] at hnum
    simp only [Option.some_bind] at hnum
    unfold PSBTIn.finalize_unlock
    rw [hspk]
    simp only [pure_bind_except]
    rw [err_if_neg (by rw [hrs]; simp)]
    simp only [pure_bind_except]
    rw [if_neg h1, if_neg h2, if_pos hp2sh, hrs]
    simp only [pure_bind_except, hc0, hnum]
    by_cases hs1 : pin.sigs.length < m
    · rw [if_pos hs1, err_if_pos hs1, throw_bind_except]
    · rw [if_neg hs1, err_if_neg hs1]
      simp only [pure_bind_except]
      by_cases hs2 : 1 + (multisig_collect pin.sigs m rs.commands 0).length < m
      · rw [if_pos hs2, err_if_pos hs2, throw_bind_except]
      · rw [if_neg hs2, err_if_neg hs2]
        simp only [pure_bind_except]
        rcases hraw : rs.raw_serialize with _ | raw_rs
        · rfl
        · rfl

/-- C3 (amended): for script-hash multisig inputs `finalize` orders the
signatures by their public key's position in the redeem/witness script
(insertion order is irrelevant: only map lookups are used), appends the
serialized script as the final element, and fails with a FinalizeError when
the signature map is smaller than the threshold; but the leading placeholder
is the one-byte item `0x00` for witness shapes (and the `OP_0` opcode for
p2sh), not an empty element, and the p2sh branch's insufficient-collected
check is off by one (it counts the placeholder), tolerating one missing
signature. -/
theorem C3_finalize_multisig_amended (pin : PSBTIn) (spk ws rs : Script) (m : Nat)
    (hspk : pin.script_pubkey = some (some spk)) (hm : 1 ≤ m) :
    ((¬ (spk.is_p2wpkh = true ∨
        (pin.redeem_script.isSome = true ∧ (pin.redeem_script.getD ⟨[]⟩).is_p2wpkh = true))) →
     (spk.is_p2wsh = true ∨
        (pin.redeem_script.isSome = true ∧ (pin.redeem_script.getD ⟨[]⟩).is_p2wsh = true)) →
     (¬ (spk.is_p2sh = true ∧ pin.redeem_script.isNone = true)) →
     pin.witness_script = some ws →
     (ws.command_at 0).bind op_code_to_number = some m →
     ((pin.sigs.length < m → pin.finalize = Except.error Err.finalizeErr) ∧
      (m ≤ pin.sigs.length → (spec_ordered_sigs pin.sigs ws.commands m).length < m →
        pin.finalize = Except.error Err.finalizeErr) ∧
      (m ≤ pin.sigs.length → m ≤ (spec_ordered_sigs pin.sigs ws.commands m).length →
        ∀ raw_ws ss, ws.raw_serialize = some raw_ws → redeem_unlock pin = some ss →
        pin.finalize = Except.ok (pin.clear_finalized (some ss,
          some ⟨[0x00] :: spec_ordered_sigs pin.sigs ws.commands m ++ [raw_ws]⟩))))) ∧
    ((¬ (spk.is_p2wpkh = true ∨
        (pin.redeem_script.isSome = true ∧ (pin.redeem_script.getD ⟨[]⟩).is_p2wpkh = true))) →
     (¬ (spk.is_p2wsh = true ∨
        (pin.redeem_script.isSome = true ∧ (pin.redeem_script.getD ⟨[]⟩).is_p2wsh = true))) →
     spk.is_p2sh = true →
     pin.redeem_script = some rs →
     (rs.command_at 0).bind op_code_to_number = some m →
     ((pin.sigs.length < m → pin.finalize = Except.error Err.finalizeErr) ∧
      (m ≤ pin.sigs.length → 1 + (spec_ordered_sigs pin.sigs rs.commands m).length < m →
        pin.finalize = Except.error Err.finalizeErr) ∧
      (m ≤ pin.sigs.length → m ≤ 1 + (spec_ordered_sigs pin.sigs rs.commands m).length →
        ∀ raw_rs, rs.raw_serialize = some raw_rs →
        pin.finalize = Except.ok (pin.clear_finalized
          (some ⟨Cmd.op 0 :: (spec_ordered_sigs pin.sigs rs.commands m).map Cmd.push ++
            [Cmd.push raw_rs]⟩, pin.witness))))) := by
  constructor
  · intro h1 h2 h3 hws hnum
    have hu := finalize_unlock_wsh pin spk ws m hspk h1 h2 h3 hws hnum
    rw [spec_ordered_sigs_collect pin.sigs m ws.commands hm] at hu
    refine ⟨?_, ?_, ?_⟩
    · intro hlt
      unfold PSBTIn.finalize
      rw [hu, if_pos hlt]
      rfl
    · intro hge hclt
      unfold PSBTIn.finalize
      rw [hu, if_neg (by omega), if_pos hclt]
      rfl
    · intro hge hcge raw_ws ss hraw hss
      unfold PSBTIn.finalize
      rw [hu, if_neg (by omega), if_neg (by omega), hraw, hss]
      rfl
  · intro h1 h2 hp2sh hrs hnum
    have hu := finalize_unlock_p2sh pin spk rs m hspk h1 h2 hp2sh hrs hnum
    rw [spec_ordered_sigs_collect pin.sigs m rs.commands hm] at hu
    refine ⟨?_, ?_, ?_⟩
    · intro hlt
      unfold PSBTIn.finalize
      rw [hu, if_pos hlt]
      rfl
    · intro hge hclt
      unfold PSBTIn.finalize
      rw [hu, if_neg (by omega), if_pos hclt]
      rfl
    · intro hge hcge raw_rs hraw
      unfold PSBTIn.finalize
      rw [hu, if_neg (by omega), if_neg (by omega), hraw]
      rfl

/-- First public key of the 2-of-3 witness script. -/
def c3_pk1 : Bytes := 2 :: List.replicate 32 0x11

/-- Second public key (no signature provided). -/
def c3_pk2 : Bytes := 2 :: List.replicate 32 0x22

/-- Third public key of the 2-of-3 witness script. -/
def c3_pk3 : Bytes := 3 :: List.replicate 32 0x33

/-- A public key that appears in no script. -/
def c3_pkx : Bytes := 2 :: List.replicate 32 0x44

/-- Signature for `c3_pk1`. -/
def c3_sig1 : Bytes := List.replicate 70 0xa1

/-- Signature for `c3_pk3`. -/
def c3_sig3 : Bytes := List.replicate 70 0xa3

/-- Signature for `c3_pkx`. -/
def c3_sigx : Bytes := List.replicate 70 0xa4

/-- A 2-of-3 multisig witness script: `OP_2 pk1 pk2 pk3 OP_3
OP_CHECKMULTISIG`. -/
def c3_ws : Script :=
  ⟨[Cmd.op 82, Cmd.push c3_pk1, Cmd.push c3_pk2, Cmd.push c3_pk3, Cmd.op 83,
    Cmd.op 174]⟩

/-- The raw serialization of the witness script. -/
def c3_raw_ws : Bytes := (c3_ws.raw_serialize).getD []

/-- The matching p2wsh ScriptPubKey. -/
def c3_spk : Script := ⟨[Cmd.op 0, Cmd.push ((WitnessScript.sha256 c3_ws).getD [])]⟩

/-- The transaction input of the p2wsh PSBT input. -/
def c3_tx_in : TxIn :=
  ⟨List.replicate 32 0x77, 0, ⟨[]⟩, 0xffffffff, ⟨[]⟩, none, none⟩

/-- A validated 2-of-3 p2wsh input holding signatures for `pk3` and `pk1`,
inserted in that (reverse) order. -/
def c3_pin : PSBTIn :=
  ⟨c3_tx_in, none, some ⟨90, c3_spk⟩, [(c3_pk3, c3_sig3), (c3_pk1, c3_sig1)],
   none, none, some c3_ws, [], none, none, []⟩

/-- The expected finalized input: signatures re-ordered to script order
(`sig1` before `sig3`), with the one-byte `0x00` placeholder first. -/
def c3_fin : PSBTIn :=
  ⟨c3_tx_in, none, some ⟨90, c3_spk⟩, [], none, none, none, [],
   some ⟨[]⟩, some ⟨[0x00] :: c3_sig1 :: c3_sig3 :: [c3_raw_ws]⟩, []⟩

/-- A 2-of-2 multisig redeem script over `pk1` and `pk2`. -/
def c3_rs : Script :=
  ⟨[Cmd.op 82, Cmd.push c3_pk1, Cmd.push c3_pk2, Cmd.op 82, Cmd.op 174]⟩

/-- The raw serialization of the redeem script. -/
def c3_raw_rs : Bytes := (c3_rs.raw_serialize).getD []

/-- The matching p2sh ScriptPubKey. -/
def c3_spk2 : Script := P2SHScriptPubKey (hash160 c3_raw_rs)

/-- The previous transaction paying to the p2sh ScriptPubKey. -/
def c3_prev_tx : Tx := ⟨1, [], [⟨50, c3_spk2⟩], 0⟩

/-- The transaction input spending `c3_prev_tx`. -/
def c3_tx_in2 : TxIn :=
  ⟨(c3_prev_tx.hash).getD [], 0, ⟨[]⟩, 0xffffffff, ⟨[]⟩, none, none⟩

/-- A validated 2-of-2 p2sh input whose signature map has two entries, but
only one (`pk1`) matches a script key — `pkx` is foreign. -/
def c3_pin2 : PSBTIn :=
  ⟨c3_tx_in2, some c3_prev_tx, none, [(c3_pk1, c3_sig1), (c3_pkx, c3_sigx)],
   none, some c3_rs, none, [], none, none, []⟩

/-- The finalized p2sh input: only one signature assembled for a threshold
of two, yet finalize succeeded. -/
def c3_fin2 : PSBTIn :=
  ⟨c3_tx_in2, some c3_prev_tx, none, [], none, none, none, [],
   some ⟨[Cmd.op 0, Cmd.push c3_sig1, Cmd.push c3_raw_rs]⟩, none, []⟩

set_option maxRecDepth 10000 in
/-- C3 counterexample: on a validated 2-of-3 p2wsh input with 2 signatures,
`finalize` succeeds with the signatures in script order — but the leading
placeholder element is the one-byte string `0x00`, not the claimed empty
element; and on a validated 2-of-2 p2sh input whose signature map has 2
entries of which only 1 matches a script key, `finalize` succeeds assembling
a single signature instead of failing, because the source's guard counts the
leading `OP_0` placeholder (off by one). -/
theorem C3_counterexample :
    c3_pin.validate = Except.ok () ∧
    c3_pin.finalize = Except.ok c3_fin ∧
    c3_fin.witness = some ⟨[0x00] :: c3_sig1 :: c3_sig3 :: [c3_raw_ws]⟩ ∧
    ([0x00] : Bytes) ≠ [] ∧
    op_code_to_number (Cmd.op 82) = some 2 ∧
    c3_pin2.validate = Except.ok () ∧
    c3_pin2.sigs.length = 2 ∧
    c3_pin2.finalize = Except.ok c3_fin2 ∧
    c3_fin2.script_sig = some ⟨[Cmd.op 0, Cmd.push c3_sig1, Cmd.push c3_raw_rs]⟩ := by
  refine ⟨by decide, by decide, by decide, by decide, by decide, by decide,
    by decide, by decide, by decide⟩

set_option maxRecDepth 10000 in
/-- C3 witness: the amended theorem applied to the concrete p2wsh and p2sh
inputs, with every hypothesis discharged by evaluation. -/
theorem C3_witness :
    c3_pin.finalize = Except.ok (c3_pin.clear_finalized (some ⟨[]⟩,
      some ⟨[0x00] :: spec_ordered_sigs c3_pin.sigs c3_ws.commands 2 ++ [c3_raw_ws]⟩)) ∧
    c3_pin2.finalize = Except.ok (c3_pin2.clear_finalized
      (some ⟨Cmd.op 0 :: (spec_ordered_sigs c3_pin2.sigs c3_rs.commands 2).map Cmd.push ++
        [Cmd.push c3_raw_rs]⟩, c3_pin2.witness)) := by
  constructor
  · exact ((C3_finalize_multisig_amended c3_pin c3_spk c3_ws c3_ws 2 (by decide)
      (by decide)).1 (by decide) (by decide) (by decide) (by decide) (by decide)).2.2
      (by decide) (by decide) c3_raw_ws ⟨[]⟩ (by decide) (by decide)
  · exact ((C3_finalize_multisig_amended c3_pin2 c3_spk2 c3_rs c3_rs 2 (by decide)
      (by decide)).2 (by decide) (by decide) (by decide) (by decide) (by decide)).2.2
      (by decide) (by decide) c3_raw_rs (by decide)


/-! ### C6: algebra of `PSBT.combine` -/

/-- The fill-in-if-absent combination of the single-valued `combine` fields
(`if self.x is None and other.x: ...` in `psbt.py`). -/
def fill {α : Type} (a b : Option α) : Option α :=
  if a.isNone ∧ b.isSome then b else a

/-- The hash-type combination: Python truthiness treats `0` as absent. -/
def fill_num (a b : Option Nat) : Option Nat :=
  if a.isNone ∧ truthy_nat b then b else a

/-- The witness combination: an empty `Witness` is falsy. -/
def fill_wit (a b : Option Witness) : Option Witness :=
  if a.isNone ∧ truthy_witness b then b else a

/-- Two optional contributions do not conflict: equal, or one absent. -/
def opt_compat {α : Type} (a b : Option α) : Prop :=
  a = b ∨ a = none ∨ b = none

/-- Non-conflicting hash types; a present value must be truthy for the
combination to be direction-independent. -/
def num_compat (a b : Option Nat) : Prop :=
  a = b ∨ (a = none ∧ truthy_nat b) ∨ (b = none ∧ truthy_nat a)

/-- Non-conflicting witnesses; a present witness must be non-empty. -/
def wit_compat (a b : Option Witness) : Prop :=
  a = b ∨ (a = none ∧ truthy_witness b) ∨ (b = none ∧ truthy_witness a)

/-- Lookup equality of two insertion-ordered maps: this is Python dict
equality, which ignores insertion order. -/
def dict_equiv {β : Type} (a b : AList β) : Prop :=
  ∀ k, dict_get a k = dict_get b k

/-- No key of `a` is present in `b` (decidable form). -/
def dict_disjoint {β : Type} (a b : AList β) : Prop :=
  a.all (fun p => (dict_get b p.1).isNone) = true

/-- Fill-in-if-absent is commutative on non-conflicting values. -/
theorem fill_comm {α : Type} {a b : Option α} (h : opt_compat a b) :
    fill a b = fill b a := by
  rcases h with h | h | h
  · subst h
    rfl
  · subst h
    cases b <;> simp [fill]
  · subst h
    cases a <;> simp [fill]

/-- Fill-in-if-absent is associative. -/
theorem fill_assoc {α : Type} (a b c : Option α) :
    fill (fill a b) c = fill a (fill b c) := by
  cases a <;> cases b <;> cases c <;> simp [fill]

/-- The hash-type combination is commutative on non-conflicting values. -/
theorem fill_num_comm {a b : Option Nat} (h : num_compat a b) :
    fill_num a b = fill_num b a := by
  rcases h with h | ⟨h1, h2⟩ | ⟨h1, h2⟩
  · subst h
    rfl
  · subst h1
    cases b with
    | none => simp [truthy_nat] at h2
    | some n =>
      simp [truthy_nat] at h2
      simp [fill_num, truthy_nat, h2]
  · subst h1
    cases a with
    | none => simp [truthy_nat] at h2
    | some n =>
      simp [truthy_nat] at h2
      simp [fill_num, truthy_nat, h2]

/-- The hash-type combination is associative when the first two values do
not conflict. -/
theorem fill_num_assoc {a b : Option Nat} (c : Option Nat) (h : num_compat a b) :
    fill_num (fill_num a b) c = fill_num a (fill_num b c) := by
  rcases ha : a with _ | n
  · rcases hb : b with _ | nb
    · subst ha hb
      cases c with
      | none => simp [truthy_nat, fill_num]
      | some v =>
        by_cases hv : v = 0 <;> simp [truthy_nat, fill_num, hv]
    · subst ha hb
      rcases h with h | ⟨h1, h2⟩ | ⟨h1, h2⟩
      · cases h
      · simp [fill_num, h2]
      · cases h1
  · subst ha
    simp [fill_num]

/-- The witness combination is commutative on non-conflicting values. -/
theorem fill_wit_comm {a b : Option Witness} (h : wit_compat a b) :
    fill_wit a b = fill_wit b a := by
  rcases h with h | ⟨h1, h2⟩ | ⟨h1, h2⟩
  · subst h
    rfl
  · subst h1
    cases b with
    | none => simp [truthy_witness] at h2
    | some w =>
      simp [truthy_witness] at h2
      simp [fill_wit, truthy_witness, h2]
  · subst h1
    cases a with
    | none => simp [truthy_witness] at h2
    | some w =>
      simp [truthy_witness] at h2
      simp [fill_wit, truthy_witness, h2]

/-- The witness combination is associative when the first two values do not
conflict. -/
theorem fill_wit_assoc {a b : Option Witness} (c : Option Witness) (h : wit_compat a b) :
    fill_wit (fill_wit a b) c = fill_wit a (fill_wit b c) := by
  rcases ha : a with _ | n
  · rcases hb : b with _ | nb
    · subst ha hb
      cases c with
      | none => simp [truthy_witness, fill_wit]
      | some v =>
        by_cases hv : v.items = [] <;> simp [truthy_witness, fill_wit, hv]
    · subst ha hb
      rcases h with h | ⟨h1, h2⟩ | ⟨h1, h2⟩
      · cases h
      · simp [fill_wit, h2]
      · cases h1
  · subst ha
    simp [fill_wit]

/-- Fill-in-if-absent is idempotent. -/
theorem fill_idem {α : Type} (a : Option α) : fill a a = a := by
  cases a <;> simp [fill]

/-- The hash-type combination is idempotent. -/
theorem fill_num_idem (a : Option Nat) : fill_num a a = a := by
  unfold fill_num
  exact ite_self a

/-- The witness combination is idempotent. -/
theorem fill_wit_idem (a : Option Witness) : fill_wit a a = a := by
  unfold fill_wit
  exact ite_self a

/-- A successful lookup exhibits a member of the map. -/
theorem dict_get_mem {β : Type} {d : AList β} {k : Bytes} {v : β}
    (h : dict_get d k = some v) : (k, v) ∈ d := by
  unfold dict_get at h
  rcases hf : d.find? (fun p => p.1 = k) with _ | p
  · rw [hf] at h
    cases h
  · rw [hf] at h
    have hp : p.1 = k := by
      have hthis := List.find?_some hf
      simpa using hthis
    have hm := List.mem_of_find?_eq_some hf
    have hv : p.2 = v := by simpa using h
    rw [← hp, ← hv]
    exact hm

/-- Disjoint maps have no common key with two successful lookups. -/
theorem dict_disjoint_get {β : Type} {a b : AList β} (h : dict_disjoint a b)
    (k : Bytes) : dict_get a k = none ∨ dict_get b k = none := by
  rcases hg : dict_get a k with _ | v
  · exact Or.inl rfl
  · right
    have hm := dict_get_mem hg
    unfold dict_disjoint at h
    rw [List.all_eq_true] at h
    have hthis := h (k, v) hm
    simpa using hthis

/-- Python dict merge is commutative up to lookup equality on disjoint
well-formed maps. -/
theorem dict_merge_comm_equiv {β : Type} {a b : AList β}
    (ha : alist_wf a) (hb : alist_wf b) (hd : dict_disjoint a b) :
    dict_equiv (dict_merge a b) (dict_merge b a) := by
  intro k
  rw [dict_get_merge a b hb, dict_get_merge b a ha]
  rcases dict_disjoint_get hd k with h | h <;> rw [h] <;> cases hx : dict_get b k <;>
    cases hy : dict_get a k <;> simp_all [Option.or]

/-- Python dict merge is associative up to lookup equality. -/
theorem dict_merge_assoc_equiv {β : Type} (a : AList β) {b c : AList β}
    (hb : alist_wf b) (hc : alist_wf c) :
    dict_equiv (dict_merge (dict_merge a b) c) (dict_merge a (dict_merge b c)) := by
  intro k
  rw [dict_get_merge _ _ hc, dict_get_merge _ _ hb,
    dict_get_merge _ _ (dict_merge_wf hb), dict_get_merge _ _ hc]
  cases dict_get c k <;> cases dict_get b k <;> cases dict_get a k <;> simp [Option.or]

/-- Lookup equality is reflexive. -/
theorem dict_equiv_refl {β : Type} (a : AList β) : dict_equiv a a := fun _ => rfl

/-- Lookup equality is symmetric. -/
theorem dict_equiv_symm {β : Type} {a b : AList β} (h : dict_equiv a b) :
    dict_equiv b a := fun k => (h k).symm

/-- Lookup equality is transitive. -/
theorem dict_equiv_trans {β : Type} {a b c : AList β} (h1 : dict_equiv a b)
    (h2 : dict_equiv b c) : dict_equiv a c := fun k => (h1 k).trans (h2 k)


/-- A key of a member pair has a successful lookup. -/
theorem dict_get_isSome_of_mem {β : Type} {d : AList β} {p : Bytes × β}
    (h : p ∈ d) : (dict_get d p.1).isSome = true := by
  unfold dict_get
  rcases hf : d.find? (fun q => q.1 = p.1) with _ | q
  · rw [List.find?_eq_none] at hf
    exact absurd (by simp) (hf p h)
  · rw [hf]
    rfl

/-- Disjointness of maps is symmetric. -/
theorem dict_disjoint_symm {β : Type} {a b : AList β} (h : dict_disjoint a b) :
    dict_disjoint b a := by
  unfold dict_disjoint at h ⊢
  rw [List.all_eq_true] at h ⊢
  intro p hp
  rcases hg : dict_get a p.1 with _ | v
  · simp
  · exfalso
    have hm := dict_get_mem hg
    have hthis := h (p.1, v) hm
    have hs := dict_get_isSome_of_mem hp
    simp only at hthis
    rw [Option.isNone_iff_eq_none] at hthis
    rw [hthis] at hs
    cases hs

/-- All of a `PSBTIn`'s maps have distinct keys (a Python dict invariant). -/
def PSBTIn.wf (p : PSBTIn) : Prop :=
  alist_wf p.sigs ∧ alist_wf p.named_pubs ∧ alist_wf p.extra_map

/-- All of a `PSBTOut`'s maps have distinct keys. -/
def PSBTOut.wf (p : PSBTOut) : Prop :=
  alist_wf p.named_pubs ∧ alist_wf p.extra_map

/-- Python equality of two `PSBTIn`s: equal fields, with dict fields
compared by lookup. -/
def PSBTIn.equiv (p q : PSBTIn) : Prop :=
  p.tx_in = q.tx_in ∧ p.prev_tx = q.prev_tx ∧ p.prev_out = q.prev_out ∧
  dict_equiv p.sigs q.sigs ∧ p.hash_type = q.hash_type ∧
  p.redeem_script = q.redeem_script ∧ p.witness_script = q.witness_script ∧
  dict_equiv p.named_pubs q.named_pubs ∧ p.script_sig = q.script_sig ∧
  p.witness = q.witness ∧ dict_equiv p.extra_map q.extra_map

/-- Python equality of two `PSBTOut`s. -/
def PSBTOut.equiv (p q : PSBTOut) : Prop :=
  p.tx_out = q.tx_out ∧ p.redeem_script = q.redeem_script ∧
  p.witness_script = q.witness_script ∧ dict_equiv p.named_pubs q.named_pubs ∧
  dict_equiv p.extra_map q.extra_map

/-- Non-overlapping contributions for one input: same transaction input,
non-conflicting single-valued fields and disjoint maps. -/
def PSBTIn.compat (x y : PSBTIn) : Prop :=
  x.tx_in = y.tx_in ∧ opt_compat x.prev_tx y.prev_tx ∧
  opt_compat x.prev_out y.prev_out ∧ dict_disjoint x.sigs y.sigs ∧
  num_compat x.hash_type y.hash_type ∧ opt_compat x.redeem_script y.redeem_script ∧
  opt_compat x.witness_script y.witness_script ∧
  dict_disjoint x.named_pubs y.named_pubs ∧ opt_compat x.script_sig y.script_sig ∧
  wit_compat x.witness y.witness ∧ dict_disjoint x.extra_map y.extra_map

/-- Non-overlapping contributions for one output. -/
def PSBTOut.compat (x y : PSBTOut) : Prop :=
  x.tx_out = y.tx_out ∧ opt_compat x.redeem_script y.redeem_script ∧
  opt_compat x.witness_script y.witness_script ∧
  dict_disjoint x.named_pubs y.named_pubs ∧ dict_disjoint x.extra_map y.extra_map

/-- `PSBTIn.combine` with itself is the identity. -/
theorem psbtin_combine_idem (p : PSBTIn) (h : p.wf) : p.combine p = p := by
  obtain ⟨h1, h2, h3⟩ := h
  unfold PSBTIn.combine
  rw [dict_merge_self h1, dict_merge_self h2, dict_merge_self h3]
  simp only [ite_self]

/-- `PSBTOut.combine` with itself is the identity. -/
theorem psbtout_combine_idem (p : PSBTOut) (h : p.wf) : p.combine p = p := by
  obtain ⟨h1, h2⟩ := h
  unfold PSBTOut.combine
  rw [dict_merge_self h1, dict_merge_self h2]
  simp only [ite_self]

/-- `PSBTIn.combine` is commutative up to Python equality for
non-overlapping inputs. -/
theorem psbtin_combine_comm (x y : PSBTIn) (hwx : x.wf) (hwy : y.wf)
    (hc : x.compat y) : (x.combine y).equiv (y.combine x) := by
  obtain ⟨hti, hpt, hpo, hsig, hht, hrs, hws, hnp, hss, hwit, hem⟩ := hc
  unfold PSBTIn.combine PSBTIn.equiv
  dsimp only
  exact ⟨hti, fill_comm hpt, fill_comm hpo,
    dict_merge_comm_equiv hwx.1 hwy.1 hsig, fill_num_comm hht, fill_comm hrs,
    fill_comm hws, dict_merge_comm_equiv hwy.2.1 hwx.2.1 (dict_disjoint_symm hnp),
    fill_comm hss, fill_wit_comm hwit,
    dict_merge_comm_equiv hwy.2.2 hwx.2.2 (dict_disjoint_symm hem)⟩

/-- `PSBTOut.combine` is commutative up to Python equality for
non-overlapping outputs. -/
theorem psbtout_combine_comm (x y : PSBTOut) (hwx : x.wf) (hwy : y.wf)
    (hc : x.compat y) : (x.combine y).equiv (y.combine x) := by
  obtain ⟨hto, hrs, hws, hnp, hem⟩ := hc
  unfold PSBTOut.combine PSBTOut.equiv
  dsimp only
  exact ⟨hto, fill_comm hrs, fill_comm hws,
    dict_merge_comm_equiv hwy.1 hwx.1 (dict_disjoint_symm hnp),
    dict_merge_comm_equiv hwy.2 hwx.2 (dict_disjoint_symm hem)⟩

/-- `PSBTIn.combine` is associative up to Python equality. -/
theorem psbtin_combine_assoc (x y z : PSBTIn) (hwx : x.wf) (hwy : y.wf)
    (hwz : z.wf) (hxy : x.compat y) :
    ((x.combine y).combine z).equiv (x.combine (y.combine z)) := by
  unfold PSBTIn.combine PSBTIn.equiv
  dsimp only
  exact ⟨rfl, fill_assoc _ _ _, fill_assoc _ _ _,
    dict_merge_assoc_equiv x.sigs hwy.1 hwz.1,
    fill_num_assoc _ hxy.2.2.2.2.1, fill_assoc _ _ _, fill_assoc _ _ _,
    dict_equiv_symm (dict_merge_assoc_equiv z.named_pubs hwy.2.1 hwx.2.1),
    fill_assoc _ _ _, fill_wit_assoc _ hxy.2.2.2.2.2.2.2.2.2.1,
    dict_equiv_symm (dict_merge_assoc_equiv z.extra_map hwy.2.2 hwx.2.2)⟩

/-- `PSBTOut.combine` is associative up to Python equality. -/
theorem psbtout_combine_assoc (x y z : PSBTOut) (hwx : x.wf) (hwy : y.wf) :
    ((x.combine y).combine z).equiv (x.combine (y.combine z)) := by
  unfold PSBTOut.combine PSBTOut.equiv
  dsimp only
  exact ⟨rfl, fill_assoc _ _ _, fill_assoc _ _ _,
    dict_equiv_symm (dict_merge_assoc_equiv z.named_pubs hwy.1 hwx.1),
    dict_equiv_symm (dict_merge_assoc_equiv z.extra_map hwy.2 hwx.2)⟩


instance {α : Type} [DecidableEq α] (a b : Option α) : Decidable (opt_compat a b) := by
  unfold opt_compat
  infer_instance

instance (a b : Option Nat) : Decidable (num_compat a b) := by
  unfold num_compat
  infer_instance

instance (a b : Option Witness) : Decidable (wit_compat a b) := by
  unfold wit_compat
  infer_instance

instance {β : Type} (a b : AList β) : Decidable (dict_disjoint a b) := by
  unfold dict_disjoint
  infer_instance

instance (x y : PSBTIn) : Decidable (x.compat y) := by
  unfold PSBTIn.compat
  infer_instance

instance (x y : PSBTOut) : Decidable (x.compat y) := by
  unfold PSBTOut.compat
  infer_instance

instance (p : PSBTIn) : Decidable p.wf := by
  unfold PSBTIn.wf
  infer_instance

instance (p : PSBTOut) : Decidable p.wf := by
  unfold PSBTOut.wf
  infer_instance

/-- Pointwise input compatibility (forcing equal lengths). -/
def ins_compat : List PSBTIn → List PSBTIn → Prop
  | [], [] => True
  | x :: xs, y :: ys => x.compat y ∧ ins_compat xs ys
  | _, _ => False

/-- Pointwise output compatibility. -/
def outs_compat : List PSBTOut → List PSBTOut → Prop
  | [], [] => True
  | x :: xs, y :: ys => x.compat y ∧ outs_compat xs ys
  | _, _ => False

/-- Pointwise Python equality of input lists. -/
def ins_equiv : List PSBTIn → List PSBTIn → Prop
  | [], [] => True
  | x :: xs, y :: ys => x.equiv y ∧ ins_equiv xs ys
  | _, _ => False

/-- Pointwise Python equality of output lists. -/
def outs_equiv : List PSBTOut → List PSBTOut → Prop
  | [], [] => True
  | x :: xs, y :: ys => x.equiv y ∧ outs_equiv xs ys
  | _, _ => False

instance ins_compat_dec : (xs ys : List PSBTIn) → Decidable (ins_compat xs ys)
  | [], [] => isTrue trivial
  | [], _ :: _ => isFalse id
  | _ :: _, [] => isFalse id
  | _ :: xs, _ :: ys =>
    have _hd := ins_compat_dec xs ys
    inferInstanceAs (Decidable (_ ∧ _))

instance outs_compat_dec : (xs ys : List PSBTOut) → Decidable (outs_compat xs ys)
  | [], [] => isTrue trivial
  | [], _ :: _ => isFalse id
  | _ :: _, [] => isFalse id
  | _ :: xs, _ :: ys =>
    have _hd := outs_compat_dec xs ys
    inferInstanceAs (Decidable (_ ∧ _))

/-- The pairwise input combination with itself is the identity. -/
theorem zip_combine_ins_idem (xs : List PSBTIn) (h : ∀ q ∈ xs, q.wf) :
    zip_combine_ins xs xs = xs := by
  induction xs with
  | nil => rfl
  | cons x xs ih =>
    show x.combine x :: zip_combine_ins xs xs = x :: xs
    rw [psbtin_combine_idem x (h x (by simp)),
      ih (fun q hq => h q (List.mem_cons_of_mem _ hq))]

/-- The pairwise output combination with itself is the identity. -/
theorem zip_combine_outs_idem (xs : List PSBTOut) (h : ∀ q ∈ xs, q.wf) :
    zip_combine_outs xs xs = xs := by
  induction xs with
  | nil => rfl
  | cons x xs ih =>
    show x.combine x :: zip_combine_outs xs xs = x :: xs
    rw [psbtout_combine_idem x (h x (by simp)),
      ih (fun q hq => h q (List.mem_cons_of_mem _ hq))]

/-- Pairwise input combination commutes for compatible lists. -/
theorem zip_combine_ins_comm (xs ys : List PSBTIn)
    (hwx : ∀ q ∈ xs, q.wf) (hwy : ∀ q ∈ ys, q.wf) (hc : ins_compat xs ys) :
    ins_equiv (zip_combine_ins xs ys) (zip_combine_ins ys xs) := by
  induction xs generalizing ys with
  | nil =>
    cases ys with
    | nil => trivial
    | cons y ys => cases hc
  | cons x xs ih =>
    cases ys with
    | nil => cases hc
    | cons y ys =>
      obtain ⟨h1, h2⟩ := hc
      exact ⟨psbtin_combine_comm x y (hwx x (by simp)) (hwy y (by simp)) h1,
        ih ys (fun q hq => hwx q (List.mem_cons_of_mem _ hq))
          (fun q hq => hwy q (List.mem_cons_of_mem _ hq)) h2⟩

/-- Pairwise output combination commutes for compatible lists. -/
theorem zip_combine_outs_comm (xs ys : List PSBTOut)
    (hwx : ∀ q ∈ xs, q.wf) (hwy : ∀ q ∈ ys, q.wf) (hc : outs_compat xs ys) :
    outs_equiv (zip_combine_outs xs ys) (zip_combine_outs ys xs) := by
  induction xs generalizing ys with
  | nil =>
    cases ys with
    | nil => trivial
    | cons y ys => cases hc
  | cons x xs ih =>
    cases ys with
    | nil => cases hc
    | cons y ys =>
      obtain ⟨h1, h2⟩ := hc
      exact ⟨psbtout_combine_comm x y (hwx x (by simp)) (hwy y (by simp)) h1,
        ih ys (fun q hq => hwx q (List.mem_cons_of_mem _ hq))
          (fun q hq => hwy q (List.mem_cons_of_mem _ hq)) h2⟩

/-- Pairwise input combination is associative. -/
theorem zip_combine_ins_assoc (xs ys zs : List PSBTIn)
    (hwx : ∀ q ∈ xs, q.wf) (hwy : ∀ q ∈ ys, q.wf) (hwz : ∀ q ∈ zs, q.wf)
    (hxy : ins_compat xs ys) (hyz : ins_compat ys zs) :
    ins_equiv (zip_combine_ins (zip_combine_ins xs ys) zs)
      (zip_combine_ins xs (zip_combine_ins ys zs)) := by
  induction xs generalizing ys zs with
  | nil =>
    cases ys with
    | nil =>
      cases zs with
      | nil => trivial
      | cons z zs => cases hyz
    | cons y ys => cases hxy
  | cons x xs ih =>
    cases ys with
    | nil => cases hxy
    | cons y ys =>
      cases zs with
      | nil => cases hyz
      | cons z zs =>
        obtain ⟨h1, h2⟩ := hxy
        obtain ⟨h3, h4⟩ := hyz
        exact ⟨psbtin_combine_assoc x y z (hwx x (by simp)) (hwy y (by simp))
            (hwz z (by simp)) h1,
          ih ys zs (fun q hq => hwx q (List.mem_cons_of_mem _ hq))
            (fun q hq => hwy q (List.mem_cons_of_mem _ hq))
            (fun q hq => hwz q (List.mem_cons_of_mem _ hq)) h2 h4⟩

/-- Pairwise output combination is associative. -/
theorem zip_combine_outs_assoc (xs ys zs : List PSBTOut)
    (hwx : ∀ q ∈ xs, q.wf) (hwy : ∀ q ∈ ys, q.wf)
    (hxy : outs_compat xs ys) (hyz : outs_compat ys zs) :
    outs_equiv (zip_combine_outs (zip_combine_outs xs ys) zs)
      (zip_combine_outs xs (zip_combine_outs ys zs)) := by
  induction xs generalizing ys zs with
  | nil =>
    cases ys with
    | nil =>
      cases zs with
      | nil => trivial
      | cons z zs => cases hyz
    | cons y ys => cases hxy
  | cons x xs ih =>
    cases ys with
    | nil => cases hxy
    | cons y ys =>
      cases zs with
      | nil => cases hyz
      | cons z zs =>
        obtain ⟨h1, h2⟩ := hxy
        obtain ⟨h3, h4⟩ := hyz
        exact ⟨psbtout_combine_assoc x y z (hwx x (by simp)) (hwy y (by simp)),
          ih ys zs (fun q hq => hwx q (List.mem_cons_of_mem _ hq))
            (fun q hq => hwy q (List.mem_cons_of_mem _ hq)) h2 h4⟩


/-- All of a PSBT's maps (global and per input/output) have distinct
keys. -/
def PSBT.wf (p : PSBT) : Prop :=
  alist_wf p.hd_pubs ∧ alist_wf p.extra_map ∧
  (∀ q ∈ p.psbt_ins, q.wf) ∧ (∀ r ∈ p.psbt_outs, r.wf)

instance (p : PSBT) : Decidable p.wf := by
  unfold PSBT.wf
  infer_instance

/-- Non-overlapping contributions over the same underlying transaction. -/
def PSBT.compat (x y : PSBT) : Prop :=
  x.tx_obj = y.tx_obj ∧ dict_disjoint x.hd_pubs y.hd_pubs ∧
  dict_disjoint x.extra_map y.extra_map ∧ ins_compat x.psbt_ins y.psbt_ins ∧
  outs_compat x.psbt_outs y.psbt_outs

instance (x y : PSBT) : Decidable (x.compat y) := by
  unfold PSBT.compat
  infer_instance

/-- Python equality of two PSBTs: equal transaction and pointwise equal
components, maps compared by lookup. -/
def PSBT.equiv (p q : PSBT) : Prop :=
  p.tx_obj = q.tx_obj ∧ ins_equiv p.psbt_ins q.psbt_ins ∧
  outs_equiv p.psbt_outs q.psbt_outs ∧ dict_equiv p.hd_pubs q.hd_pubs ∧
  dict_equiv p.extra_map q.extra_map

/-- `PSBT.combine` on matching transaction hashes succeeds and merges
field-by-field. -/
theorem psbt_combine_ok (x y : PSBT) (h : Bytes)
    (hx : x.tx_obj.hash = some h) (hy : y.tx_obj.hash = some h) :
    x.combine y = Except.ok { x with
      hd_pubs := dict_merge y.hd_pubs x.hd_pubs
      extra_map := dict_merge y.extra_map x.extra_map
      psbt_ins := zip_combine_ins x.psbt_ins y.psbt_ins
      psbt_outs := zip_combine_outs x.psbt_outs y.psbt_outs } := by
  unfold PSBT.combine
  rw [hx]
  simp only [pure_bind_except]
  rw [hy]
  simp only [pure_bind_except]
  rw [err_if_neg (by simp)]
  rfl

/-- C6: `PSBT.combine` is idempotent on any PSBT whose maps are well-formed
Python dicts, and for PSBTs over the same underlying transaction with
non-overlapping signature/annotation contributions it is commutative and
associative up to Python equality (Python `==` on dicts ignores insertion
order; the underlying association lists can differ in key order). -/
theorem C6_combine_algebra (x y z : PSBT) :
    (PSBT.wf x → (x.tx_obj.hash).isSome →
      PSBT.combine x x = Except.ok x) ∧
    (PSBT.wf x → PSBT.wf y → PSBT.compat x y → (x.tx_obj.hash).isSome →
      ∃ v w, PSBT.combine x y = Except.ok v ∧ PSBT.combine y x = Except.ok w ∧
        PSBT.equiv v w) ∧
    (PSBT.wf x → PSBT.wf y → PSBT.wf z → PSBT.compat x y → PSBT.compat y z →
      (x.tx_obj.hash).isSome →
      ∃ u uv v vw, PSBT.combine x y = Except.ok uv ∧
        PSBT.combine uv z = Except.ok u ∧
        PSBT.combine y z = Except.ok vw ∧ PSBT.combine x vw = Except.ok v ∧
        PSBT.equiv u v) := by
  refine ⟨?_, ?_, ?_⟩
  · intro hw hh
    rcases hh2 : x.tx_obj.hash with _ | h
    · rw [hh2] at hh
      cases hh
    · rw [psbt_combine_ok x x h hh2 hh2]
      obtain ⟨h1, h2, h3, h4⟩ := hw
      rw [dict_merge_self h1, dict_merge_self h2, zip_combine_ins_idem _ h3,
        zip_combine_outs_idem _ h4]
  · intro hwx hwy hc hh
    rcases hh2 : x.tx_obj.hash with _ | h
    · rw [hh2] at hh
      cases hh
    · have hy : y.tx_obj.hash = some h := by rw [← hc.1]; exact hh2
      refine ⟨_, _, psbt_combine_ok x y h hh2 hy, psbt_combine_ok y x h hy hh2, ?_⟩
      obtain ⟨htx, hdh, hde, hci, hco⟩ := hc
      exact ⟨htx,
        zip_combine_ins_comm _ _ hwx.2.2.1 hwy.2.2.1 hci,
        zip_combine_outs_comm _ _ hwx.2.2.2 hwy.2.2.2 hco,
        dict_merge_comm_equiv hwy.1 hwx.1 (dict_disjoint_symm hdh),
        dict_merge_comm_equiv hwy.2.1 hwx.2.1 (dict_disjoint_symm hde)⟩
  · intro hwx hwy hwz hcxy hcyz hh
    rcases hh2 : x.tx_obj.hash with _ | h
    · rw [hh2] at hh
      cases hh
    · have hy : y.tx_obj.hash = some h := by rw [← hcxy.1]; exact hh2
      have hz : z.tx_obj.hash = some h := by rw [← hcyz.1]; exact hy
      have h1 := psbt_combine_ok x y h hh2 hy
      have h2 := psbt_combine_ok y z h hy hz
      refine ⟨_, _, _, _, h1, psbt_combine_ok _ z h hh2 hz, h2,
        psbt_combine_ok x _ h hh2 hy, ?_⟩
      obtain ⟨htxy, hdhxy, hdexy, hcixy, hcoxy⟩ := hcxy
      obtain ⟨htyz, hdhyz, hdeyz, hciyz, hcoyz⟩ := hcyz
      exact ⟨rfl,
        zip_combine_ins_assoc _ _ _ hwx.2.2.1 hwy.2.2.1 hwz.2.2.1 hcixy hciyz,
        zip_combine_outs_assoc _ _ _ hwx.2.2.2 hwy.2.2.2 hcoxy hcoyz,
        dict_equiv_symm (dict_merge_assoc_equiv z.hd_pubs hwy.1 hwx.1),
        dict_equiv_symm (dict_merge_assoc_equiv z.extra_map hwy.2.1 hwx.2.1)⟩


/-- The shared transaction input of the C6 witness PSBTs. -/
def c6_tin : TxIn :=
  ⟨List.replicate 32 0x99, 0, ⟨[]⟩, 0xffffffff, ⟨[]⟩, none, none⟩

/-- The shared underlying transaction. -/
def c6_tx : Tx := ⟨1, [c6_tin], [], 0⟩

/-- First contribution: a signature under key `[1]` and extra entry
`0xfa`. -/
def c6_x : PSBT :=
  ⟨c6_tx, [⟨c6_tin, none, none, [([1], [10])], none, none, none, [], none, none, []⟩],
   [], [], [([0xfa], [1])]⟩

/-- Second contribution: a signature under key `[2]` and extra entry
`0xfb`. -/
def c6_y : PSBT :=
  ⟨c6_tx, [⟨c6_tin, none, none, [([2], [20])], none, none, none, [], none, none, []⟩],
   [], [], [([0xfb], [2])]⟩

/-- Third contribution: a signature under key `[3]` and extra entry
`0xfc`. -/
def c6_z : PSBT :=
  ⟨c6_tx, [⟨c6_tin, none, none, [([3], [30])], none, none, none, [], none, none, []⟩],
   [], [], [([0xfc], [3])]⟩

set_option maxRecDepth 10000 in
/-- C6 witness: idempotence, commutativity and associativity at three
concrete disjoint single-signature contributions. -/
theorem C6_witness :
    PSBT.combine c6_x c6_x = Except.ok c6_x ∧
    (∃ v w, PSBT.combine c6_x c6_y = Except.ok v ∧
      PSBT.combine c6_y c6_x = Except.ok w ∧ PSBT.equiv v w) ∧
    (∃ u uv v vw, PSBT.combine c6_x c6_y = Except.ok uv ∧
      PSBT.combine uv c6_z = Except.ok u ∧
      PSBT.combine c6_y c6_z = Except.ok vw ∧
      PSBT.combine c6_x vw = Except.ok v ∧ PSBT.equiv u v) := by
  refine ⟨?_, ?_, ?_⟩
  · exact (C6_combine_algebra c6_x c6_x c6_x).1 (by decide) (by decide)
  · exact (C6_combine_algebra c6_x c6_y c6_x).2.1 (by decide) (by decide)
      (by decide) (by decide)
  · exact (C6_combine_algebra c6_x c6_y c6_z).2.2 (by decide) (by decide)
      (by decide) (by decide) (by decide) (by decide)



theorem int_to_little_endian_length (n w : Nat) :
    (int_to_little_endian n w).length = w := by
  induction w generalizing n with
  | zero => rfl
  | succ w ih => simp [int_to_little_endian, ih]

theorem little_endian_round (w : Nat) : ∀ n, n < 256 ^ w →
    little_endian_to_int (int_to_little_endian n w) = n := by
  induction w with
  | zero =>
    intro n h
    interval_cases n
    rfl
  | succ w ih =>
    intro n h
    have hdiv : n / 256 < 256 ^ w := by
      rw [Nat.div_lt_iff_lt_mul (by norm_num)]
      calc n < 256 ^ (w + 1) := h
      _ = 256 ^ w * 256 := by ring
    simp only [int_to_little_endian, little_endian_to_int, List.foldr_cons]
    show (little_endian_to_int (int_to_little_endian (n / 256) w)) * 256 + n % 256 = n
    rw [ih (n / 256) hdiv]
    omega

theorem read_varint_small {b : Nat} (h1 : b < 0xfd) (s : Bytes) :
    read_varint (b :: s) = some (b, s) := by
  unfold read_varint
  dsimp only
  rw [if_neg (by omega), if_neg (by omega), if_neg (by omega)]

theorem read_varint_fd (s : Bytes) :
    read_varint (0xfd :: s) =
      some (little_endian_to_int (s.take 2), s.drop 2) := rfl

theorem read_varint_fe (s : Bytes) :
    read_varint (0xfe :: s) =
      some (little_endian_to_int (s.take 4), s.drop 4) := rfl

theorem read_varint_ff (s : Bytes) :
    read_varint (0xff :: s) =
      some (little_endian_to_int (s.take 8), s.drop 8) := rfl

theorem read_varint_round {n : Nat} {e : Bytes} (h : encode_varint n = some e)
    (rest : Bytes) : read_varint (e ++ rest) = some (n, rest) := by
  unfold encode_varint at h
  by_cases h1 : n < 0xfd
  · rw [if_pos h1] at h
    cases h
    simp only [List.cons_append, List.nil_append]
    exact read_varint_small h1 rest
  · rw [if_neg h1] at h
    by_cases h2 : n ≤ 0xffff
    · rw [if_pos h2] at h
      cases h
      simp only [List.cons_append]
      rw [read_varint_fd]
      rw [List.take_append_of_le_length (by rw [int_to_little_endian_length]),
        List.drop_append_of_le_length (by rw [int_to_little_endian_length])]
      rw [List.take_of_length_le (by rw [int_to_little_endian_length]),
        List.drop_of_length_le (by rw [int_to_little_endian_length])]
      rw [little_endian_round 2 n (by omega)]
      simp
    · rw [if_neg h2] at h
      by_cases h3 : n ≤ 0xffffffff
      · rw [if_pos h3] at h
        cases h
        simp only [List.cons_append]
        rw [read_varint_fe]
        rw [List.take_append_of_le_length (by rw [int_to_little_endian_length]),
          List.drop_append_of_le_length (by rw [int_to_little_endian_length])]
        rw [List.take_of_length_le (by rw [int_to_little_endian_length]),
          List.drop_of_length_le (by rw [int_to_little_endian_length])]
        rw [little_endian_round 4 n (by omega)]
        simp
      · rw [if_neg h3] at h
        by_cases h4 : n ≤ 0xffffffffffffffff
        · rw [if_pos h4] at h
          cases h
          simp only [List.cons_append]
          rw [read_varint_ff]
          rw [List.take_append_of_le_length (by rw [int_to_little_endian_length]),
            List.drop_append_of_le_length (by rw [int_to_little_endian_length])]
          rw [List.take_of_length_le (by rw [int_to_little_endian_length]),
            List.drop_of_length_le (by rw [int_to_little_endian_length])]
          rw [little_endian_round 8 n (by omega)]
          simp
        · rw [if_neg h4] at h
          cases h

theorem read_varstr_round {bs e : Bytes} (h : encode_varstr bs = some e)
    (rest : Bytes) : read_varstr (e ++ rest) = some (bs, rest) := by
  unfold encode_varstr at h
  rcases hv : encode_varint bs.length with _ | ev
  · rw [hv] at h
    cases h
  · rw [hv] at h
    have he : e = ev ++ bs := by
      simp at h
      exact h.symm
    subst he
    unfold read_varstr
    rw [List.append_assoc, read_varint_round hv (bs ++ rest)]
    show some ((bs ++ rest).take bs.length, (bs ++ rest).drop bs.length) = _
    rw [List.take_append_of_le_length (le_refl _),
      List.drop_append_of_le_length (le_refl _)]
    simp

theorem serialize_key_value_eq {k v e : Bytes} (h : serialize_key_value k v = some e) :
    ∃ ek ev, encode_varstr k = some ek ∧ encode_varstr v = some ev ∧ e = ek ++ ev := by
  unfold serialize_key_value at h
  rcases hk : encode_varstr k with _ | ek
  · rw [hk] at h
    cases h
  · rw [hk] at h
    rcases hv : encode_varstr v with _ | ev
    · rw [hv] at h
      cases h
    · rw [hv] at h
      cases h
      exact ⟨ek, ev, rfl, rfl, rfl⟩

def canonical_cmd : Cmd → Prop
  | Cmd.op n => n = 0 ∨ (78 ≤ n ∧ n ≤ 255)
  | Cmd.push bs => (1 ≤ bs.length ∧ bs.length ≤ 74) ∨
      (76 ≤ bs.length ∧ bs.length ≤ 520)

instance (c : Cmd) : Decidable (canonical_cmd c) := by
  cases c <;> (unfold canonical_cmd; infer_instance)

def parts_concat {α : Type} (f : α → Option Bytes) : List α → Option Bytes
  | [] => some []
  | x :: xs => do
    let e ← f x
    let r ← parts_concat f xs
    pure (e ++ r)

theorem foldlM_append_eq {α : Type} (f : α → Option Bytes) :
    ∀ (xs : List α) (acc : Bytes),
    xs.foldlM (fun a x => (f x).map (a ++ ·)) acc =
      (parts_concat f xs).map (acc ++ ·) := by
  intro xs
  induction xs with
  | nil =>
    intro acc
    simp [parts_concat]
  | cons x xs ih =>
    intro acc
    simp only [List.foldlM_cons, parts_concat]
    rcases hf : f x with _ | e
    · rfl
    · show (xs.foldlM _ (acc ++ e)) = _
      rw [ih (acc ++ e)]
      rcases hr : parts_concat f xs with _ | r
      · rfl
      · show _ = some (acc ++ (e ++ r))
        simp [List.append_assoc]

theorem raw_serialize_eq (sc : Script) :
    Script.raw_serialize sc = parts_concat Script.serialize_cmd sc.commands := by
  unfold Script.raw_serialize
  rw [foldlM_append_eq Script.serialize_cmd sc.commands []]
  rcases parts_concat Script.serialize_cmd sc.commands with _ | r <;> simp

theorem int_to_byte_eq {n : Nat} (h : n < 256) : int_to_byte n = some [n] := by
  unfold int_to_byte
  rw [if_pos h]

theorem byte_to_int_single (x : Nat) : byte_to_int [x] = x := by
  simp [byte_to_int, little_endian_to_int]

theorem serialize_cmd_op_eq {n : Nat} {e : Bytes}
    (he : Script.serialize_cmd (Cmd.op n) = some e) : n < 256 ∧ e = [n] := by
  unfold Script.serialize_cmd int_to_byte at he
  dsimp only at he
  by_cases hn : n < 256
  · rw [if_pos hn] at he
    cases he
    exact ⟨hn, rfl⟩
  · rw [if_neg hn] at he
    cases he

theorem serialize_cmd_push_eq {bs e : Bytes}
    (he : Script.serialize_cmd (Cmd.push bs) = some e) :
    (bs.length < 75 ∧ e = bs.length :: bs) ∨
    (75 < bs.length ∧ bs.length < 256 ∧ e = 76 :: bs.length :: bs) ∨
    (256 ≤ bs.length ∧ bs.length ≤ 520 ∧
      e = 77 :: (int_to_little_endian bs.length 2 ++ bs)) := by
  unfold Script.serialize_cmd at he
  dsimp only at he
  by_cases h1 : bs.length < 75
  · rw [if_pos h1] at he
    rw [int_to_byte_eq (by omega)] at he
    have he2 : some (List.length bs :: bs) = some e := he
    cases he2
    left
    exact ⟨h1, rfl⟩
  · rw [if_neg h1] at he
    by_cases h2 : bs.length > 75 ∧ bs.length < 0x100
    · rw [if_pos h2] at he
      rw [int_to_byte_eq (by omega), int_to_byte_eq (by omega)] at he
      have he2 : some (76 :: List.length bs :: bs) = some e := he
      cases he2
      right
      left
      exact ⟨h2.1, h2.2, rfl⟩
    · rw [if_neg h2] at he
      by_cases h3 : bs.length ≥ 0x100 ∧ bs.length ≤ 520
      · rw [if_pos h3] at he
        rw [int_to_byte_eq (by omega)] at he
        have he2 : some (77 :: (int_to_little_endian (List.length bs) 2 ++ bs)) =
            some e := he
        cases he2
        right
        right
        exact ⟨h3.1, h3.2, rfl⟩
      · rw [if_neg h3] at he
        cases he

theorem serialize_cmd_length_pos {c : Cmd} {e : Bytes}
    (he : Script.serialize_cmd c = some e) : 0 < e.length := by
  cases c with
  | op n =>
    obtain ⟨-, he⟩ := serialize_cmd_op_eq he
    subst he
    simp
  | push bs =>
    rcases serialize_cmd_push_eq he with ⟨-, he⟩ | ⟨-, -, he⟩ | ⟨-, -, he⟩ <;>
      subst he <;> simp

theorem take_one_cons {α : Type} (x : α) (l : List α) : (x :: l).take 1 = [x] := rfl

theorem drop_one_cons {α : Type} (x : α) (l : List α) : (x :: l).drop 1 = l := rfl

theorem take_two_cons {α : Type} (x y : α) (l : List α) :
    (x :: y :: l).take 2 = [x, y] := rfl

theorem drop_two_cons {α : Type} (x y : α) (l : List α) :
    (x :: y :: l).drop 2 = l := rfl

theorem parse_loop_step {c : Cmd} {e : Bytes} (hc : canonical_cmd c)
    (he : Script.serialize_cmd c = some e) (fuel : Nat) (s : Bytes) (count length : Nat)
    (acc : List Cmd) (hlt : count < length) :
    Script.parse_loop (fuel + 1) (e ++ s) count length acc =
      Script.parse_loop fuel s (count + e.length) length (acc ++ [c]) := by
  cases c with
  | op n =>
    obtain ⟨hn, he2⟩ := serialize_cmd_op_eq he
    subst he2
    unfold canonical_cmd at hc
    simp only [Script.parse_loop, List.cons_append, List.nil_append]
    rw [if_pos hlt]
    rw [if_neg (by omega), if_neg (by omega), if_neg (by omega)]
    simp
  | push bs =>
    unfold canonical_cmd at hc
    rcases serialize_cmd_push_eq he with ⟨h1, he2⟩ | ⟨h1, h2, he2⟩ | ⟨h1, h2, he2⟩
    · subst he2
      simp only [Script.parse_loop, List.cons_append]
      rw [if_pos hlt]
      rw [if_pos (by constructor <;> omega)]
      rw [List.drop_left, List.take_left]
      rw [show count + 1 + bs.length = count + (bs.length :: bs).length from by
        simp
        omega]
    · subst he2
      simp only [Script.parse_loop, List.cons_append]
      rw [if_pos hlt]
      simp only [ite_true, ite_false]
      rw [if_neg (show ¬(76 ≥ 1 ∧ 76 ≤ 75) from by omega)]
      rw [take_one_cons, drop_one_cons, byte_to_int_single]
      rw [List.drop_left, List.take_left]
      rw [show count + 1 + bs.length + 1 = count + (76 :: bs.length :: bs).length from by
        simp
        omega]
    · subst he2
      obtain ⟨le2, hle2e⟩ : ∃ l, int_to_little_endian (List.length bs) 2 = l :=
        ⟨_, rfl⟩
      have hle2 : le2.length = 2 := by
        rw [← hle2e]
        exact int_to_little_endian_length (List.length bs) 2
      have hbt : byte_to_int le2 = List.length bs := by
        rw [← hle2e]
        exact little_endian_round 2 (List.length bs) (by omega)
      rcases le2 with _ | ⟨b0, _ | ⟨b1, _ | ⟨b2, l⟩⟩⟩ <;> simp at hle2
      rw [hle2e]
      simp only [Script.parse_loop, List.cons_append, List.nil_append,
        List.append_assoc]
      rw [if_pos hlt]
      simp only [ite_true, ite_false]
      rw [if_neg (show ¬(77 ≥ 1 ∧ 77 ≤ 75) from by omega),
        if_neg (show ¬(77 = 76) from by omega)]
      rw [take_two_cons, drop_two_cons, hbt]
      rw [List.drop_left, List.take_left]
      have harith : count + 1 + List.length bs + 2 =
          count + (77 :: (b0 :: b1 :: bs)).length := by
        simp
        omega
      rw [harith]

theorem parts_concat_length {cmds : List Cmd} :
    ∀ {raw : Bytes}, parts_concat Script.serialize_cmd cmds = some raw →
    cmds.length ≤ raw.length := by
  induction cmds with
  | nil =>
    intro raw h
    cases h
    simp
  | cons c cs ih =>
    intro raw h
    simp only [parts_concat] at h
    rcases he : Script.serialize_cmd c with _ | e
    · rw [he] at h
      cases h
    · rw [he] at h
      rcases hr : parts_concat Script.serialize_cmd cs with _ | r
      · rw [hr] at h
        cases h
      · rw [hr] at h
        cases h
        have h1 := serialize_cmd_length_pos he
        have h2 := ih hr
        simp
        omega

theorem parse_loop_round (cmds : List Cmd) :
    ∀ (raw : Bytes) (fuel count : Nat) (acc : List Cmd) (s : Bytes),
    (∀ c ∈ cmds, canonical_cmd c) →
    parts_concat Script.serialize_cmd cmds = some raw →
    cmds.length < fuel →
    Script.parse_loop fuel (raw ++ s) count (count + raw.length) acc =
      some (acc ++ cmds, s) := by
  induction cmds with
  | nil =>
    intro raw fuel count acc s _ hr hf
    cases hr
    cases fuel with
    | zero => omega
    | succ fuel =>
      simp [Script.parse_loop]
  | cons c cs ih =>
    intro raw fuel count acc s hcan hr hf
    simp only [parts_concat] at hr
    rcases he : Script.serialize_cmd c with _ | e
    · rw [he] at hr
      cases hr
    · rw [he] at hr
      rcases hrest : parts_concat Script.serialize_cmd cs with _ | r
      · rw [hrest] at hr
        cases hr
      · rw [hrest] at hr
        cases hr
        cases fuel with
        | zero => omega
        | succ fuel =>
          have hepos := serialize_cmd_length_pos he
          rw [List.append_assoc]
          rw [show count + (e ++ r).length = count + e.length + r.length from by
            simp
            omega]
          rw [parse_loop_step (hcan c (by simp)) he fuel (r ++ s) count
            (count + e.length + r.length) acc (by omega)]
          rw [ih r fuel (count + e.length) (acc ++ [c]) s
            (fun d hd => hcan d (List.mem_cons_of_mem _ hd)) hrest (by simpa using hf)]
          simp

theorem script_parse_round {sc : Script} {e : Bytes}
    (hc : ∀ c ∈ sc.commands, canonical_cmd c)
    (he : Script.serialize sc = some e) (s : Bytes) :
    Script.parse (e ++ s) = some (sc, s) := by
  unfold Script.serialize at he
  rcases hraw : Script.raw_serialize sc with _ | raw
  · rw [hraw] at he
    cases he
  · rw [hraw] at he
    have hpc : parts_concat Script.serialize_cmd sc.commands = some raw := by
      rw [← raw_serialize_eq]
      exact hraw
    have he2 : Option.map (fun x => x ++ raw) (encode_varint raw.length) =
        some e := he
    rcases hv : encode_varint raw.length with _ | ev
    · rw [hv] at he2
      cases he2
    · rw [hv] at he2
      have he3 : some (ev ++ raw) = some e := he2
      cases he3
      have hloop := parse_loop_round sc.commands raw (raw.length + 1) 0 [] s hc
        hpc (by have := parts_concat_length hpc; omega)
      rw [Nat.zero_add] at hloop
      simp only [List.nil_append] at hloop
      unfold Script.parse
      rw [List.append_assoc]
      rw [read_varint_round hv (raw ++ s)]
      show Option.bind (Script.parse_loop (raw.length + 1) (raw ++ s) 0
        raw.length []) (fun p => some (⟨p.1⟩, p.2)) = some (sc, s)
      rw [hloop]
      rfl

theorem opt_some_bind {α β : Type} (a : α) (f : α → Option β) :
    (Option.some a) >>= f = f a := rfl

def wf_script (sc : Script) : Prop := ∀ c ∈ sc.commands, canonical_cmd c

instance (sc : Script) : Decidable (wf_script sc) := by
  unfold wf_script
  infer_instance

def TxIn.wf (i : TxIn) : Prop :=
  i.prev_tx.length = 32 ∧ i.prev_index < 256 ^ 4 ∧ i.sequence < 256 ^ 4 ∧
    i.witness = ⟨[]⟩ ∧ i.value_cache = none ∧ i.script_pubkey_cache = none ∧
    wf_script i.script_sig

instance (i : TxIn) : Decidable i.wf := by
  unfold TxIn.wf
  infer_instance

def TxOut.wf (o : TxOut) : Prop :=
  o.amount < 256 ^ 8 ∧ wf_script o.script_pubkey

instance (o : TxOut) : Decidable o.wf := by
  unfold TxOut.wf
  infer_instance

def Tx.wf (t : Tx) : Prop :=
  t.version < 256 ^ 4 ∧ t.locktime < 256 ^ 4 ∧
    (∀ i ∈ t.tx_ins, TxIn.wf i) ∧ (∀ o ∈ t.tx_outs, TxOut.wf o)

instance (t : Tx) : Decidable t.wf := by
  unfold Tx.wf
  infer_instance

theorem txout_parse_round {o : TxOut} {e : Bytes} (hwf : TxOut.wf o)
    (he : TxOut.serialize o = some e) (s : Bytes) :
    TxOut.parse (e ++ s) = some (o, s) := by
  obtain ⟨amt, spk⟩ := o
  obtain ⟨hamt, hc⟩ := hwf
  dsimp only [TxOut.wf] at hamt hc
  unfold TxOut.serialize at he
  dsimp only at he
  rcases hss : Script.serialize spk with _ | ss
  · rw [hss] at he
    cases he
  · rw [hss] at he
    have he2 : some (int_to_little_endian amt 8 ++ ss) = some e := he
    cases he2
    have hlen := int_to_little_endian_length amt 8
    have h8 : ((int_to_little_endian amt 8 ++ ss) ++ s).take 8 =
        int_to_little_endian amt 8 := by
      rw [List.append_assoc, List.take_append_of_le_length (by omega)]
      exact List.take_of_length_le (by omega)
    have hd8 : ((int_to_little_endian amt 8 ++ ss) ++ s).drop 8 = ss ++ s := by
      rw [List.append_assoc, List.drop_append_of_le_length (by omega)]
      rw [List.drop_of_length_le (by omega), List.nil_append]
    unfold TxOut.parse
    rw [h8, hd8, script_parse_round hc hss s,
      little_endian_round 8 amt (by exact_mod_cast hamt)]
    rfl

theorem txin_parse_round {i : TxIn} {e : Bytes} (hwf : TxIn.wf i)
    (he : TxIn.serialize i = some e) (s : Bytes) :
    TxIn.parse (e ++ s) = some (i, s) := by
  obtain ⟨ptx, pidx, ssig, seq, wit, vc, spc⟩ := i
  obtain ⟨hpt, hpi, hsq, hw, hv, hs, hc⟩ := hwf
  dsimp only [TxIn.wf] at hpt hpi hsq hw hv hs hc
  subst hw
  subst hv
  subst hs
  unfold TxIn.serialize at he
  dsimp only at he
  rcases hss : Script.serialize ssig with _ | ss
  · rw [hss] at he
    cases he
  · rw [hss] at he
    have he2 : some (ptx ++ int_to_little_endian pidx 4 ++ ss ++
        int_to_little_endian seq 4) = some e := he
    cases he2
    have hli := int_to_little_endian_length pidx 4
    have hls := int_to_little_endian_length seq 4
    have h32 : ((ptx ++ int_to_little_endian pidx 4 ++ ss ++
        int_to_little_endian seq 4) ++ s).take 32 = ptx := by
      simp only [List.append_assoc]
      rw [List.take_append_of_le_length (by omega)]
      exact List.take_of_length_le (by omega)
    have hd32 : ((ptx ++ int_to_little_endian pidx 4 ++ ss ++
        int_to_little_endian seq 4) ++ s).drop 32 =
        int_to_little_endian pidx 4 ++ (ss ++ (int_to_little_endian seq 4 ++ s)) := by
      simp only [List.append_assoc]
      rw [List.drop_append_of_le_length (by omega)]
      rw [List.drop_of_length_le (by omega), List.nil_append]
    have h4 : (int_to_little_endian pidx 4 ++ (ss ++
        (int_to_little_endian seq 4 ++ s))).take 4 =
        int_to_little_endian pidx 4 := by
      rw [List.take_append_of_le_length (by omega)]
      exact List.take_of_length_le (by omega)
    have hd36 : ((ptx ++ int_to_little_endian pidx 4 ++ ss ++
        int_to_little_endian seq 4) ++ s).drop 36 =
        ss ++ (int_to_little_endian seq 4 ++ s) := by
      rw [show (36 : Nat) = 32 + 4 from rfl, ← List.drop_drop, hd32]
      rw [List.drop_append_of_le_length (by omega)]
      rw [List.drop_of_length_le (by omega), List.nil_append]
    unfold TxIn.parse
    rw [h32, hd32, h4, hd36]
    rw [script_parse_round hc hss (int_to_little_endian seq 4 ++ s)]
    show some ((⟨ptx, little_endian_to_int (int_to_little_endian pidx 4), ssig,
      little_endian_to_int ((int_to_little_endian seq 4 ++ s).take 4),
      ⟨[]⟩, none, none⟩ : TxIn), (int_to_little_endian seq 4 ++ s).drop 4) =
      some ((⟨ptx, pidx, ssig, seq, ⟨[]⟩, none, none⟩ : TxIn), s)
    have h4s : (int_to_little_endian seq 4 ++ s).take 4 =
        int_to_little_endian seq 4 := by
      rw [List.take_append_of_le_length (by omega)]
      exact List.take_of_length_le (by omega)
    have h4d : (int_to_little_endian seq 4 ++ s).drop 4 = s := by
      rw [List.drop_append_of_le_length (by omega)]
      rw [List.drop_of_length_le (by omega), List.nil_append]
    rw [h4s, h4d, little_endian_round 4 pidx (by exact_mod_cast hpi),
      little_endian_round 4 seq (by exact_mod_cast hsq)]

theorem parse_ins_round (ins : List TxIn) :
    ∀ (raw s : Bytes), (∀ i ∈ ins, TxIn.wf i) →
    parts_concat TxIn.serialize ins = some raw →
    Tx.parse_ins ins.length (raw ++ s) = some (ins, s) := by
  induction ins with
  | nil =>
    intro raw s _ hr
    cases hr
    rfl
  | cons i is ih =>
    intro raw s hwf hr
    simp only [parts_concat] at hr
    rcases he : TxIn.serialize i with _ | e
    · rw [he] at hr
      cases hr
    · rw [he] at hr
      rcases hrest : parts_concat TxIn.serialize is with _ | r
      · rw [hrest] at hr
        cases hr
      · rw [hrest] at hr
        cases hr
        rw [List.append_assoc]
        show Option.bind (TxIn.parse (e ++ (r ++ s))) (fun p =>
          Option.bind (Tx.parse_ins is.length p.2) (fun q =>
            some (p.1 :: q.1, q.2))) = some (i :: is, s)
        rw [txin_parse_round (hwf i (by simp)) he (r ++ s)]
        show Option.bind (Tx.parse_ins is.length (r ++ s)) (fun q =>
          some (i :: q.1, q.2)) = some (i :: is, s)
        rw [ih r s (fun j hj => hwf j (List.mem_cons_of_mem _ hj)) hrest]
        rfl

theorem parse_outs_round (outs : List TxOut) :
    ∀ (raw s : Bytes), (∀ o ∈ outs, TxOut.wf o) →
    parts_concat TxOut.serialize outs = some raw →
    Tx.parse_outs outs.length (raw ++ s) = some (outs, s) := by
  induction outs with
  | nil =>
    intro raw s _ hr
    cases hr
    rfl
  | cons o os ih =>
    intro raw s hwf hr
    simp only [parts_concat] at hr
    rcases he : TxOut.serialize o with _ | e
    · rw [he] at hr
      cases hr
    · rw [he] at hr
      rcases hrest : parts_concat TxOut.serialize os with _ | r
      · rw [hrest] at hr
        cases hr
      · rw [hrest] at hr
        cases hr
        rw [List.append_assoc]
        show Option.bind (TxOut.parse (e ++ (r ++ s))) (fun p =>
          Option.bind (Tx.parse_outs os.length p.2) (fun q =>
            some (p.1 :: q.1, q.2))) = some (o :: os, s)
        rw [txout_parse_round (hwf o (by simp)) he (r ++ s)]
        show Option.bind (Tx.parse_outs os.length (r ++ s)) (fun q =>
          some (o :: q.1, q.2)) = some (o :: os, s)
        rw [ih r s (fun j hj => hwf j (List.mem_cons_of_mem _ hj)) hrest]
        rfl

theorem tx_parse_round {t : Tx} {e : Bytes} (hwf : Tx.wf t)
    (he : Tx.serialize t = some e) (s : Bytes) :
    Tx.parse (e ++ s) = some (t, s) := by
  obtain ⟨ver, ins, outs, lock⟩ := t
  obtain ⟨hver, hlock, hins, houts⟩ := hwf
  dsimp only [Tx.wf] at hver hlock hins houts
  unfold Tx.serialize at he
  dsimp only at he
  rcases hnin : encode_varint ins.length with _ | nin
  · rw [hnin] at he
    cases he
  · rw [hnin] at he
    simp only [opt_some_bind] at he
    rw [foldlM_append_eq TxIn.serialize ins nin] at he
    rcases hri : parts_concat TxIn.serialize ins with _ | rawins
    · rw [hri] at he
      cases he
    · rw [hri] at he
      rw [show Option.map (fun x => nin ++ x) (some rawins) =
        some (nin ++ rawins) from rfl] at he
      simp only [opt_some_bind] at he
      rcases hnout : encode_varint outs.length with _ | nout
      · rw [hnout] at he
        cases he
      · rw [hnout] at he
        simp only [opt_some_bind] at he
        rw [foldlM_append_eq TxOut.serialize outs nout] at he
        rcases hro : parts_concat TxOut.serialize outs with _ | rawouts
        · rw [hro] at he
          cases he
        · rw [hro] at he
          rw [show Option.map (fun x => nout ++ x) (some rawouts) =
            some (nout ++ rawouts) from rfl] at he
          simp only [opt_some_bind] at he
          have he2 : some (int_to_little_endian ver 4 ++ (nin ++ rawins) ++
              (nout ++ rawouts) ++ int_to_little_endian lock 4) = some e := he
          cases he2
          have hlv := int_to_little_endian_length ver 4
          have hll := int_to_little_endian_length lock 4
          have hv4 : ((int_to_little_endian ver 4 ++ (nin ++ rawins) ++
              (nout ++ rawouts) ++ int_to_little_endian lock 4) ++ s).take 4 =
              int_to_little_endian ver 4 := by
            simp only [List.append_assoc]
            rw [List.take_append_of_le_length (by omega)]
            exact List.take_of_length_le (by omega)
          have hd4 : ((int_to_little_endian ver 4 ++ (nin ++ rawins) ++
              (nout ++ rawouts) ++ int_to_little_endian lock 4) ++ s).drop 4 =
              nin ++ (rawins ++ (nout ++ (rawouts ++
                (int_to_little_endian lock 4 ++ s)))) := by
            simp only [List.append_assoc]
            rw [List.drop_append_of_le_length (by omega)]
            rw [List.drop_of_length_le (by omega), List.nil_append]
          have hl4 : (int_to_little_endian lock 4 ++ s).take 4 =
              int_to_little_endian lock 4 := by
            rw [List.take_append_of_le_length (by omega)]
            exact List.take_of_length_le (by omega)
          have hl4d : (int_to_little_endian lock 4 ++ s).drop 4 = s := by
            rw [List.drop_append_of_le_length (by omega)]
            rw [List.drop_of_length_le (by omega), List.nil_append]
          unfold Tx.parse
          rw [hv4, hd4, read_varint_round hnin
            (rawins ++ (nout ++ (rawouts ++ (int_to_little_endian lock 4 ++ s))))]
          show Option.bind (Tx.parse_ins ins.length (rawins ++ (nout ++
            (rawouts ++ (int_to_little_endian lock 4 ++ s))))) (fun p =>
            Option.bind (read_varint p.2) (fun q =>
            Option.bind (Tx.parse_outs q.1 q.2) (fun w =>
            some ((⟨little_endian_to_int (int_to_little_endian ver 4), p.1, w.1,
              little_endian_to_int (w.2.take 4)⟩ : Tx), w.2.drop 4)))) =
            some ((⟨ver, ins, outs, lock⟩ : Tx), s)
          rw [parse_ins_round ins rawins (nout ++ (rawouts ++
            (int_to_little_endian lock 4 ++ s))) hins hri]
          show Option.bind (read_varint (nout ++ (rawouts ++
            (int_to_little_endian lock 4 ++ s)))) (fun q =>
            Option.bind (Tx.parse_outs q.1 q.2) (fun w =>
            some ((⟨little_endian_to_int (int_to_little_endian ver 4), ins, w.1,
              little_endian_to_int (w.2.take 4)⟩ : Tx), w.2.drop 4))) =
            some ((⟨ver, ins, outs, lock⟩ : Tx), s)
          rw [read_varint_round hnout
            (rawouts ++ (int_to_little_endian lock 4 ++ s))]
          show Option.bind (Tx.parse_outs outs.length (rawouts ++
            (int_to_little_endian lock 4 ++ s))) (fun w =>
            some ((⟨little_endian_to_int (int_to_little_endian ver 4), ins, w.1,
              little_endian_to_int (w.2.take 4)⟩ : Tx), w.2.drop 4)) =
            some ((⟨ver, ins, outs, lock⟩ : Tx), s)
          rw [parse_outs_round outs rawouts
            (int_to_little_endian lock 4 ++ s) houts hro]
          show some ((⟨little_endian_to_int (int_to_little_endian ver 4), ins,
            outs, little_endian_to_int ((int_to_little_endian lock 4 ++ s).take 4)⟩ : Tx),
            (int_to_little_endian lock 4 ++ s).drop 4) =
            some ((⟨ver, ins, outs, lock⟩ : Tx), s)
          rw [hl4, hl4d, little_endian_round 4 ver (by exact_mod_cast hver),
            little_endian_round 4 lock (by exact_mod_cast hlock)]

theorem dict_insert_fresh {β : Type} {d : AList β} {k : Bytes} {v : β}
    (h : k ∉ d.map Prod.fst) : dict_insert d k v = d ++ [(k, v)] := by
  unfold dict_insert
  rw [if_neg]
  intro hany
  rw [List.any_eq_true] at hany
  obtain ⟨p, hp, hpk⟩ := hany
  simp only [decide_eq_true_eq] at hpk
  exact h (hpk ▸ List.mem_map_of_mem Prod.fst hp)

theorem parts_concat_congr {α : Type} {f g : α → Option Bytes} {xs : List α}
    (h : ∀ x ∈ xs, f x = g x) : parts_concat f xs = parts_concat g xs := by
  induction xs with
  | nil => rfl
  | cons x xs ih =>
    simp only [parts_concat]
    rw [h x (by simp), ih (fun y hy => h y (List.mem_cons_of_mem _ hy))]

theorem foldlM_append_eq2 {α : Type} (g : α → Option Bytes) (xs : List α)
    (f : Bytes → α → Option Bytes) (hf : ∀ a x, f a x = (g x).map (a ++ ·)) :
    ∀ acc, xs.foldlM f acc = (parts_concat g xs).map (acc ++ ·) := by
  induction xs with
  | nil =>
    intro acc
    simp [parts_concat]
  | cons x xs ih =>
    intro acc
    show Option.bind (f acc x) (fun a => xs.foldlM f a) = _
    rw [hf acc x]
    simp only [parts_concat]
    rcases g x with _ | e
    · rfl
    · rw [show Option.map (fun y => acc ++ y) (some e) = some (acc ++ e) from rfl]
      rw [show ((some (acc ++ e)).bind fun a => List.foldlM f a xs) =
        List.foldlM f (acc ++ e) xs from rfl, ih (acc ++ e)]
      rcases parts_concat g xs with _ | r <;> simp [List.append_assoc]

theorem parts_concat_keys {β : Type} (f : Bytes → β → Option Bytes) :
    ∀ (d : AList β), alist_wf d →
    parts_concat (fun k => (dict_get d k).bind (f k)) (dict_keys d) =
      parts_concat (fun q => f q.1 q.2) d := by
  intro d
  induction d with
  | nil =>
    intro _
    rfl
  | cons q d ih =>
    intro hwf
    have hq : q.1 ∉ d.map Prod.fst := by
      unfold alist_wf at hwf
      simp only [List.map_cons, List.nodup_cons] at hwf
      exact hwf.1
    have hwf' : alist_wf d := by
      unfold alist_wf at hwf ⊢
      simp only [List.map_cons, List.nodup_cons] at hwf
      exact hwf.2
    show parts_concat _ (q.1 :: dict_keys d) = _
    simp only [parts_concat]
    rw [show dict_get (q :: d) q.1 = some q.2 from by rw [dict_get_cons]; simp]
    rw [show ((some q.2).bind (f q.1)) = f q.1 q.2 from rfl]
    rw [parts_concat_congr (f := fun k => (dict_get (q :: d) k).bind (f k))
      (g := fun k => (dict_get d k).bind (f k)) ?hcong]
    · rw [ih hwf']
    case hcong =>
      intro k hk
      show (dict_get (q :: d) k).bind (f k) = (dict_get d k).bind (f k)
      rw [dict_get_cons, if_neg]
      intro hc
      rw [hc] at hq
      unfold dict_keys at hk
      exact hq hk

theorem emit_sorted_eq {β : Type} (d : AList β) (f : Bytes → β → Option Bytes)
    (hwf : alist_wf d) (hsort : List.Sorted (· ≤ ·) (dict_keys d)) :
    emit_sorted d f = (parts_concat (fun q => f q.1 q.2) d).map ([] ++ ·) := by
  unfold emit_sorted sorted_keys
  rw [List.Sorted.insertionSort_eq hsort]
  rw [foldlM_append_eq2 (fun k => (dict_get d k).bind (f k)) (dict_keys d) _ ?hf []]
  · rw [parts_concat_keys f d hwf]
  case hf =>
    intro a k
    show (match dict_get d k with
      | none => none
      | some v => (f k v).map (a ++ ·)) =
      ((dict_get d k).bind (f k)).map (fun x => a ++ x)
    rcases hg : dict_get d k with _ | v <;> rfl

theorem int_to_big_endian_length (n w : Nat) :
    (int_to_big_endian n w).length = w := by
  unfold int_to_big_endian
  rw [List.length_reverse]
  exact int_to_little_endian_length n w

theorem big_endian_round (w n : Nat) (h : n < 256 ^ w) :
    big_endian_to_int (int_to_big_endian n w) = n := by
  unfold big_endian_to_int int_to_big_endian
  rw [List.foldl_reverse]
  exact little_endian_round w n h

theorem np_parse_step {np : NamedPublicKey} (h33 : np.sec_bytes.length = 33)
    {ev : Bytes} (hev : encode_varstr np.raw_path = some ev) (tag : Nat)
    (rest : Bytes) :
    NamedPublicKey.parse (tag :: np.sec_bytes) (ev ++ rest) = some (np, rest) := by
  unfold NamedPublicKey.parse
  rw [show (tag :: np.sec_bytes).drop 1 = np.sec_bytes from rfl]
  rw [show S256Point.parse np.sec_bytes = some np.toS256Point from by
    unfold S256Point.parse
    rw [if_pos h33]]
  rw [read_varstr_round hev rest]
  rfl

def NamedHDPublicKey.c5wf (k : NamedHDPublicKey) : Prop :=
  k.depth < 256 ∧ k.parent_fingerprint.length = 4 ∧ k.child_number < 256 ^ 4 ∧
    k.chain_code.length = 32 ∧ k.point.sec_bytes.length = 33 ∧
    k.depth = (k.raw_path.drop 4).length / 4

instance (k : NamedHDPublicKey) : Decidable k.c5wf := by
  unfold NamedHDPublicKey.c5wf
  infer_instance

theorem hd_raw_round {k : NamedHDPublicKey} (hwf : k.c5wf) {raw : Bytes}
    (hraw : HDPublicKey.raw_serialize k.toHDPublicKey = some raw) :
    HDPublicKey.raw_parse raw = some k.toHDPublicKey ∧ raw.length = 78 := by
  obtain ⟨hd, hfp, hcn, hcc, hsec, -⟩ := hwf
  unfold HDPublicKey.raw_serialize at hraw
  rw [int_to_byte_eq hd] at hraw
  have he2 : some ((if k.testnet then TESTNET_XPUB else MAINNET_XPUB) ++
      [k.depth] ++ k.parent_fingerprint ++ int_to_big_endian k.child_number 4 ++
      k.chain_code ++ k.point.sec) = some raw := hraw
  cases he2
  have hbe := int_to_big_endian_length k.child_number 4
  have hver : (if k.testnet then TESTNET_XPUB else MAINNET_XPUB).length = 4 := by
    cases k.testnet <;> rfl
  constructor
  · unfold HDPublicKey.raw_parse
    have h4t : ((if k.testnet then TESTNET_XPUB else MAINNET_XPUB) ++
        [k.depth] ++ k.parent_fingerprint ++ int_to_big_endian k.child_number 4 ++
        k.chain_code ++ k.point.sec).take 4 =
        (if k.testnet then TESTNET_XPUB else MAINNET_XPUB) := by
      simp only [List.append_assoc]
      rw [List.take_append_of_le_length (by omega)]
      exact List.take_of_length_le (by omega)
    have hd4 : ((if k.testnet then TESTNET_XPUB else MAINNET_XPUB) ++
        [k.depth] ++ k.parent_fingerprint ++ int_to_big_endian k.child_number 4 ++
        k.chain_code ++ k.point.sec).drop 4 =
        [k.depth] ++ (k.parent_fingerprint ++ (int_to_big_endian k.child_number 4 ++
          (k.chain_code ++ k.point.sec))) := by
      simp only [List.append_assoc]
      rw [List.drop_append_of_le_length (by omega)]
      rw [List.drop_of_length_le (by omega), List.nil_append]
    have hd5 : ((if k.testnet then TESTNET_XPUB else MAINNET_XPUB) ++
        [k.depth] ++ k.parent_fingerprint ++ int_to_big_endian k.child_number 4 ++
        k.chain_code ++ k.point.sec).drop 5 =
        k.parent_fingerprint ++ (int_to_big_endian k.child_number 4 ++
          (k.chain_code ++ k.point.sec)) := by
      rw [show (5 : Nat) = 4 + 1 from rfl, ← List.drop_drop, hd4]
      rfl
    have hd9 : ((if k.testnet then TESTNET_XPUB else MAINNET_XPUB) ++
        [k.depth] ++ k.parent_fingerprint ++ int_to_big_endian k.child_number 4 ++
        k.chain_code ++ k.point.sec).drop 9 =
        int_to_big_endian k.child_number 4 ++ (k.chain_code ++ k.point.sec) := by
      rw [show (9 : Nat) = 5 + 4 from rfl, ← List.drop_drop, hd5]
      rw [List.drop_append_of_le_length (by omega)]
      rw [List.drop_of_length_le (by omega), List.nil_append]
    have hd13 : ((if k.testnet then TESTNET_XPUB else MAINNET_XPUB) ++
        [k.depth] ++ k.parent_fingerprint ++ int_to_big_endian k.child_number 4 ++
        k.chain_code ++ k.point.sec).drop 13 =
        k.chain_code ++ k.point.sec := by
      rw [show (13 : Nat) = 9 + 4 from rfl, ← List.drop_drop, hd9]
      rw [List.drop_append_of_le_length (by omega)]
      rw [List.drop_of_length_le (by omega), List.nil_append]
    have hd45 : ((if k.testnet then TESTNET_XPUB else MAINNET_XPUB) ++
        [k.depth] ++ k.parent_fingerprint ++ int_to_big_endian k.child_number 4 ++
        k.chain_code ++ k.point.sec).drop 45 = k.point.sec := by
      rw [show (45 : Nat) = 13 + 32 from rfl, ← List.drop_drop, hd13]
      rw [List.drop_append_of_le_length (by omega)]
      rw [List.drop_of_length_le (by omega), List.nil_append]
    have hsec2 : k.point.sec.length = 33 := hsec
    rw [h4t, hd4, hd5, hd9, hd13, hd45]
    rw [show ([k.depth] ++ (k.parent_fingerprint ++
      (int_to_big_endian k.child_number 4 ++
        (k.chain_code ++ k.point.sec)))).take 1 = [k.depth] from rfl]
    rw [byte_to_int_single]
    have htfp : (k.parent_fingerprint ++ (int_to_big_endian k.child_number 4 ++
        (k.chain_code ++ k.point.sec))).take 4 = k.parent_fingerprint := by
      rw [List.take_append_of_le_length (by omega)]
      exact List.take_of_length_le (by omega)
    have htbe : (int_to_big_endian k.child_number 4 ++
        (k.chain_code ++ k.point.sec)).take 4 =
        int_to_big_endian k.child_number 4 := by
      rw [List.take_append_of_le_length (by omega)]
      exact List.take_of_length_le (by omega)
    have htcc : (k.chain_code ++ k.point.sec).take 32 = k.chain_code := by
      rw [List.take_append_of_le_length (by omega)]
      exact List.take_of_length_le (by omega)
    have htsec : (k.point.sec).take 33 = k.point.sec :=
      List.take_of_length_le (le_of_eq hsec2)
    rw [htfp, htbe, htcc, htsec, big_endian_round 4 k.child_number hcn]
    rw [show S256Point.parse k.point.sec = some k.point from by
      unfold S256Point.parse
      rw [if_pos hsec2]
      rfl]
    rw [show (some k.toHDPublicKey : Option HDPublicKey) =
      some ⟨k.point, k.chain_code, k.depth, k.parent_fingerprint,
        k.child_number, k.testnet⟩ from rfl]
    cases k.testnet <;> rfl
  · have hsec2 : k.point.sec.length = 33 := hsec
    simp only [List.length_append, List.length_cons, List.length_nil, hver,
      hfp, hbe, hcc, hsec2]

theorem encode_varstr_eq {v ev : Bytes} (h : encode_varstr v = some ev) :
    ∃ evi, encode_varint v.length = some evi ∧ ev = evi ++ v := by
  unfold encode_varstr at h
  rcases hv : encode_varint v.length with _ | evi
  · rw [hv] at h
    cases h
  · rw [hv] at h
    have h2 : some (evi ++ v) = some ev := h
    cases h2
    exact ⟨evi, rfl, rfl⟩

/-- First byte of a map key is at least `n` (and the key is non-empty). -/
def key_atleast (n : Nat) : Bytes → Prop
  | [] => False
  | b :: _ => n ≤ b

instance (n : Nat) (k : Bytes) : Decidable (key_atleast n k) := by
  cases k with
  | nil => exact isFalse (fun h => h)
  | cons b kt =>
    unfold key_atleast
    infer_instance

theorem read_varstr_zero (rest : Bytes) : read_varstr (0 :: rest) = some ([], rest) := by
  unfold read_varstr
  rw [read_varint_small (by omega) rest]
  rfl

theorem global_end_step (fuel : Nat) (rest : Bytes) (st : GlobalFields) :
    PSBT.parse_global (fuel + 1) (0 :: rest) st = some (st, rest) := by
  simp only [PSBT.parse_global]
  rw [read_varstr_zero]
  rfl

theorem global_tx_step {t : Tx} (hwf : Tx.wf t) {tser e : Bytes}
    (htser : Tx.serialize t = some tser)
    (he : serialize_key_value [0x00] tser = some e)
    (fuel : Nat) (rest : Bytes) (st : GlobalFields) (hst : st.tx_obj = none) :
    PSBT.parse_global (fuel + 1) (e ++ rest) st =
      PSBT.parse_global fuel rest { st with tx_obj := some t } := by
  obtain ⟨ek, ev, hek, hev, he2⟩ := serialize_key_value_eq he
  subst he2
  obtain ⟨evi, hevi, hev2⟩ := encode_varstr_eq hev
  subst hev2
  simp only [PSBT.parse_global, List.append_assoc]
  rw [read_varstr_round hek (evi ++ (tser ++ rest))]
  rw [opt_some_bind]
  dsimp only
  rw [if_neg (by decide), if_pos (by decide), if_neg (by decide)]
  rw [hst]
  rw [if_neg (by decide)]
  rw [read_varint_round hevi (tser ++ rest)]
  rw [opt_some_bind]
  dsimp only
  rw [tx_parse_round hwf htser rest]
  rfl

theorem global_hd_step {k : NamedHDPublicKey} (hwf : k.c5wf) {raw e : Bytes}
    (hraw : HDPublicKey.raw_serialize k.toHDPublicKey = some raw)
    (he : serialize_key_value (0x01 :: raw) k.raw_path = some e)
    (fuel : Nat) (rest : Bytes) (st : GlobalFields) :
    PSBT.parse_global (fuel + 1) (e ++ rest) st =
      PSBT.parse_global fuel rest
        { st with hd_pubs := dict_insert st.hd_pubs raw k } := by
  obtain ⟨hparse, hlen⟩ := hd_raw_round hwf hraw
  obtain ⟨ek, ev, hek, hev, he2⟩ := serialize_key_value_eq he
  subst he2
  simp only [PSBT.parse_global, List.append_assoc]
  rw [read_varstr_round hek (ev ++ rest)]
  rw [opt_some_bind]
  dsimp only
  rw [if_neg (by simp), if_neg (by simp [List.take]),
    if_pos (by simp [List.take]), if_neg (by simp [hlen])]
  rw [show NamedHDPublicKey.parse (0x01 :: raw) (ev ++ rest) =
    some (k, rest) from ?hnp]
  · rw [opt_some_bind]
    dsimp only
    rw [show HDPublicKey.raw_serialize k.toHDPublicKey = some raw from hraw]
    rfl
  case hnp =>
    unfold NamedHDPublicKey.parse
    rw [show (0x01 :: raw).drop 1 = raw from rfl, hparse]
    rw [opt_some_bind]
    rw [read_varstr_round hev rest]
    rw [opt_some_bind]
    dsimp only
    rw [if_pos]
    · rfl
    · exact hwf.2.2.2.2.2

theorem global_extra_step {k v : Bytes} (hk : key_atleast 2 k)
    {e : Bytes} (he : serialize_key_value k v = some e)
    (fuel : Nat) (rest : Bytes) (st : GlobalFields)
    (hdup : truthy_bytes (dict_get st.extra_map k) = false) :
    PSBT.parse_global (fuel + 1) (e ++ rest) st =
      PSBT.parse_global fuel rest
        { st with extra_map := dict_insert st.extra_map k v } := by
  obtain ⟨ek, ev, hek, hev, he2⟩ := serialize_key_value_eq he
  subst he2
  rcases k with _ | ⟨b, kt⟩
  · exact (hk : False).elim
  have hb : 2 ≤ b := hk
  simp only [PSBT.parse_global, List.append_assoc]
  rw [read_varstr_round hek (ev ++ rest)]
  rw [opt_some_bind]
  dsimp only
  rw [show (b :: kt).take 1 = [b] from rfl]
  rw [if_neg (by simp), if_neg (by simp; omega), if_neg (by simp; omega)]
  rw [hdup]
  rw [if_neg (by decide)]
  rw [read_varstr_round hev rest]
  rfl

theorem global_hd_chunk (d2 : AList NamedHDPublicKey) :
    ∀ (fuel : Nat) (st : GlobalFields) (b rest : Bytes),
    alist_wf (st.hd_pubs ++ d2) →
    (∀ q ∈ d2, q.2.c5wf ∧
      HDPublicKey.raw_serialize q.2.toHDPublicKey = some q.1) →
    parts_concat (fun q => NamedHDPublicKey.serialize q.2) d2 = some b →
    PSBT.parse_global (fuel + d2.length) (b ++ rest) st =
      PSBT.parse_global fuel rest { st with hd_pubs := st.hd_pubs ++ d2 } := by
  induction d2 with
  | nil =>
    intro fuel st b rest _ _ hb
    cases hb
    rw [List.nil_append, List.append_nil]
    rfl
  | cons q d2 ih =>
    intro fuel st b rest hwf hcond hb
    simp only [parts_concat] at hb
    rcases he : NamedHDPublicKey.serialize q.2 with _ | e
    · rw [he] at hb
      cases hb
    · rw [he] at hb
      rcases hrest : parts_concat (fun q => NamedHDPublicKey.serialize q.2) d2
        with _ | r
      · rw [hrest] at hb
        cases hb
      · rw [hrest] at hb
        cases hb
        obtain ⟨hq5, hqr⟩ := hcond q (by simp)
        have hkey : q.1 ∉ st.hd_pubs.map Prod.fst := by
          unfold alist_wf at hwf
          rw [List.map_append, List.nodup_append] at hwf
          intro hc
          exact List.disjoint_left.mp hwf.2.2 hc (by simp)
        unfold NamedHDPublicKey.serialize at he
        rw [hqr] at he
        have he2 : serialize_key_value (0x01 :: q.1) q.2.raw_path = some e := he
        rw [List.append_assoc]
        show PSBT.parse_global ((fuel + d2.length) + 1) (e ++ (r ++ rest)) st = _
        rw [global_hd_step hq5 hqr he2 (fuel + d2.length) (r ++ rest) st]
        rw [show dict_insert st.hd_pubs q.1 q.2 = st.hd_pubs ++ [(q.1, q.2)] from by
          rw [dict_insert_fresh hkey]]
        rw [ih (fuel) { st with hd_pubs := st.hd_pubs ++ [(q.1, q.2)] } r rest
          (by dsimp only; rw [← List.append_cons]; exact hwf)
          (fun j hj => hcond j (List.mem_cons_of_mem _ hj)) hrest]
        rw [← List.append_cons]

theorem global_extra_chunk (d2 : AList Bytes) :
    ∀ (fuel : Nat) (st : GlobalFields) (b rest : Bytes),
    alist_wf (st.extra_map ++ d2) →
    (∀ q ∈ d2, key_atleast 2 q.1) →
    parts_concat (fun q => serialize_key_value q.1 q.2) d2 = some b →
    PSBT.parse_global (fuel + d2.length) (b ++ rest) st =
      PSBT.parse_global fuel rest
        { st with extra_map := st.extra_map ++ d2 } := by
  induction d2 with
  | nil =>
    intro fuel st b rest _ _ hb
    cases hb
    rw [List.nil_append, List.append_nil]
    rfl
  | cons q d2 ih =>
    intro fuel st b rest hwf hcond hb
    simp only [parts_concat] at hb
    rcases he : serialize_key_value q.1 q.2 with _ | e
    · rw [he] at hb
      cases hb
    · rw [he] at hb
      rcases hrest : parts_concat (fun q => serialize_key_value q.1 q.2) d2
        with _ | r
      · rw [hrest] at hb
        cases hb
      · rw [hrest] at hb
        cases hb
        have hkey : q.1 ∉ st.extra_map.map Prod.fst := by
          unfold alist_wf at hwf
          rw [List.map_append, List.nodup_append] at hwf
          intro hc
          exact List.disjoint_left.mp hwf.2.2 hc (by simp)
        have hdup : truthy_bytes (dict_get st.extra_map q.1) = false := by
          rw [dict_get_none_of_not_mem hkey]
          rfl
        rw [List.append_assoc]
        show PSBT.parse_global ((fuel + d2.length) + 1) (e ++ (r ++ rest)) st = _
        rw [global_extra_step (hcond q (by simp)) he (fuel + d2.length)
          (r ++ rest) st hdup]
        rw [show dict_insert st.extra_map q.1 q.2 =
          st.extra_map ++ [(q.1, q.2)] from by rw [dict_insert_fresh hkey]]
        rw [ih (fuel) { st with extra_map := st.extra_map ++ [(q.1, q.2)] } r rest
          (by dsimp only; rw [← List.append_cons]; exact hwf)
          (fun j hj => hcond j (List.mem_cons_of_mem _ hj)) hrest]
        rw [← List.append_cons]

theorem in_end_step (fuel : Nat) (rest : Bytes) (st : InFields) :
    PSBTIn.parse_loop (fuel + 1) (0 :: rest) st = some (st, rest) := by
  simp only [PSBTIn.parse_loop]
  rw [read_varstr_zero]
  rfl

theorem in_sig_step {k v : Bytes} {e : Bytes}
    (he : serialize_key_value (0x02 :: k) v = some e)
    (fuel : Nat) (rest : Bytes) (st : InFields)
    (hdup : truthy_bytes (dict_get st.sigs k) = false) :
    PSBTIn.parse_loop (fuel + 1) (e ++ rest) st =
      PSBTIn.parse_loop fuel rest { st with sigs := dict_insert st.sigs k v } := by
  obtain ⟨ek, ev, hek, hev, he2⟩ := serialize_key_value_eq he
  subst he2
  simp only [PSBTIn.parse_loop, List.append_assoc]
  rw [read_varstr_round hek (ev ++ rest)]
  rw [opt_some_bind]
  dsimp only
  rw [show (0x02 :: k).take 1 = [0x02] from rfl,
    show (0x02 :: k).drop 1 = k from rfl]
  rw [if_neg (by simp), if_neg (by decide), if_neg (by decide),
    if_pos (by decide)]
  rw [hdup]
  rw [if_neg (by decide)]
  rw [read_varstr_round hev rest]
  rfl

theorem in_ht_step {ht : Nat} (hht4 : ht < 256 ^ 4) {e : Bytes}
    (he : serialize_key_value [0x03] (int_to_little_endian ht 4) = some e)
    (fuel : Nat) (rest : Bytes) (st : InFields)
    (hst : truthy_nat st.hash_type = false) :
    PSBTIn.parse_loop (fuel + 1) (e ++ rest) st =
      PSBTIn.parse_loop fuel rest { st with hash_type := some ht } := by
  obtain ⟨ek, ev, hek, hev, he2⟩ := serialize_key_value_eq he
  subst he2
  simp only [PSBTIn.parse_loop, List.append_assoc]
  rw [read_varstr_round hek (ev ++ rest)]
  rw [opt_some_bind]
  dsimp only
  rw [if_neg (by decide), if_neg (by decide), if_neg (by decide),
    if_neg (by decide), if_pos (by decide), if_neg (by decide)]
  rw [hst]
  rw [if_neg (by decide)]
  rw [read_varstr_round hev rest]
  rw [opt_some_bind]
  dsimp only
  rw [little_endian_round 4 ht hht4]

theorem in_rs_step {rs : Script} (hc : wf_script rs) {raw e : Bytes}
    (hraw : Script.raw_serialize rs = some raw)
    (he : serialize_key_value [0x04] raw = some e)
    (fuel : Nat) (rest : Bytes) (st : InFields)
    (hst : st.redeem_script = none) :
    PSBTIn.parse_loop (fuel + 1) (e ++ rest) st =
      PSBTIn.parse_loop fuel rest { st with redeem_script := some rs } := by
  obtain ⟨ek, ev, hek, hev, he2⟩ := serialize_key_value_eq he
  subst he2
  have hser : Script.serialize rs = some ev := by
    unfold Script.serialize
    rw [hraw]
    exact hev
  simp only [PSBTIn.parse_loop, List.append_assoc]
  rw [read_varstr_round hek (ev ++ rest)]
  rw [opt_some_bind]
  dsimp only
  rw [if_neg (by decide), if_neg (by decide), if_neg (by decide),
    if_neg (by decide), if_neg (by decide), if_pos (by decide),
    if_neg (by decide)]
  rw [hst]
  rw [if_neg (by decide)]
  rw [script_parse_round hc hser rest]
  rfl

theorem in_ws_step {ws : Script} (hc : wf_script ws) {raw e : Bytes}
    (hraw : Script.raw_serialize ws = some raw)
    (he : serialize_key_value [0x05] raw = some e)
    (fuel : Nat) (rest : Bytes) (st : InFields)
    (hst : st.witness_script = none) :
    PSBTIn.parse_loop (fuel + 1) (e ++ rest) st =
      PSBTIn.parse_loop fuel rest { st with witness_script := some ws } := by
  obtain ⟨ek, ev, hek, hev, he2⟩ := serialize_key_value_eq he
  subst he2
  have hser : Script.serialize ws = some ev := by
    unfold Script.serialize
    rw [hraw]
    exact hev
  simp only [PSBTIn.parse_loop, List.append_assoc]
  rw [read_varstr_round hek (ev ++ rest)]
  rw [opt_some_bind]
  dsimp only
  rw [if_neg (by decide), if_neg (by decide), if_neg (by decide),
    if_neg (by decide), if_neg (by decide), if_neg (by decide),
    if_pos (by decide), if_neg (by decide)]
  rw [hst]
  rw [if_neg (by decide)]
  rw [script_parse_round hc hser rest]
  rfl

theorem in_np_step {np : NamedPublicKey} (h33 : np.sec_bytes.length = 33)
    {e : Bytes} (he : serialize_key_value (0x06 :: np.sec_bytes)
      np.raw_path = some e)
    (fuel : Nat) (rest : Bytes) (st : InFields) :
    PSBTIn.parse_loop (fuel + 1) (e ++ rest) st =
      PSBTIn.parse_loop fuel rest
        { st with named_pubs := dict_insert st.named_pubs np.sec_bytes np } := by
  obtain ⟨ek, ev, hek, hev, he2⟩ := serialize_key_value_eq he
  subst he2
  simp only [PSBTIn.parse_loop, List.append_assoc]
  rw [read_varstr_round hek (ev ++ rest)]
  rw [opt_some_bind]
  dsimp only
  rw [show (0x06 :: np.sec_bytes).take 1 = [0x06] from rfl]
  rw [if_neg (by simp), if_neg (by decide), if_neg (by decide),
    if_neg (by decide), if_neg (by decide), if_neg (by decide),
    if_neg (by decide), if_pos (by decide),
    if_neg (by simp [List.length_cons, h33])]
  rw [np_parse_step h33 hev 0x06 rest]
  rfl

theorem in_extra_step {k v : Bytes} (hk : key_atleast 9 k)
    {e : Bytes} (he : serialize_key_value k v = some e)
    (fuel : Nat) (rest : Bytes) (st : InFields)
    (hdup : truthy_bytes (dict_get st.extra_map k) = false) :
    PSBTIn.parse_loop (fuel + 1) (e ++ rest) st =
      PSBTIn.parse_loop fuel rest
        { st with extra_map := dict_insert st.extra_map k v } := by
  obtain ⟨ek, ev, hek, hev, he2⟩ := serialize_key_value_eq he
  subst he2
  rcases k with _ | ⟨b, kt⟩
  · exact (hk : False).elim
  have hb : 9 ≤ b := hk
  simp only [PSBTIn.parse_loop, List.append_assoc]
  rw [read_varstr_round hek (ev ++ rest)]
  rw [opt_some_bind]
  dsimp only
  rw [show (b :: kt).take 1 = [b] from rfl]
  rw [if_neg (by simp), if_neg (by simp; omega), if_neg (by simp; omega),
    if_neg (by simp; omega), if_neg (by simp; omega), if_neg (by simp; omega),
    if_neg (by simp; omega), if_neg (by simp; omega), if_neg (by simp; omega),
    if_neg (by simp; omega)]
  rw [hdup]
  rw [if_neg (by decide)]
  rw [read_varstr_round hev rest]
  rfl

theorem in_sigs_chunk (d2 : AList Bytes) :
    ∀ (fuel : Nat) (st : InFields) (b rest : Bytes),
    alist_wf (st.sigs ++ d2) →
    parts_concat (fun q => serialize_key_value (0x02 :: q.1) q.2) d2 = some b →
    PSBTIn.parse_loop (fuel + d2.length) (b ++ rest) st =
      PSBTIn.parse_loop fuel rest { st with sigs := st.sigs ++ d2 } := by
  induction d2 with
  | nil =>
    intro fuel st b rest _ hb
    cases hb
    rw [List.nil_append, List.append_nil]
    rfl
  | cons q d2 ih =>
    intro fuel st b rest hwf hb
    simp only [parts_concat] at hb
    rcases he : serialize_key_value (0x02 :: q.1) q.2 with _ | e
    · rw [he] at hb
      cases hb
    · rw [he] at hb
      rcases hrest : parts_concat
        (fun q => serialize_key_value (0x02 :: q.1) q.2) d2 with _ | r
      · rw [hrest] at hb
        cases hb
      · rw [hrest] at hb
        cases hb
        have hkey : q.1 ∉ st.sigs.map Prod.fst := by
          unfold alist_wf at hwf
          rw [List.map_append, List.nodup_append] at hwf
          intro hc
          exact List.disjoint_left.mp hwf.2.2 hc (by simp)
        have hdup : truthy_bytes (dict_get st.sigs q.1) = false := by
          rw [dict_get_none_of_not_mem hkey]
          rfl
        rw [List.append_assoc]
        show PSBTIn.parse_loop ((fuel + d2.length) + 1) (e ++ (r ++ rest)) st = _
        rw [in_sig_step he (fuel + d2.length) (r ++ rest) st hdup]
        rw [show dict_insert st.sigs q.1 q.2 = st.sigs ++ [(q.1, q.2)] from by
          rw [dict_insert_fresh hkey]]
        rw [ih (fuel) { st with sigs := st.sigs ++ [(q.1, q.2)] } r rest
          (by dsimp only; rw [← List.append_cons]; exact hwf) hrest]
        rw [← List.append_cons]

theorem in_np_chunk (d2 : AList NamedPublicKey) :
    ∀ (fuel : Nat) (st : InFields) (b rest : Bytes),
    alist_wf (st.named_pubs ++ d2) →
    (∀ q ∈ d2, q.1 = q.2.sec_bytes ∧ q.2.sec_bytes.length = 33) →
    parts_concat (fun q => NamedPublicKey.serialize q.2 [0x06]) d2 = some b →
    PSBTIn.parse_loop (fuel + d2.length) (b ++ rest) st =
      PSBTIn.parse_loop fuel rest
        { st with named_pubs := st.named_pubs ++ d2 } := by
  induction d2 with
  | nil =>
    intro fuel st b rest _ _ hb
    cases hb
    rw [List.nil_append, List.append_nil]
    rfl
  | cons q d2 ih =>
    intro fuel st b rest hwf hcond hb
    simp only [parts_concat] at hb
    rcases he : NamedPublicKey.serialize q.2 [0x06] with _ | e
    · rw [he] at hb
      cases hb
    · rw [he] at hb
      rcases hrest : parts_concat
        (fun q => NamedPublicKey.serialize q.2 [0x06]) d2 with _ | r
      · rw [hrest] at hb
        cases hb
      · rw [hrest] at hb
        cases hb
        obtain ⟨hq1, h33⟩ := hcond q (by simp)
        have hkey : q.1 ∉ st.named_pubs.map Prod.fst := by
          unfold alist_wf at hwf
          rw [List.map_append, List.nodup_append] at hwf
          intro hc
          exact List.disjoint_left.mp hwf.2.2 hc (by simp)
        have he2 : serialize_key_value (0x06 :: q.2.sec_bytes)
            q.2.raw_path = some e := he
        rw [List.append_assoc]
        show PSBTIn.parse_loop ((fuel + d2.length) + 1) (e ++ (r ++ rest)) st = _
        rw [in_np_step h33 he2 (fuel + d2.length) (r ++ rest) st]
        rw [show dict_insert st.named_pubs q.2.sec_bytes q.2 =
          st.named_pubs ++ [(q.1, q.2)] from by
          rw [← hq1, dict_insert_fresh hkey]]
        rw [ih (fuel) { st with named_pubs := st.named_pubs ++ [(q.1, q.2)] }
          r rest (by dsimp only; rw [← List.append_cons]; exact hwf)
          (fun j hj => hcond j (List.mem_cons_of_mem _ hj)) hrest]
        rw [← List.append_cons]

theorem in_extra_chunk (d2 : AList Bytes) :
    ∀ (fuel : Nat) (st : InFields) (b rest : Bytes),
    alist_wf (st.extra_map ++ d2) →
    (∀ q ∈ d2, key_atleast 9 q.1) →
    parts_concat (fun q => do
      let ek ← encode_varstr q.1
      let ev ← encode_varstr q.2
      pure (ek ++ ev)) d2 = some b →
    PSBTIn.parse_loop (fuel + d2.length) (b ++ rest) st =
      PSBTIn.parse_loop fuel rest
        { st with extra_map := st.extra_map ++ d2 } := by
  induction d2 with
  | nil =>
    intro fuel st b rest _ _ hb
    cases hb
    rw [List.nil_append, List.append_nil]
    rfl
  | cons q d2 ih =>
    intro fuel st b rest hwf hcond hb
    simp only [parts_concat] at hb
    rcases he : (do
      let ek ← encode_varstr q.1
      let ev ← encode_varstr q.2
      pure (ek ++ ev) : Option Bytes) with _ | e
    · rw [he] at hb
      cases hb
    · rw [he] at hb
      rcases hrest : parts_concat (fun q => do
        let ek ← encode_varstr q.1
        let ev ← encode_varstr q.2
        pure (ek ++ ev)) d2 with _ | r
      · rw [hrest] at hb
        cases hb
      · rw [hrest] at hb
        cases hb
        have hkey : q.1 ∉ st.extra_map.map Prod.fst := by
          unfold alist_wf at hwf
          rw [List.map_append, List.nodup_append] at hwf
          intro hc
          exact List.disjoint_left.mp hwf.2.2 hc (by simp)
        have hdup : truthy_bytes (dict_get st.extra_map q.1) = false := by
          rw [dict_get_none_of_not_mem hkey]
          rfl
        have he2 : serialize_key_value q.1 q.2 = some e := he
        rw [List.append_assoc]
        show PSBTIn.parse_loop ((fuel + d2.length) + 1) (e ++ (r ++ rest)) st = _
        rw [in_extra_step (hcond q (by simp)) he2 (fuel + d2.length)
          (r ++ rest) st hdup]
        rw [show dict_insert st.extra_map q.1 q.2 =
          st.extra_map ++ [(q.1, q.2)] from by rw [dict_insert_fresh hkey]]
        rw [ih (fuel) { st with extra_map := st.extra_map ++ [(q.1, q.2)] }
          r rest (by dsimp only; rw [← List.append_cons]; exact hwf)
          (fun j hj => hcond j (List.mem_cons_of_mem _ hj)) hrest]
        rw [← List.append_cons]

theorem out_end_step (fuel : Nat) (rest : Bytes) (st : OutFields) :
    PSBTOut.parse_loop (fuel + 1) (0 :: rest) st = some (st, rest) := by
  simp only [PSBTOut.parse_loop]
  rw [read_varstr_zero]
  rfl

theorem out_rs_step {rs : Script} (hc : wf_script rs) {raw e : Bytes}
    (hraw : Script.raw_serialize rs = some raw)
    (he : serialize_key_value [0x00] raw = some e)
    (fuel : Nat) (rest : Bytes) (st : OutFields)
    (hst : st.redeem_script = none) :
    PSBTOut.parse_loop (fuel + 1) (e ++ rest) st =
      PSBTOut.parse_loop fuel rest { st with redeem_script := some rs } := by
  obtain ⟨ek, ev, hek, hev, he2⟩ := serialize_key_value_eq he
  subst he2
  have hser : Script.serialize rs = some ev := by
    unfold Script.serialize
    rw [hraw]
    exact hev
  simp only [PSBTOut.parse_loop, List.append_assoc]
  rw [read_varstr_round hek (ev ++ rest)]
  rw [opt_some_bind]
  dsimp only
  rw [if_neg (by decide), if_pos (by decide), if_neg (by decide)]
  rw [hst]
  rw [if_neg (by decide)]
  rw [script_parse_round hc hser rest]
  rfl

theorem out_ws_step {ws : Script} (hc : wf_script ws) {raw e : Bytes}
    (hraw : Script.raw_serialize ws = some raw)
    (he : serialize_key_value [0x01] raw = some e)
    (fuel : Nat) (rest : Bytes) (st : OutFields)
    (hst : st.witness_script = none) :
    PSBTOut.parse_loop (fuel + 1) (e ++ rest) st =
      PSBTOut.parse_loop fuel rest { st with witness_script := some ws } := by
  obtain ⟨ek, ev, hek, hev, he2⟩ := serialize_key_value_eq he
  subst he2
  have hser : Script.serialize ws = some ev := by
    unfold Script.serialize
    rw [hraw]
    exact hev
  simp only [PSBTOut.parse_loop, List.append_assoc]
  rw [read_varstr_round hek (ev ++ rest)]
  rw [opt_some_bind]
  dsimp only
  rw [if_neg (by decide), if_neg (by decide), if_pos (by decide),
    if_neg (by decide)]
  rw [hst]
  rw [if_neg (by decide)]
  rw [script_parse_round hc hser rest]
  rfl

theorem out_np_step {np : NamedPublicKey} (h33 : np.sec_bytes.length = 33)
    {e : Bytes} (he : serialize_key_value (0x02 :: np.sec_bytes)
      np.raw_path = some e)
    (fuel : Nat) (rest : Bytes) (st : OutFields) :
    PSBTOut.parse_loop (fuel + 1) (e ++ rest) st =
      PSBTOut.parse_loop fuel rest
        { st with named_pubs := dict_insert st.named_pubs np.sec_bytes np } := by
  obtain ⟨ek, ev, hek, hev, he2⟩ := serialize_key_value_eq he
  subst he2
  simp only [PSBTOut.parse_loop, List.append_assoc]
  rw [read_varstr_round hek (ev ++ rest)]
  rw [opt_some_bind]
  dsimp only
  rw [show (0x02 :: np.sec_bytes).take 1 = [0x02] from rfl]
  rw [if_neg (by simp), if_neg (by decide), if_neg (by decide),
    if_pos (by decide), if_neg (by simp [List.length_cons, h33])]
  rw [np_parse_step h33 hev 0x02 rest]
  rfl

theorem out_extra_step {k v : Bytes} (hk : key_atleast 3 k)
    {e : Bytes} (he : serialize_key_value k v = some e)
    (fuel : Nat) (rest : Bytes) (st : OutFields)
    (hdup : truthy_bytes (dict_get st.extra_map k) = false) :
    PSBTOut.parse_loop (fuel + 1) (e ++ rest) st =
      PSBTOut.parse_loop fuel rest
        { st with extra_map := dict_insert st.extra_map k v } := by
  obtain ⟨ek, ev, hek, hev, he2⟩ := serialize_key_value_eq he
  subst he2
  rcases k with _ | ⟨b, kt⟩
  · exact (hk : False).elim
  have hb : 3 ≤ b := hk
  simp only [PSBTOut.parse_loop, List.append_assoc]
  rw [read_varstr_round hek (ev ++ rest)]
  rw [opt_some_bind]
  dsimp only
  rw [show (b :: kt).take 1 = [b] from rfl]
  rw [if_neg (by simp), if_neg (by simp; omega), if_neg (by simp; omega),
    if_neg (by simp; omega)]
  rw [hdup]
  rw [if_neg (by decide)]
  rw [read_varstr_round hev rest]
  rfl

theorem out_np_chunk (d2 : AList NamedPublicKey) :
    ∀ (fuel : Nat) (st : OutFields) (b rest : Bytes),
    alist_wf (st.named_pubs ++ d2) →
    (∀ q ∈ d2, q.1 = q.2.sec_bytes ∧ q.2.sec_bytes.length = 33) →
    parts_concat (fun q => NamedPublicKey.serialize q.2 [0x02]) d2 = some b →
    PSBTOut.parse_loop (fuel + d2.length) (b ++ rest) st =
      PSBTOut.parse_loop fuel rest
        { st with named_pubs := st.named_pubs ++ d2 } := by
  induction d2 with
  | nil =>
    intro fuel st b rest _ _ hb
    cases hb
    rw [List.nil_append, List.append_nil]
    rfl
  | cons q d2 ih =>
    intro fuel st b rest hwf hcond hb
    simp only [parts_concat] at hb
    rcases he : NamedPublicKey.serialize q.2 [0x02] with _ | e
    · rw [he] at hb
      cases hb
    · rw [he] at hb
      rcases hrest : parts_concat
        (fun q => NamedPublicKey.serialize q.2 [0x02]) d2 with _ | r
      · rw [hrest] at hb
        cases hb
      · rw [hrest] at hb
        cases hb
        obtain ⟨hq1, h33⟩ := hcond q (by simp)
        have hkey : q.1 ∉ st.named_pubs.map Prod.fst := by
          unfold alist_wf at hwf
          rw [List.map_append, List.nodup_append] at hwf
          intro hc
          exact List.disjoint_left.mp hwf.2.2 hc (by simp)
        have he2 : serialize_key_value (0x02 :: q.2.sec_bytes)
            q.2.raw_path = some e := he
        rw [List.append_assoc]
        show PSBTOut.parse_loop ((fuel + d2.length) + 1) (e ++ (r ++ rest)) st = _
        rw [out_np_step h33 he2 (fuel + d2.length) (r ++ rest) st]
        rw [show dict_insert st.named_pubs q.2.sec_bytes q.2 =
          st.named_pubs ++ [(q.1, q.2)] from by
          rw [← hq1, dict_insert_fresh hkey]]
        rw [ih (fuel) { st with named_pubs := st.named_pubs ++ [(q.1, q.2)] }
          r rest (by dsimp only; rw [← List.append_cons]; exact hwf)
          (fun j hj => hcond j (List.mem_cons_of_mem _ hj)) hrest]
        rw [← List.append_cons]

theorem out_extra_chunk (d2 : AList Bytes) :
    ∀ (fuel : Nat) (st : OutFields) (b rest : Bytes),
    alist_wf (st.extra_map ++ d2) →
    (∀ q ∈ d2, key_atleast 3 q.1) →
    parts_concat (fun q => do
      let ek ← encode_varstr q.1
      let ev ← encode_varstr q.2
      pure (ek ++ ev)) d2 = some b →
    PSBTOut.parse_loop (fuel + d2.length) (b ++ rest) st =
      PSBTOut.parse_loop fuel rest
        { st with extra_map := st.extra_map ++ d2 } := by
  induction d2 with
  | nil =>
    intro fuel st b rest _ _ hb
    cases hb
    rw [List.nil_append, List.append_nil]
    rfl
  | cons q d2 ih =>
    intro fuel st b rest hwf hcond hb
    simp only [parts_concat] at hb
    rcases he : (do
      let ek ← encode_varstr q.1
      let ev ← encode_varstr q.2
      pure (ek ++ ev) : Option Bytes) with _ | e
    · rw [he] at hb
      cases hb
    · rw [he] at hb
      rcases hrest : parts_concat (fun q => do
        let ek ← encode_varstr q.1
        let ev ← encode_varstr q.2
        pure (ek ++ ev)) d2 with _ | r
      · rw [hrest] at hb
        cases hb
      · rw [hrest] at hb
        cases hb
        have hkey : q.1 ∉ st.extra_map.map Prod.fst := by
          unfold alist_wf at hwf
          rw [List.map_append, List.nodup_append] at hwf
          intro hc
          exact List.disjoint_left.mp hwf.2.2 hc (by simp)
        have hdup : truthy_bytes (dict_get st.extra_map q.1) = false := by
          rw [dict_get_none_of_not_mem hkey]
          rfl
        have he2 : serialize_key_value q.1 q.2 = some e := he
        rw [List.append_assoc]
        show PSBTOut.parse_loop ((fuel + d2.length) + 1) (e ++ (r ++ rest)) st = _
        rw [out_extra_step (hcond q (by simp)) he2 (fuel + d2.length)
          (r ++ rest) st hdup]
        rw [show dict_insert st.extra_map q.1 q.2 =
          st.extra_map ++ [(q.1, q.2)] from by rw [dict_insert_fresh hkey]]
        rw [ih (fuel) { st with extra_map := st.extra_map ++ [(q.1, q.2)] }
          r rest (by dsimp only; rw [← List.append_cons]; exact hwf)
          (fun j hj => hcond j (List.mem_cons_of_mem _ hj)) hrest]
        rw [← List.append_cons]

def opt_holds {α : Type} (P : α → Prop) : Option α → Prop
  | none => True
  | some a => P a

instance {α : Type} (P : α → Prop) [DecidablePred P] (o : Option α) :
    Decidable (opt_holds P o) := by
  cases o with
  | none => exact isTrue trivial
  | some a =>
    unfold opt_holds
    infer_instance

def opt_count {α : Type} : Option α → Nat
  | none => 0
  | some _ => 1

theorem sig_part_eq {sigs : AList Bytes} (hwf : alist_wf sigs) {acc out : Bytes}
    (he : (dict_keys sigs).foldlM (fun acc k => do
      let v ← dict_get sigs k
      let r ← serialize_key_value (0x02 :: k) v
      pure (acc ++ r)) acc = some out) :
    ∃ bs, parts_concat (fun q => serialize_key_value (0x02 :: q.1) q.2) sigs =
      some bs ∧ out = acc ++ bs := by
  rw [foldlM_append_eq2 (fun k => (dict_get sigs k).bind
    (fun v => serialize_key_value (0x02 :: k) v)) (dict_keys sigs) _
    (fun a k => by
      show (do
        let v ← dict_get sigs k
        let r ← serialize_key_value (0x02 :: k) v
        pure (a ++ r)) =
        ((dict_get sigs k).bind fun v =>
          serialize_key_value (0x02 :: k) v).map (a ++ ·)
      rcases dict_get sigs k with _ | v
      · rfl
      · show (do
          let r ← serialize_key_value (0x02 :: k) v
          pure (a ++ r)) =
          (serialize_key_value (0x02 :: k) v).map (a ++ ·)
        rcases serialize_key_value (0x02 :: k) v with _ | r <;> rfl) acc] at he
  rw [parts_concat_keys (fun k v => serialize_key_value (0x02 :: k) v)
    sigs hwf] at he
  rcases hp : parts_concat (fun q => serialize_key_value (0x02 :: q.1) q.2) sigs
    with _ | bs
  · rw [hp] at he
    cases he
  · rw [hp] at he
    have he2 : some (acc ++ bs) = some out := he
    cases he2
    exact ⟨bs, hp, rfl⟩

/-- Record bytes of an optional hash-type entry. -/
def ht_record : Option Nat → Option Bytes
  | none => some []
  | some ht => serialize_key_value [0x03] (int_to_little_endian ht 4)

/-- Record bytes of an optional script entry under a given type tag. -/
def script_record (tag : Nat) : Option Script → Option Bytes
  | none => some []
  | some sc => do
    let raw ← Script.raw_serialize sc
    serialize_key_value [tag] raw

theorem opt_bind_eq_some {α β : Type} {x : Option α} {f : α → Option β} {b : β} :
    (x >>= f) = some b ↔ ∃ a, x = some a ∧ f a = some b := by
  cases x <;> simp

theorem np_part_eq {nps : AList NamedPublicKey} (hwf : alist_wf nps)
    (hsort : List.Sorted (· ≤ ·) (dict_keys nps)) (tag : Bytes) {acc out : Bytes}
    (he : (emit_sorted nps (fun _ np => np.serialize tag)).map (acc ++ ·) =
      some out) :
    ∃ bn, parts_concat (fun q => NamedPublicKey.serialize q.2 tag) nps =
      some bn ∧ out = acc ++ bn := by
  rw [emit_sorted_eq nps _ hwf hsort] at he
  rcases hp : parts_concat (fun q => NamedPublicKey.serialize q.2 tag) nps
    with _ | bn
  · rw [hp] at he
    cases he
  · rw [hp] at he
    have he2 : some (acc ++ ([] ++ bn)) = some out := he
    cases he2
    exact ⟨bn, hp, by rw [List.nil_append]⟩

theorem extra_part_eq {ex : AList Bytes} (hwf : alist_wf ex)
    (hsort : List.Sorted (· ≤ ·) (dict_keys ex)) {acc out : Bytes}
    (he : (emit_sorted ex (fun k v => do
      let ek ← encode_varstr k
      let ev ← encode_varstr v
      pure (ek ++ ev))).map (acc ++ ·) = some out) :
    ∃ be, parts_concat (fun q => (do
      let ek ← encode_varstr q.1
      let ev ← encode_varstr q.2
      pure (ek ++ ev) : Option Bytes)) ex = some be ∧ out = acc ++ be := by
  rw [emit_sorted_eq ex _ hwf hsort] at he
  rcases hp : parts_concat (fun q => (do
      let ek ← encode_varstr q.1
      let ev ← encode_varstr q.2
      pure (ek ++ ev) : Option Bytes)) ex with _ | be
  · rw [hp] at he
    cases he
  · rw [hp] at he
    have he2 : some (acc ++ ([] ++ be)) = some out := he
    cases he2
    exact ⟨be, hp, by rw [List.nil_append]⟩

theorem hd_part_eq {hds : AList NamedHDPublicKey} (hwf : alist_wf hds)
    (hsort : List.Sorted (· ≤ ·) (dict_keys hds)) {acc out : Bytes}
    (he : (emit_sorted hds (fun _ hd => hd.serialize)).map (acc ++ ·) =
      some out) :
    ∃ bh, parts_concat (fun q => NamedHDPublicKey.serialize q.2) hds =
      some bh ∧ out = acc ++ bh := by
  rw [emit_sorted_eq hds _ hwf hsort] at he
  rcases hp : parts_concat (fun q => NamedHDPublicKey.serialize q.2) hds
    with _ | bh
  · rw [hp] at he
    cases he
  · rw [hp] at he
    have he2 : some (acc ++ ([] ++ bh)) = some out := he
    cases he2
    exact ⟨bh, hp, by rw [List.nil_append]⟩

theorem skv_extra_part_eq {ex : AList Bytes} (hwf : alist_wf ex)
    (hsort : List.Sorted (· ≤ ·) (dict_keys ex)) {acc out : Bytes}
    (he : (emit_sorted ex (fun k v => serialize_key_value k v)).map (acc ++ ·) =
      some out) :
    ∃ be, parts_concat (fun q => serialize_key_value q.1 q.2) ex = some be ∧
      out = acc ++ be := by
  rw [emit_sorted_eq ex _ hwf hsort] at he
  rcases hp : parts_concat (fun q => serialize_key_value q.1 q.2) ex with _ | be
  · rw [hp] at he
    cases he
  · rw [hp] at he
    have he2 : some (acc ++ ([] ++ be)) = some out := he
    cases he2
    exact ⟨be, hp, by rw [List.nil_append]⟩

theorem in_ht_opt {ht? : Option Nat}
    (h4 : opt_holds (fun ht => ht < 256 ^ 4) ht?) {b : Bytes}
    (hb : ht_record ht? = some b) (fuel : Nat) (rest : Bytes) (st : InFields)
    (hst : st.hash_type = none) :
    PSBTIn.parse_loop (fuel + opt_count ht?) (b ++ rest) st =
      PSBTIn.parse_loop fuel rest { st with hash_type := ht? } := by
  cases ht? with
  | none =>
    have hb2 : some [] = some b := hb
    cases hb2
    have hsteq : ({ st with hash_type := none } : _) = st := by
      rw [← hst]
    rw [hsteq]
    rfl
  | some ht =>
    have hb2 : serialize_key_value [0x03] (int_to_little_endian ht 4) =
      some b := hb
    have htr : truthy_nat st.hash_type = false := by
      rw [hst]
      rfl
    exact in_ht_step h4 hb2 fuel rest st htr

theorem in_rs_opt {rs? : Option Script} (hc : opt_holds wf_script rs?) {b : Bytes}
    (hb : script_record 4 rs? = some b) (fuel : Nat) (rest : Bytes)
    (st : InFields) (hst : st.redeem_script = none) :
    PSBTIn.parse_loop (fuel + opt_count rs?) (b ++ rest) st =
      PSBTIn.parse_loop fuel rest { st with redeem_script := rs? } := by
  cases rs? with
  | none =>
    have hb2 : some [] = some b := hb
    cases hb2
    have hsteq : ({ st with redeem_script := none } : _) = st := by
      rw [← hst]
    rw [hsteq]
    rfl
  | some rs =>
    have hb2 : ((Script.raw_serialize rs).bind fun raw =>
      serialize_key_value [4] raw) = some b := hb
    rcases hraw : Script.raw_serialize rs with _ | raw
    · rw [hraw] at hb2
      cases hb2
    · rw [hraw] at hb2
      have hb3 : serialize_key_value [0x04] raw = some b := hb2
      exact in_rs_step hc hraw hb3 fuel rest st hst

theorem in_ws_opt {ws? : Option Script} (hc : opt_holds wf_script ws?) {b : Bytes}
    (hb : script_record 5 ws? = some b) (fuel : Nat) (rest : Bytes)
    (st : InFields) (hst : st.witness_script = none) :
    PSBTIn.parse_loop (fuel + opt_count ws?) (b ++ rest) st =
      PSBTIn.parse_loop fuel rest { st with witness_script := ws? } := by
  cases ws? with
  | none =>
    have hb2 : some [] = some b := hb
    cases hb2
    have hsteq : ({ st with witness_script := none } : _) = st := by
      rw [← hst]
    rw [hsteq]
    rfl
  | some ws =>
    have hb2 : ((Script.raw_serialize ws).bind fun raw =>
      serialize_key_value [5] raw) = some b := hb
    rcases hraw : Script.raw_serialize ws with _ | raw
    · rw [hraw] at hb2
      cases hb2
    · rw [hraw] at hb2
      have hb3 : serialize_key_value [0x05] raw = some b := hb2
      exact in_ws_step hc hraw hb3 fuel rest st hst

theorem out_rs_opt {rs? : Option Script} (hc : opt_holds wf_script rs?) {b : Bytes}
    (hb : script_record 0 rs? = some b) (fuel : Nat) (rest : Bytes)
    (st : OutFields) (hst : st.redeem_script = none) :
    PSBTOut.parse_loop (fuel + opt_count rs?) (b ++ rest) st =
      PSBTOut.parse_loop fuel rest { st with redeem_script := rs? } := by
  cases rs? with
  | none =>
    have hb2 : some [] = some b := hb
    cases hb2
    have hsteq : ({ st with redeem_script := none } : _) = st := by
      rw [← hst]
    rw [hsteq]
    rfl
  | some rs =>
    have hb2 : ((Script.raw_serialize rs).bind fun raw =>
      serialize_key_value [0] raw) = some b := hb
    rcases hraw : Script.raw_serialize rs with _ | raw
    · rw [hraw] at hb2
      cases hb2
    · rw [hraw] at hb2
      have hb3 : serialize_key_value [0x00] raw = some b := hb2
      exact out_rs_step hc hraw hb3 fuel rest st hst

theorem out_ws_opt {ws? : Option Script} (hc : opt_holds wf_script ws?) {b : Bytes}
    (hb : script_record 1 ws? = some b) (fuel : Nat) (rest : Bytes)
    (st : OutFields) (hst : st.witness_script = none) :
    PSBTOut.parse_loop (fuel + opt_count ws?) (b ++ rest) st =
      PSBTOut.parse_loop fuel rest { st with witness_script := ws? } := by
  cases ws? with
  | none =>
    have hb2 : some [] = some b := hb
    cases hb2
    have hsteq : ({ st with witness_script := none } : _) = st := by
      rw [← hst]
    rw [hsteq]
    rfl
  | some ws =>
    have hb2 : ((Script.raw_serialize ws).bind fun raw =>
      serialize_key_value [1] raw) = some b := hb
    rcases hraw : Script.raw_serialize ws with _ | raw
    · rw [hraw] at hb2
      cases hb2
    · rw [hraw] at hb2
      have hb3 : serialize_key_value [0x01] raw = some b := hb2
      exact out_ws_step hc hraw hb3 fuel rest st hst

theorem in_loop_all (tx_in : TxIn) (d_s : AList Bytes) (ht? : Option Nat)
    (rs? ws? : Option Script) (d_n : AList NamedPublicKey) (d_e : AList Bytes)
    (hswf : alist_wf d_s)
    (h4 : opt_holds (fun ht => ht < 256 ^ 4) ht?)
    (hrc : opt_holds wf_script rs?) (hwc : opt_holds wf_script ws?)
    (hnwf : alist_wf d_n)
    (hncond : ∀ q ∈ d_n, q.1 = q.2.sec_bytes ∧ q.2.sec_bytes.length = 33)
    (hewf : alist_wf d_e)
    (hecond : ∀ q ∈ d_e, key_atleast 9 q.1)
    {bs bh brs bws bn be : Bytes}
    (hbs : parts_concat (fun q => serialize_key_value (0x02 :: q.1) q.2) d_s =
      some bs)
    (hbh : ht_record ht? = some bh)
    (hbrs : script_record 4 rs? = some brs)
    (hbws : script_record 5 ws? = some bws)
    (hbn : parts_concat (fun q => NamedPublicKey.serialize q.2 [0x06]) d_n =
      some bn)
    (hbe : parts_concat (fun q => do
      let ek ← encode_varstr q.1
      let ev ← encode_varstr q.2
      pure (ek ++ ev)) d_e = some be)
    (fuel : Nat) (rest : Bytes) :
    PSBTIn.parse_loop (fuel + (d_s.length + opt_count ht? + opt_count rs? +
      opt_count ws? + d_n.length + d_e.length + 1))
      (bs ++ (bh ++ (brs ++ (bws ++ (bn ++ (be ++ (0 :: rest)))))))
      { tx_in := tx_in } =
    some (⟨tx_in, none, none, d_s, ht?, rs?, ws?, d_n, none, none, d_e⟩, rest) := by
  rw [show fuel + (d_s.length + opt_count ht? + opt_count rs? + opt_count ws? +
    d_n.length + d_e.length + 1) =
    ((((((fuel + 1) + d_e.length) + d_n.length) + opt_count ws?) +
      opt_count rs?) + opt_count ht?) + d_s.length from by omega]
  rw [in_sigs_chunk d_s _ { tx_in := tx_in } bs _ (by simpa using hswf) hbs]
  show PSBTIn.parse_loop ((((((fuel + 1) + d_e.length) + d_n.length) +
    opt_count ws?) + opt_count rs?) + opt_count ht?)
    (bh ++ (brs ++ (bws ++ (bn ++ (be ++ (0 :: rest))))))
    ⟨tx_in, none, none, d_s, none, none, none, [], none, none, []⟩ = _
  rw [in_ht_opt h4 hbh _ _ _ rfl]
  show PSBTIn.parse_loop (((((fuel + 1) + d_e.length) + d_n.length) +
    opt_count ws?) + opt_count rs?)
    (brs ++ (bws ++ (bn ++ (be ++ (0 :: rest)))))
    ⟨tx_in, none, none, d_s, ht?, none, none, [], none, none, []⟩ = _
  rw [in_rs_opt hrc hbrs _ _ _ rfl]
  show PSBTIn.parse_loop ((((fuel + 1) + d_e.length) + d_n.length) +
    opt_count ws?) (bws ++ (bn ++ (be ++ (0 :: rest))))
    ⟨tx_in, none, none, d_s, ht?, rs?, none, [], none, none, []⟩ = _
  rw [in_ws_opt hwc hbws _ _ _ rfl]
  show PSBTIn.parse_loop (((fuel + 1) + d_e.length) + d_n.length)
    (bn ++ (be ++ (0 :: rest)))
    ⟨tx_in, none, none, d_s, ht?, rs?, ws?, [], none, none, []⟩ = _
  rw [in_np_chunk d_n _ _ bn _ (by simpa using hnwf) hncond hbn]
  show PSBTIn.parse_loop ((fuel + 1) + d_e.length) (be ++ (0 :: rest))
    ⟨tx_in, none, none, d_s, ht?, rs?, ws?, d_n, none, none, []⟩ = _
  rw [in_extra_chunk d_e _ _ be _ (by simpa using hewf) hecond hbe]
  show PSBTIn.parse_loop (fuel + 1) (0 :: rest)
    ⟨tx_in, none, none, d_s, ht?, rs?, ws?, d_n, none, none, d_e⟩ = _
  rw [in_end_step]

theorem out_loop_all (rs? ws? : Option Script) (d_n : AList NamedPublicKey)
    (d_e : AList Bytes)
    (hrc : opt_holds wf_script rs?) (hwc : opt_holds wf_script ws?)
    (hnwf : alist_wf d_n)
    (hncond : ∀ q ∈ d_n, q.1 = q.2.sec_bytes ∧ q.2.sec_bytes.length = 33)
    (hewf : alist_wf d_e)
    (hecond : ∀ q ∈ d_e, key_atleast 3 q.1)
    {brs bws bn be : Bytes}
    (hbrs : script_record 0 rs? = some brs)
    (hbws : script_record 1 ws? = some bws)
    (hbn : parts_concat (fun q => NamedPublicKey.serialize q.2 [0x02]) d_n =
      some bn)
    (hbe : parts_concat (fun q => do
      let ek ← encode_varstr q.1
      let ev ← encode_varstr q.2
      pure (ek ++ ev)) d_e = some be)
    (fuel : Nat) (rest : Bytes) :
    PSBTOut.parse_loop (fuel + (opt_count rs? + opt_count ws? + d_n.length +
      d_e.length + 1)) (brs ++ (bws ++ (bn ++ (be ++ (0 :: rest))))) {} =
    some (⟨rs?, ws?, d_n, d_e⟩, rest) := by
  rw [show fuel + (opt_count rs? + opt_count ws? + d_n.length + d_e.length + 1) =
    (((((fuel + 1) + d_e.length) + d_n.length) + opt_count ws?) +
      opt_count rs?) from by omega]
  rw [out_rs_opt hrc hbrs _ _ _ rfl]
  show PSBTOut.parse_loop ((((fuel + 1) + d_e.length) + d_n.length) +
    opt_count ws?) (bws ++ (bn ++ (be ++ (0 :: rest))))
    ⟨rs?, none, [], []⟩ = _
  rw [out_ws_opt hwc hbws _ _ _ rfl]
  show PSBTOut.parse_loop (((fuel + 1) + d_e.length) + d_n.length)
    (bn ++ (be ++ (0 :: rest))) ⟨rs?, ws?, [], []⟩ = _
  rw [out_np_chunk d_n _ _ bn _ (by simpa using hnwf) hncond hbn]
  show PSBTOut.parse_loop ((fuel + 1) + d_e.length) (be ++ (0 :: rest))
    ⟨rs?, ws?, d_n, []⟩ = _
  rw [out_extra_chunk d_e _ _ be _ (by simpa using hewf) hecond hbe]
  show PSBTOut.parse_loop (fuel + 1) (0 :: rest) ⟨rs?, ws?, d_n, d_e⟩ = _
  rw [out_end_step]

theorem global_loop_all {t : Tx} (hwf : Tx.wf t) {tser : Bytes}
    (htser : Tx.serialize t = some tser)
    (d_h : AList NamedHDPublicKey) (d_e : AList Bytes)
    (hhwf : alist_wf d_h)
    (hhcond : ∀ q ∈ d_h, q.2.c5wf ∧
      HDPublicKey.raw_serialize q.2.toHDPublicKey = some q.1)
    (hewf : alist_wf d_e)
    (hecond : ∀ q ∈ d_e, key_atleast 2 q.1)
    {btx bh be : Bytes}
    (hbtx : serialize_key_value [0x00] tser = some btx)
    (hbh : parts_concat (fun q => NamedHDPublicKey.serialize q.2) d_h = some bh)
    (hbe : parts_concat (fun q => serialize_key_value q.1 q.2) d_e = some be)
    (fuel : Nat) (rest : Bytes) :
    PSBT.parse_global (fuel + (d_h.length + d_e.length + 2))
      (btx ++ (bh ++ (be ++ (0 :: rest)))) {} =
    some (⟨some t, d_h, d_e⟩, rest) := by
  rw [show fuel + (d_h.length + d_e.length + 2) =
    ((((fuel + 1) + d_e.length) + d_h.length) + 1) from by omega]
  rw [global_tx_step hwf htser hbtx _ _ {} rfl]
  show PSBT.parse_global (((fuel + 1) + d_e.length) + d_h.length)
    (bh ++ (be ++ (0 :: rest))) ⟨some t, [], []⟩ = _
  rw [global_hd_chunk d_h _ _ bh _ (by simpa using hhwf) hhcond hbh]
  show PSBT.parse_global ((fuel + 1) + d_e.length) (be ++ (0 :: rest))
    ⟨some t, d_h, []⟩ = _
  rw [global_extra_chunk d_e _ _ be _ (by simpa using hewf) hecond hbe]
  show PSBT.parse_global (fuel + 1) (0 :: rest) ⟨some t, d_h, d_e⟩ = _
  rw [global_end_step]

/-- The restricted class of PSBT inputs for the amended round-trip. -/
def PSBTIn.c5wf (pin : PSBTIn) : Prop :=
  pin.prev_tx = none ∧ pin.prev_out = none ∧
  alist_wf pin.sigs ∧ List.Sorted (· ≤ ·) (dict_keys pin.sigs) ∧
  opt_holds (fun ht => ht ≠ 0 ∧ ht < 256 ^ 4) pin.hash_type ∧
  opt_holds wf_script pin.redeem_script ∧
  opt_holds wf_script pin.witness_script ∧
  (pin.sigs = [] ∨ (pin.witness_script = none ∧ pin.redeem_script = none)) ∧
  alist_wf pin.named_pubs ∧ List.Sorted (· ≤ ·) (dict_keys pin.named_pubs) ∧
  (∀ q ∈ pin.named_pubs, q.1 = q.2.sec_bytes ∧ q.2.sec_bytes.length = 33) ∧
  pin.script_sig = none ∧ pin.witness = none ∧
  alist_wf pin.extra_map ∧ List.Sorted (· ≤ ·) (dict_keys pin.extra_map) ∧
  (∀ q ∈ pin.extra_map, key_atleast 9 q.1)

instance (pin : PSBTIn) : Decidable pin.c5wf := by
  unfold PSBTIn.c5wf
  infer_instance

theorem psbtin_init_c5 (tx_in : TxIn) (sigs : AList Bytes) (ht : Option Nat)
    (rs ws : Option Script) (nps : AList NamedPublicKey) (ex : AList Bytes) :
    PSBTIn.init tx_in none none sigs ht rs ws nps none none ex =
      Except.ok ⟨tx_in, none, none, sigs, ht, rs, ws, nps, none, none, ex⟩ := rfl

theorem sig_keys_c5 {pin : PSBTIn}
    (hsk0 : pin.sigs = [] ∨ (pin.witness_script = none ∧ pin.redeem_script = none))
    (hssort : List.Sorted (· ≤ ·) (dict_keys pin.sigs)) :
    pin.sig_keys = dict_keys pin.sigs := by
  have hsorted : sorted_keys (dict_keys pin.sigs) = dict_keys pin.sigs := by
    unfold sorted_keys
    exact List.Sorted.insertionSort_eq hssort
  unfold PSBTIn.sig_keys
  rcases hws2 : pin.witness_script with _ | ws
  · rcases hrs2 : pin.redeem_script with _ | rs
    · exact hsorted
    · dsimp only
      rcases hsk0 with hnil | ⟨-, hrsn⟩
      · rw [hnil]
        by_cases hp2 : ¬ rs.is_p2wpkh = true
        · rw [if_pos hp2]
          rw [List.filterMap_eq_nil.mpr (fun c _ => by cases c <;> rfl)]
          rfl
        · rw [if_neg hp2]
          rw [hnil] at hsorted
          exact hsorted
      · rw [hrsn] at hrs2
        cases hrs2
  · dsimp only
    rcases hsk0 with hnil | ⟨hwsn, -⟩
    · rw [hnil]
      rw [List.filterMap_eq_nil.mpr (fun c _ => by cases c <;> rfl)]
      rfl
    · rw [hwsn] at hws2
      cases hws2

set_option maxHeartbeats 2000000 in
theorem psbtin_round {pin : PSBTIn} (h : pin.c5wf) {e : Bytes}
    (he : PSBTIn.serialize pin = some e) (fuel : Nat) (rest : Bytes) :
    PSBTIn.parse (fuel + (pin.sigs.length + opt_count pin.hash_type +
      opt_count pin.redeem_script + opt_count pin.witness_script +
      pin.named_pubs.length + pin.extra_map.length + 1)) (e ++ rest)
      pin.tx_in = some (pin, rest) := by
  obtain ⟨hpt, hpo, hswf, hssort, hht, hrc, hwc, hsk0, hnwf, hnsort, hncond,
    hss, hw, hewf, hesort, hecond⟩ := h
  have hsk := sig_keys_c5 hsk0 hssort
  unfold PSBTIn.serialize at he
  rw [hpt, hpo] at he
  dsimp only at he
  simp only [opt_some_bind] at he
  rw [hsk] at he
  rw [opt_bind_eq_some] at he
  obtain ⟨part_sigs, hsigs, he⟩ := he
  obtain ⟨bs, hbs, hps⟩ := sig_part_eq hswf hsigs
  subst hps
  try dsimp only at he
  rcases hx : pin.hash_type with _ | ht
  · rw [hx] at he
    try dsimp only at he
    try simp only [opt_some_bind] at he
    rcases hrs3 : pin.redeem_script with _ | rs
    · rw [hrs3] at he
      try dsimp only at he
      try simp only [opt_some_bind] at he
      rcases hws3 : pin.witness_script with _ | ws
      · rw [hws3] at he
        try dsimp only at he
        try simp only [opt_some_bind] at he
        rw [opt_bind_eq_some] at he
        obtain ⟨part_np, hnpp, he⟩ := he
        obtain ⟨bn, hbn, hpnp⟩ := np_part_eq hnwf hnsort [0x06] hnpp
        subst hpnp
        try dsimp only at he
        rw [hss] at he
        try dsimp only at he
        try simp only [opt_some_bind] at he
        rw [hw] at he
        try dsimp only at he
        try simp only [opt_some_bind] at he
        rw [opt_bind_eq_some] at he
        obtain ⟨part_extra, hexp, he⟩ := he
        obtain ⟨be, hbe, hpex⟩ := extra_part_eq hewf hesort hexp
        subst hpex
        try dsimp only at he
        cases he
        unfold PSBTIn.parse
        rw [show ((((part_sigs ++ bn) ++ be) ++ [0]) ++ rest) = part_sigs ++ ([] ++ ([] ++ ([] ++ (bn ++ (be ++ (0 :: rest)))))) from by simp [List.append_assoc]]
        rw [in_loop_all pin.tx_in pin.sigs (none : Option Nat) (none : Option Script) (none : Option Script) pin.named_pubs pin.extra_map hswf True.intro True.intro True.intro hnwf hncond hewf hecond hbs rfl rfl rfl hbn hbe fuel rest]
        rw [opt_some_bind]
        dsimp only
        rw [psbtin_init_c5]
        have hpin : pin = ⟨pin.tx_in, pin.prev_tx, pin.prev_out, pin.sigs, pin.hash_type, pin.redeem_script, pin.witness_script, pin.named_pubs, pin.script_sig, pin.witness, pin.extra_map⟩ := rfl
        rw [hpt, hpo, hss, hw, hx, hrs3, hws3] at hpin
        conv_rhs => rw [hpin]
      · rw [hws3] at he
        try dsimp only at he
        rcases hraw5 : Script.raw_serialize ws with _ | raw5
        · rw [hraw5] at he
          try dsimp only at he
          cases he
        · rw [hraw5] at he
          try simp only [opt_some_bind] at he
          rw [opt_bind_eq_some] at he
          obtain ⟨y3, hy3, he⟩ := he
          rcases hbws0 : serialize_key_value [0x05] raw5 with _ | bws
          · rw [hbws0] at hy3
            cases hy3
          · rw [hbws0] at hy3
            cases hy3
            try dsimp only at he
            rw [opt_bind_eq_some] at he
            obtain ⟨part_np, hnpp, he⟩ := he
            obtain ⟨bn, hbn, hpnp⟩ := np_part_eq hnwf hnsort [0x06] hnpp
            subst hpnp
            try dsimp only at he
            rw [hss] at he
            try dsimp only at he
            try simp only [opt_some_bind] at he
            rw [hw] at he
            try dsimp only at he
            try simp only [opt_some_bind] at he
            rw [opt_bind_eq_some] at he
            obtain ⟨part_extra, hexp, he⟩ := he
            obtain ⟨be, hbe, hpex⟩ := extra_part_eq hewf hesort hexp
            subst hpex
            try dsimp only at he
            cases he
            unfold PSBTIn.parse
            rw [show (((((part_sigs ++ bws) ++ bn) ++ be) ++ [0]) ++ rest) = part_sigs ++ ([] ++ ([] ++ (bws ++ (bn ++ (be ++ (0 :: rest)))))) from by simp [List.append_assoc]]
            rw [in_loop_all pin.tx_in pin.sigs (none : Option Nat) (none : Option Script) (some ws) pin.named_pubs pin.extra_map hswf True.intro True.intro (by rw [hws3] at hwc; exact hwc) hnwf hncond hewf hecond hbs rfl rfl (by show ((Script.raw_serialize ws).bind fun raw => serialize_key_value [5] raw) = some bws; rw [hraw5]; exact hbws0) hbn hbe fuel rest]
            rw [opt_some_bind]
            dsimp only
            rw [psbtin_init_c5]
            have hpin : pin = ⟨pin.tx_in, pin.prev_tx, pin.prev_out, pin.sigs, pin.hash_type, pin.redeem_script, pin.witness_script, pin.named_pubs, pin.script_sig, pin.witness, pin.extra_map⟩ := rfl
            rw [hpt, hpo, hss, hw, hx, hrs3, hws3] at hpin
            conv_rhs => rw [hpin]
    · rw [hrs3] at he
      try dsimp only at he
      rcases hraw4 : Script.raw_serialize rs with _ | raw4
      · rw [hraw4] at he
        try dsimp only at he
        cases he
      · rw [hraw4] at he
        try simp only [opt_some_bind] at he
        rw [opt_bind_eq_some] at he
        obtain ⟨y2, hy2, he⟩ := he
        rcases hbrs0 : serialize_key_value [0x04] raw4 with _ | brs
        · rw [hbrs0] at hy2
          cases hy2
        · rw [hbrs0] at hy2
          cases hy2
          try dsimp only at he
          rcases hws3 : pin.witness_script with _ | ws
          · rw [hws3] at he
            try dsimp only at he
            try simp only [opt_some_bind] at he
            rw [opt_bind_eq_some] at he
            obtain ⟨part_np, hnpp, he⟩ := he
            obtain ⟨bn, hbn, hpnp⟩ := np_part_eq hnwf hnsort [0x06] hnpp
            subst hpnp
            try dsimp only at he
            rw [hss] at he
            try dsimp only at he
            try simp only [opt_some_bind] at he
            rw [hw] at he
            try dsimp only at he
            try simp only [opt_some_bind] at he
            rw [opt_bind_eq_some] at he
            obtain ⟨part_extra, hexp, he⟩ := he
            obtain ⟨be, hbe, hpex⟩ := extra_part_eq hewf hesort hexp
            subst hpex
            try dsimp only at he
            cases he
            unfold PSBTIn.parse
            rw [show (((((part_sigs ++ brs) ++ bn) ++ be) ++ [0]) ++ rest) = part_sigs ++ ([] ++ (brs ++ ([] ++ (bn ++ (be ++ (0 :: rest)))))) from by simp [List.append_assoc]]
            rw [in_loop_all pin.tx_in pin.sigs (none : Option Nat) (some rs) (none : Option Script) pin.named_pubs pin.extra_map hswf True.intro (by rw [hrs3] at hrc; exact hrc) True.intro hnwf hncond hewf hecond hbs rfl (by show ((Script.raw_serialize rs).bind fun raw => serialize_key_value [4] raw) = some brs; rw [hraw4]; exact hbrs0) rfl hbn hbe fuel rest]
            rw [opt_some_bind]
            dsimp only
            rw [psbtin_init_c5]
            have hpin : pin = ⟨pin.tx_in, pin.prev_tx, pin.prev_out, pin.sigs, pin.hash_type, pin.redeem_script, pin.witness_script, pin.named_pubs, pin.script_sig, pin.witness, pin.extra_map⟩ := rfl
            rw [hpt, hpo, hss, hw, hx, hrs3, hws3] at hpin
            conv_rhs => rw [hpin]
          · rw [hws3] at he
            try dsimp only at he
            rcases hraw5 : Script.raw_serialize ws with _ | raw5
            · rw [hraw5] at he
              try dsimp only at he
              cases he
            · rw [hraw5] at he
              try simp only [opt_some_bind] at he
              rw [opt_bind_eq_some] at he
              obtain ⟨y3, hy3, he⟩ := he
              rcases hbws0 : serialize_key_value [0x05] raw5 with _ | bws
              · rw [hbws0] at hy3
                cases hy3
              · rw [hbws0] at hy3
                cases hy3
                try dsimp only at he
                rw [opt_bind_eq_some] at he
                obtain ⟨part_np, hnpp, he⟩ := he
                obtain ⟨bn, hbn, hpnp⟩ := np_part_eq hnwf hnsort [0x06] hnpp
                subst hpnp
                try dsimp only at he
                rw [hss] at he
                try dsimp only at he
                try simp only [opt_some_bind] at he
                rw [hw] at he
                try dsimp only at he
                try simp only [opt_some_bind] at he
                rw [opt_bind_eq_some] at he
                obtain ⟨part_extra, hexp, he⟩ := he
                obtain ⟨be, hbe, hpex⟩ := extra_part_eq hewf hesort hexp
                subst hpex
                try dsimp only at he
                cases he
                unfold PSBTIn.parse
                rw [show ((((((part_sigs ++ brs) ++ bws) ++ bn) ++ be) ++ [0]) ++ rest) = part_sigs ++ ([] ++ (brs ++ (bws ++ (bn ++ (be ++ (0 :: rest)))))) from by simp [List.append_assoc]]
                rw [in_loop_all pin.tx_in pin.sigs (none : Option Nat) (some rs) (some ws) pin.named_pubs pin.extra_map hswf True.intro (by rw [hrs3] at hrc; exact hrc) (by rw [hws3] at hwc; exact hwc) hnwf hncond hewf hecond hbs rfl (by show ((Script.raw_serialize rs).bind fun raw => serialize_key_value [4] raw) = some brs; rw [hraw4]; exact hbrs0) (by show ((Script.raw_serialize ws).bind fun raw => serialize_key_value [5] raw) = some bws; rw [hraw5]; exact hbws0) hbn hbe fuel rest]
                rw [opt_some_bind]
                dsimp only
                rw [psbtin_init_c5]
                have hpin : pin = ⟨pin.tx_in, pin.prev_tx, pin.prev_out, pin.sigs, pin.hash_type, pin.redeem_script, pin.witness_script, pin.named_pubs, pin.script_sig, pin.witness, pin.extra_map⟩ := rfl
                rw [hpt, hpo, hss, hw, hx, hrs3, hws3] at hpin
                conv_rhs => rw [hpin]
  · rw [hx] at he
    try dsimp only at he
    have hne : ht ≠ 0 := by
      rw [hx] at hht
      exact hht.1
    rw [if_pos hne] at he
    rw [opt_bind_eq_some] at he
    obtain ⟨y1, hy1, he⟩ := he
    rcases hbh0 : serialize_key_value [0x03] (int_to_little_endian ht 4) with _ | bh
    · rw [hbh0] at hy1
      cases hy1
    · rw [hbh0] at hy1
      cases hy1
      try dsimp only at he
      rcases hrs3 : pin.redeem_script with _ | rs
      · rw [hrs3] at he
        try dsimp only at he
        try simp only [opt_some_bind] at he
        rcases hws3 : pin.witness_script with _ | ws
        · rw [hws3] at he
          try dsimp only at he
          try simp only [opt_some_bind] at he
          rw [opt_bind_eq_some] at he
          obtain ⟨part_np, hnpp, he⟩ := he
          obtain ⟨bn, hbn, hpnp⟩ := np_part_eq hnwf hnsort [0x06] hnpp
          subst hpnp
          try dsimp only at he
          rw [hss] at he
          try dsimp only at he
          try simp only [opt_some_bind] at he
          rw [hw] at he
          try dsimp only at he
          try simp only [opt_some_bind] at he
          rw [opt_bind_eq_some] at he
          obtain ⟨part_extra, hexp, he⟩ := he
          obtain ⟨be, hbe, hpex⟩ := extra_part_eq hewf hesort hexp
          subst hpex
          try dsimp only at he
          cases he
          unfold PSBTIn.parse
          rw [show (((((part_sigs ++ bh) ++ bn) ++ be) ++ [0]) ++ rest) = part_sigs ++ (bh ++ ([] ++ ([] ++ (bn ++ (be ++ (0 :: rest)))))) from by simp [List.append_assoc]]
          rw [in_loop_all pin.tx_in pin.sigs (some ht) (none : Option Script) (none : Option Script) pin.named_pubs pin.extra_map hswf (by rw [hx] at hht; exact hht.2) True.intro True.intro hnwf hncond hewf hecond hbs hbh0 rfl rfl hbn hbe fuel rest]
          rw [opt_some_bind]
          dsimp only
          rw [psbtin_init_c5]
          have hpin : pin = ⟨pin.tx_in, pin.prev_tx, pin.prev_out, pin.sigs, pin.hash_type, pin.redeem_script, pin.witness_script, pin.named_pubs, pin.script_sig, pin.witness, pin.extra_map⟩ := rfl
          rw [hpt, hpo, hss, hw, hx, hrs3, hws3] at hpin
          conv_rhs => rw [hpin]
        · rw [hws3] at he
          try dsimp only at he
          rcases hraw5 : Script.raw_serialize ws with _ | raw5
          · rw [hraw5] at he
            try dsimp only at he
            cases he
          · rw [hraw5] at he
            try simp only [opt_some_bind] at he
            rw [opt_bind_eq_some] at he
            obtain ⟨y3, hy3, he⟩ := he
            rcases hbws0 : serialize_key_value [0x05] raw5 with _ | bws
            · rw [hbws0] at hy3
              cases hy3
            · rw [hbws0] at hy3
              cases hy3
              try dsimp only at he
              rw [opt_bind_eq_some] at he
              obtain ⟨part_np, hnpp, he⟩ := he
              obtain ⟨bn, hbn, hpnp⟩ := np_part_eq hnwf hnsort [0x06] hnpp
              subst hpnp
              try dsimp only at he
              rw [hss] at he
              try dsimp only at he
              try simp only [opt_some_bind] at he
              rw [hw] at he
              try dsimp only at he
              try simp only [opt_some_bind] at he
              rw [opt_bind_eq_some] at he
              obtain ⟨part_extra, hexp, he⟩ := he
              obtain ⟨be, hbe, hpex⟩ := extra_part_eq hewf hesort hexp
              subst hpex
              try dsimp only at he
              cases he
              unfold PSBTIn.parse
              rw [show ((((((part_sigs ++ bh) ++ bws) ++ bn) ++ be) ++ [0]) ++ rest) = part_sigs ++ (bh ++ ([] ++ (bws ++ (bn ++ (be ++ (0 :: rest)))))) from by simp [List.append_assoc]]
              rw [in_loop_all pin.tx_in pin.sigs (some ht) (none : Option Script) (some ws) pin.named_pubs pin.extra_map hswf (by rw [hx] at hht; exact hht.2) True.intro (by rw [hws3] at hwc; exact hwc) hnwf hncond hewf hecond hbs hbh0 rfl (by show ((Script.raw_serialize ws).bind fun raw => serialize_key_value [5] raw) = some bws; rw [hraw5]; exact hbws0) hbn hbe fuel rest]
              rw [opt_some_bind]
              dsimp only
              rw [psbtin_init_c5]
              have hpin : pin = ⟨pin.tx_in, pin.prev_tx, pin.prev_out, pin.sigs, pin.hash_type, pin.redeem_script, pin.witness_script, pin.named_pubs, pin.script_sig, pin.witness, pin.extra_map⟩ := rfl
              rw [hpt, hpo, hss, hw, hx, hrs3, hws3] at hpin
              conv_rhs => rw [hpin]
      · rw [hrs3] at he
        try dsimp only at he
        rcases hraw4 : Script.raw_serialize rs with _ | raw4
        · rw [hraw4] at he
          try dsimp only at he
          cases he
        · rw [hraw4] at he
          try simp only [opt_some_bind] at he
          rw [opt_bind_eq_some] at he
          obtain ⟨y2, hy2, he⟩ := he
          rcases hbrs0 : serialize_key_value [0x04] raw4 with _ | brs
          · rw [hbrs0] at hy2
            cases hy2
          · rw [hbrs0] at hy2
            cases hy2
            try dsimp only at he
            rcases hws3 : pin.witness_script with _ | ws
            · rw [hws3] at he
              try dsimp only at he
              try simp only [opt_some_bind] at he
              rw [opt_bind_eq_some] at he
              obtain ⟨part_np, hnpp, he⟩ := he
              obtain ⟨bn, hbn, hpnp⟩ := np_part_eq hnwf hnsort [0x06] hnpp
              subst hpnp
              try dsimp only at he
              rw [hss] at he
              try dsimp only at he
              try simp only [opt_some_bind] at he
              rw [hw] at he
              try dsimp only at he
              try simp only [opt_some_bind] at he
              rw [opt_bind_eq_some] at he
              obtain ⟨part_extra, hexp, he⟩ := he
              obtain ⟨be, hbe, hpex⟩ := extra_part_eq hewf hesort hexp
              subst hpex
              try dsimp only at he
              cases he
              unfold PSBTIn.parse
              rw [show ((((((part_sigs ++ bh) ++ brs) ++ bn) ++ be) ++ [0]) ++ rest) = part_sigs ++ (bh ++ (brs ++ ([] ++ (bn ++ (be ++ (0 :: rest)))))) from by simp [List.append_assoc]]
              rw [in_loop_all pin.tx_in pin.sigs (some ht) (some rs) (none : Option Script) pin.named_pubs pin.extra_map hswf (by rw [hx] at hht; exact hht.2) (by rw [hrs3] at hrc; exact hrc) True.intro hnwf hncond hewf hecond hbs hbh0 (by show ((Script.raw_serialize rs).bind fun raw => serialize_key_value [4] raw) = some brs; rw [hraw4]; exact hbrs0) rfl hbn hbe fuel rest]
              rw [opt_some_bind]
              dsimp only
              rw [psbtin_init_c5]
              have hpin : pin = ⟨pin.tx_in, pin.prev_tx, pin.prev_out, pin.sigs, pin.hash_type, pin.redeem_script, pin.witness_script, pin.named_pubs, pin.script_sig, pin.witness, pin.extra_map⟩ := rfl
              rw [hpt, hpo, hss, hw, hx, hrs3, hws3] at hpin
              conv_rhs => rw [hpin]
            · rw [hws3] at he
              try dsimp only at he
              rcases hraw5 : Script.raw_serialize ws with _ | raw5
              · rw [hraw5] at he
                try dsimp only at he
                cases he
              · rw [hraw5] at he
                try simp only [opt_some_bind] at he
                rw [opt_bind_eq_some] at he
                obtain ⟨y3, hy3, he⟩ := he
                rcases hbws0 : serialize_key_value [0x05] raw5 with _ | bws
                · rw [hbws0] at hy3
                  cases hy3
                · rw [hbws0] at hy3
                  cases hy3
                  try dsimp only at he
                  rw [opt_bind_eq_some] at he
                  obtain ⟨part_np, hnpp, he⟩ := he
                  obtain ⟨bn, hbn, hpnp⟩ := np_part_eq hnwf hnsort [0x06] hnpp
                  subst hpnp
                  try dsimp only at he
                  rw [hss] at he
                  try dsimp only at he
                  try simp only [opt_some_bind] at he
                  rw [hw] at he
                  try dsimp only at he
                  try simp only [opt_some_bind] at he
                  rw [opt_bind_eq_some] at he
                  obtain ⟨part_extra, hexp, he⟩ := he
                  obtain ⟨be, hbe, hpex⟩ := extra_part_eq hewf hesort hexp
                  subst hpex
                  try dsimp only at he
                  cases he
                  unfold PSBTIn.parse
                  rw [show (((((((part_sigs ++ bh) ++ brs) ++ bws) ++ bn) ++ be) ++ [0]) ++ rest) = part_sigs ++ (bh ++ (brs ++ (bws ++ (bn ++ (be ++ (0 :: rest)))))) from by simp [List.append_assoc]]
                  rw [in_loop_all pin.tx_in pin.sigs (some ht) (some rs) (some ws) pin.named_pubs pin.extra_map hswf (by rw [hx] at hht; exact hht.2) (by rw [hrs3] at hrc; exact hrc) (by rw [hws3] at hwc; exact hwc) hnwf hncond hewf hecond hbs hbh0 (by show ((Script.raw_serialize rs).bind fun raw => serialize_key_value [4] raw) = some brs; rw [hraw4]; exact hbrs0) (by show ((Script.raw_serialize ws).bind fun raw => serialize_key_value [5] raw) = some bws; rw [hraw5]; exact hbws0) hbn hbe fuel rest]
                  rw [opt_some_bind]
                  dsimp only
                  rw [psbtin_init_c5]
                  have hpin : pin = ⟨pin.tx_in, pin.prev_tx, pin.prev_out, pin.sigs, pin.hash_type, pin.redeem_script, pin.witness_script, pin.named_pubs, pin.script_sig, pin.witness, pin.extra_map⟩ := rfl
                  rw [hpt, hpo, hss, hw, hx, hrs3, hws3] at hpin
                  conv_rhs => rw [hpin]

/-- The restricted class of PSBT outputs for the amended round-trip. -/
def PSBTOut.c5wf (po : PSBTOut) : Prop :=
  opt_holds wf_script po.redeem_script ∧ opt_holds wf_script po.witness_script ∧
  alist_wf po.named_pubs ∧ List.Sorted (· ≤ ·) (dict_keys po.named_pubs) ∧
  (∀ q ∈ po.named_pubs, q.1 = q.2.sec_bytes ∧ q.2.sec_bytes.length = 33) ∧
  alist_wf po.extra_map ∧ List.Sorted (· ≤ ·) (dict_keys po.extra_map) ∧
  (∀ q ∈ po.extra_map, key_atleast 3 q.1)

instance (po : PSBTOut) : Decidable po.c5wf := by
  unfold PSBTOut.c5wf
  infer_instance

theorem psbtout_init_eq (po : PSBTOut) (hval : po.validate = Except.ok ()) :
    PSBTOut.init po.tx_out po.redeem_script po.witness_script po.named_pubs
      po.extra_map = Except.ok po := by
  show (do
    PSBTOut.validate po
    return po : Except Err PSBTOut) = Except.ok po
  rw [hval]
  rfl

set_option maxHeartbeats 1000000 in
theorem psbtout_round {po : PSBTOut} (h : po.c5wf)
    (hval : PSBTOut.validate po = Except.ok ()) {e : Bytes}
    (he : PSBTOut.serialize po = some e) (fuel : Nat) (rest : Bytes) :
    PSBTOut.parse (fuel + (opt_count po.redeem_script +
      opt_count po.witness_script + po.named_pubs.length +
      po.extra_map.length + 1)) (e ++ rest) po.tx_out = some (po, rest) := by
  obtain ⟨hrc, hwc, hnwf, hnsort, hncond, hewf, hesort, hecond⟩ := h
  unfold PSBTOut.serialize at he
  rcases hrs3 : po.redeem_script with _ | rs
  · rw [hrs3] at he
    try dsimp only at he
    try simp only [opt_some_bind] at he
    rcases hws3 : po.witness_script with _ | ws
    · rw [hws3] at he
      try dsimp only at he
      try simp only [opt_some_bind] at he
      rw [opt_bind_eq_some] at he
      obtain ⟨part_np, hnpp, he⟩ := he
      obtain ⟨bn, hbn, hpnp⟩ := np_part_eq hnwf hnsort [0x02] hnpp
      rw [hpnp] at he
      try dsimp only at he
      rw [opt_bind_eq_some] at he
      obtain ⟨part_extra, hexp, he⟩ := he
      obtain ⟨be, hbe, hpex⟩ := extra_part_eq hewf hesort hexp
      rw [hpex] at he
      try dsimp only at he
      cases he
      unfold PSBTOut.parse
      rw [show (((([] ++ bn) ++ be) ++ [0]) ++ rest) = [] ++ ([] ++ (bn ++ (be ++ (0 :: rest)))) from by simp [List.append_assoc]]
      rw [out_loop_all (none : Option Script) (none : Option Script) po.named_pubs po.extra_map True.intro True.intro hnwf hncond hewf hecond rfl rfl hbn hbe fuel rest]
      rw [opt_some_bind]
      dsimp only
      have hinit := psbtout_init_eq po hval
      rw [hrs3, hws3] at hinit
      rw [hinit]
    · rw [hws3] at he
      try dsimp only at he
      rcases hraw5 : Script.raw_serialize ws with _ | raw5
      · rw [hraw5] at he
        try dsimp only at he
        cases he
      · rw [hraw5] at he
        try simp only [opt_some_bind] at he
        rw [opt_bind_eq_some] at he
        obtain ⟨y3, hy3, he⟩ := he
        rcases hbws0 : serialize_key_value [0x01] raw5 with _ | bws
        · rw [hbws0] at hy3
          cases hy3
        · rw [hbws0] at hy3
          cases hy3
          try dsimp only at he
          rw [opt_bind_eq_some] at he
          obtain ⟨part_np, hnpp, he⟩ := he
          obtain ⟨bn, hbn, hpnp⟩ := np_part_eq hnwf hnsort [0x02] hnpp
          rw [hpnp] at he
          try dsimp only at he
          rw [opt_bind_eq_some] at he
          obtain ⟨part_extra, hexp, he⟩ := he
          obtain ⟨be, hbe, hpex⟩ := extra_part_eq hewf hesort hexp
          rw [hpex] at he
          try dsimp only at he
          cases he
          unfold PSBTOut.parse
          rw [show ((((([] ++ bws) ++ bn) ++ be) ++ [0]) ++ rest) = [] ++ (bws ++ (bn ++ (be ++ (0 :: rest)))) from by simp [List.append_assoc]]
          rw [out_loop_all (none : Option Script) (some ws) po.named_pubs po.extra_map True.intro (by rw [hws3] at hwc; exact hwc) hnwf hncond hewf hecond rfl (by show ((Script.raw_serialize ws).bind fun raw => serialize_key_value [1] raw) = some bws; rw [hraw5]; exact hbws0) hbn hbe fuel rest]
          rw [opt_some_bind]
          dsimp only
          have hinit := psbtout_init_eq po hval
          rw [hrs3, hws3] at hinit
          rw [hinit]
  · rw [hrs3] at he
    try dsimp only at he
    rcases hraw4 : Script.raw_serialize rs with _ | raw4
    · rw [hraw4] at he
      try dsimp only at he
      cases he
    · rw [hraw4] at he
      try simp only [opt_some_bind] at he
      rw [opt_bind_eq_some] at he
      obtain ⟨brs, hbrs0, he⟩ := he
      try dsimp only at he
      rcases hws3 : po.witness_script with _ | ws
      · rw [hws3] at he
        try dsimp only at he
        try simp only [opt_some_bind] at he
        rw [opt_bind_eq_some] at he
        obtain ⟨part_np, hnpp, he⟩ := he
        obtain ⟨bn, hbn, hpnp⟩ := np_part_eq hnwf hnsort [0x02] hnpp
        rw [hpnp] at he
        try dsimp only at he
        rw [opt_bind_eq_some] at he
        obtain ⟨part_extra, hexp, he⟩ := he
        obtain ⟨be, hbe, hpex⟩ := extra_part_eq hewf hesort hexp
        rw [hpex] at he
        try dsimp only at he
        cases he
        unfold PSBTOut.parse
        rw [show ((((brs ++ bn) ++ be) ++ [0]) ++ rest) = brs ++ ([] ++ (bn ++ (be ++ (0 :: rest)))) from by simp [List.append_assoc]]
        rw [out_loop_all (some rs) (none : Option Script) po.named_pubs po.extra_map (by rw [hrs3] at hrc; exact hrc) True.intro hnwf hncond hewf hecond (by show ((Script.raw_serialize rs).bind fun raw => serialize_key_value [0] raw) = some brs; rw [hraw4]; exact hbrs0) rfl hbn hbe fuel rest]
        rw [opt_some_bind]
        dsimp only
        have hinit := psbtout_init_eq po hval
        rw [hrs3, hws3] at hinit
        rw [hinit]
      · rw [hws3] at he
        try dsimp only at he
        rcases hraw5 : Script.raw_serialize ws with _ | raw5
        · rw [hraw5] at he
          try dsimp only at he
          cases he
        · rw [hraw5] at he
          try simp only [opt_some_bind] at he
          rw [opt_bind_eq_some] at he
          obtain ⟨y3, hy3, he⟩ := he
          rcases hbws0 : serialize_key_value [0x01] raw5 with _ | bws
          · rw [hbws0] at hy3
            cases hy3
          · rw [hbws0] at hy3
            cases hy3
            try dsimp only at he
            rw [opt_bind_eq_some] at he
            obtain ⟨part_np, hnpp, he⟩ := he
            obtain ⟨bn, hbn, hpnp⟩ := np_part_eq hnwf hnsort [0x02] hnpp
            rw [hpnp] at he
            try dsimp only at he
            rw [opt_bind_eq_some] at he
            obtain ⟨part_extra, hexp, he⟩ := he
            obtain ⟨be, hbe, hpex⟩ := extra_part_eq hewf hesort hexp
            rw [hpex] at he
            try dsimp only at he
            cases he
            unfold PSBTOut.parse
            rw [show (((((brs ++ bws) ++ bn) ++ be) ++ [0]) ++ rest) = brs ++ (bws ++ (bn ++ (be ++ (0 :: rest)))) from by simp [List.append_assoc]]
            rw [out_loop_all (some rs) (some ws) po.named_pubs po.extra_map (by rw [hrs3] at hrc; exact hrc) (by rw [hws3] at hwc; exact hwc) hnwf hncond hewf hecond (by show ((Script.raw_serialize rs).bind fun raw => serialize_key_value [0] raw) = some brs; rw [hraw4]; exact hbrs0) (by show ((Script.raw_serialize ws).bind fun raw => serialize_key_value [1] raw) = some bws; rw [hraw5]; exact hbws0) hbn hbe fuel rest]
            rw [opt_some_bind]
            dsimp only
            have hinit := psbtout_init_eq po hval
            rw [hrs3, hws3] at hinit
            rw [hinit]

/-- Number of records a restricted-class input serializes (plus terminator). -/
def PSBTIn.c5records (pin : PSBTIn) : Nat :=
  pin.sigs.length + opt_count pin.hash_type + opt_count pin.redeem_script +
    opt_count pin.witness_script + pin.named_pubs.length +
    pin.extra_map.length + 1

/-- Number of records a restricted-class output serializes (plus
terminator). -/
def PSBTOut.c5records (po : PSBTOut) : Nat :=
  opt_count po.redeem_script + opt_count po.witness_script +
    po.named_pubs.length + po.extra_map.length + 1

theorem psbtin_round2 {pin : PSBTIn} (h : pin.c5wf) {e : Bytes}
    (he : PSBTIn.serialize pin = some e) (fuel : Nat)
    (hfuel : pin.c5records ≤ fuel) (rest : Bytes) :
    PSBTIn.parse fuel (e ++ rest) pin.tx_in = some (pin, rest) := by
  obtain ⟨d, rfl⟩ : ∃ d, fuel = d + pin.c5records := ⟨fuel - pin.c5records,
    by omega⟩
  exact psbtin_round h he d rest

theorem psbtout_round2 {po : PSBTOut} (h : po.c5wf)
    (hval : PSBTOut.validate po = Except.ok ()) {e : Bytes}
    (he : PSBTOut.serialize po = some e) (fuel : Nat)
    (hfuel : po.c5records ≤ fuel) (rest : Bytes) :
    PSBTOut.parse fuel (e ++ rest) po.tx_out = some (po, rest) := by
  obtain ⟨d, rfl⟩ : ∃ d, fuel = d + po.c5records := ⟨fuel - po.c5records,
    by omega⟩
  exact psbtout_round h hval he d rest

theorem global_loop_all2 {t : Tx} (hwf : Tx.wf t) {tser : Bytes}
    (htser : Tx.serialize t = some tser)
    (d_h : AList NamedHDPublicKey) (d_e : AList Bytes)
    (hhwf : alist_wf d_h)
    (hhcond : ∀ q ∈ d_h, q.2.c5wf ∧
      HDPublicKey.raw_serialize q.2.toHDPublicKey = some q.1)
    (hewf : alist_wf d_e) (hecond : ∀ q ∈ d_e, key_atleast 2 q.1)
    {btx bh be : Bytes}
    (hbtx : serialize_key_value [0x00] tser = some btx)
    (hbh : parts_concat (fun q => NamedHDPublicKey.serialize q.2) d_h = some bh)
    (hbe : parts_concat (fun q => serialize_key_value q.1 q.2) d_e = some be)
    (fuel : Nat) (hfuel : d_h.length + d_e.length + 2 ≤ fuel) (rest : Bytes) :
    PSBT.parse_global fuel (btx ++ (bh ++ (be ++ (0 :: rest)))) {} =
    some (⟨some t, d_h, d_e⟩, rest) := by
  obtain ⟨d, rfl⟩ : ∃ d, fuel = d + (d_h.length + d_e.length + 2) :=
    ⟨fuel - (d_h.length + d_e.length + 2), by omega⟩
  exact global_loop_all hwf htser d_h d_e hhwf hhcond hewf hecond hbtx hbh hbe
    d rest

theorem psbt_ins_chain (pins : List PSBTIn) :
    ∀ (b rest : Bytes) (fuel : Nat),
    (∀ pin ∈ pins, pin.c5wf) →
    (∀ pin ∈ pins, PSBTIn.c5records pin ≤ fuel) →
    parts_concat PSBTIn.serialize pins = some b →
    PSBT.parse_ins fuel (pins.map (·.tx_in)) (b ++ rest) = some (pins, rest) := by
  induction pins with
  | nil =>
    intro b rest fuel _ _ hb
    cases hb
    rfl
  | cons pin pins ih =>
    intro b rest fuel hwf hfuel hb
    simp only [parts_concat] at hb
    rcases he : PSBTIn.serialize pin with _ | e
    · rw [he] at hb
      cases hb
    · rw [he] at hb
      rcases hrest : parts_concat PSBTIn.serialize pins with _ | r
      · rw [hrest] at hb
        cases hb
      · rw [hrest] at hb
        cases hb
        rw [List.append_assoc]
        show Option.bind (PSBTIn.parse fuel (e ++ (r ++ rest)) pin.tx_in)
          (fun p => Option.bind (PSBT.parse_ins fuel (pins.map (·.tx_in)) p.2)
            (fun q => some (p.1 :: q.1, q.2))) = some (pin :: pins, rest)
        rw [psbtin_round2 (hwf pin (by simp)) he fuel (hfuel pin (by simp))
          (r ++ rest)]
        show Option.bind (PSBT.parse_ins fuel (pins.map (·.tx_in)) (r ++ rest))
          (fun q => some (pin :: q.1, q.2)) = some (pin :: pins, rest)
        rw [ih r rest fuel (fun j hj => hwf j (List.mem_cons_of_mem _ hj))
          (fun j hj => hfuel j (List.mem_cons_of_mem _ hj)) hrest]
        rfl

theorem psbt_outs_chain (pos : List PSBTOut) :
    ∀ (b rest : Bytes) (fuel : Nat),
    (∀ po ∈ pos, po.c5wf) →
    (∀ po ∈ pos, po.validate = Except.ok ()) →
    (∀ po ∈ pos, PSBTOut.c5records po ≤ fuel) →
    parts_concat PSBTOut.serialize pos = some b →
    PSBT.parse_outs fuel (pos.map (·.tx_out)) (b ++ rest) = some (pos, rest) := by
  induction pos with
  | nil =>
    intro b rest fuel _ _ _ hb
    cases hb
    rfl
  | cons po pos ih =>
    intro b rest fuel hwf hval hfuel hb
    simp only [parts_concat] at hb
    rcases he : PSBTOut.serialize po with _ | e
    · rw [he] at hb
      cases hb
    · rw [he] at hb
      rcases hrest : parts_concat PSBTOut.serialize pos with _ | r
      · rw [hrest] at hb
        cases hb
      · rw [hrest] at hb
        cases hb
        rw [List.append_assoc]
        show Option.bind (PSBTOut.parse fuel (e ++ (r ++ rest)) po.tx_out)
          (fun p => Option.bind (PSBT.parse_outs fuel (pos.map (·.tx_out)) p.2)
            (fun q => some (p.1 :: q.1, q.2))) = some (po :: pos, rest)
        rw [psbtout_round2 (hwf po (by simp)) (hval po (by simp)) he fuel
          (hfuel po (by simp)) (r ++ rest)]
        show Option.bind (PSBT.parse_outs fuel (pos.map (·.tx_out)) (r ++ rest))
          (fun q => some (po :: q.1, q.2)) = some (po :: pos, rest)
        rw [ih r rest fuel (fun j hj => hwf j (List.mem_cons_of_mem _ hj))
          (fun j hj => hval j (List.mem_cons_of_mem _ hj))
          (fun j hj => hfuel j (List.mem_cons_of_mem _ hj)) hrest]
        rfl

theorem forM_validate_outs (g : PSBTOut → Except Err Unit) :
    ∀ (outs : List PSBTOut),
    (outs.forM fun po => do
      po.validate
      g po) = Except.ok () →
    ∀ po ∈ outs, po.validate = Except.ok () := by
  intro outs
  induction outs with
  | nil =>
    intro _ po hpo
    cases hpo
  | cons q qs ih =>
    intro h po hpo
    rw [forM_cons_except] at h
    rw [except_bind_ok] at h
    obtain ⟨u1, h1, h2⟩ := h
    rw [List.mem_cons] at hpo
    rcases hpo with hpo | hpo
    · subst hpo
      rw [except_bind_ok] at h1
      obtain ⟨u2, h3, -⟩ := h1
      cases u2
      exact h3
    · exact ih h2 po hpo

theorem validate_ok_outs {fuel : Nat} {p p' : PSBT}
    (h : PSBT.validate fuel p = Except.ok p') :
    ∀ po ∈ p.psbt_outs, po.validate = Except.ok () := by
  unfold PSBT.validate at h
  rw [err_if_bind_ok] at h
  obtain ⟨-, h⟩ := h
  rw [except_bind_ok] at h
  obtain ⟨tx', -, h⟩ := h
  rw [err_if_bind_ok] at h
  obtain ⟨-, h⟩ := h
  rw [except_bind_ok] at h
  obtain ⟨u, hforM, -⟩ := h
  cases u
  exact forM_validate_outs _ p.psbt_outs hforM

/-- The restricted class of PSBTs for the amended round-trip. -/
def PSBT.c5wf (p : PSBT) : Prop :=
  Tx.wf p.tx_obj ∧
  p.tx_obj.tx_ins = p.psbt_ins.map (·.tx_in) ∧
  p.tx_obj.tx_outs = p.psbt_outs.map (·.tx_out) ∧
  (∀ pin ∈ p.psbt_ins, pin.c5wf) ∧
  (∀ po ∈ p.psbt_outs, po.c5wf) ∧
  alist_wf p.hd_pubs ∧ List.Sorted (· ≤ ·) (dict_keys p.hd_pubs) ∧
  (∀ q ∈ p.hd_pubs, q.2.c5wf ∧
    HDPublicKey.raw_serialize q.2.toHDPublicKey = some q.1) ∧
  alist_wf p.extra_map ∧ List.Sorted (· ≤ ·) (dict_keys p.extra_map) ∧
  (∀ q ∈ p.extra_map, key_atleast 2 q.1)

instance (p : PSBT) : Decidable p.c5wf := by
  unfold PSBT.c5wf
  infer_instance

/-- A loop-fuel budget sufficient for every record loop of `PSBT.parse` on a
restricted-class PSBT. -/
def PSBT.c5fuel (p : PSBT) : Nat :=
  p.hd_pubs.length + p.extra_map.length + 2 +
    ((p.psbt_ins.map PSBTIn.c5records).sum +
      (p.psbt_outs.map PSBTOut.c5records).sum)

theorem psbt_parse_magic (fuel : Nat) (X : Bytes) :
    PSBT.parse fuel ([0x70, 0x73, 0x62, 0x74, 0xff] ++ X) = (do
      let (g, rest) ← PSBT.parse_global fuel X {}
      let tx_obj ← g.tx_obj
      let (pins, rest1) ← PSBT.parse_ins fuel tx_obj.tx_ins rest
      let (pos, _) ← PSBT.parse_outs fuel tx_obj.tx_outs rest1
      let tx' := { tx_obj with tx_ins := pins.map (·.tx_in) }
      match PSBT.init fuel tx' pins pos g.hd_pubs g.extra_map with
      | Except.error _ => none
      | Except.ok p => some p) := rfl

set_option maxHeartbeats 1000000 in
theorem psbt_round {p : PSBT} (h : p.c5wf) (fuel : Nat)
    (hval : PSBT.validate fuel p = Except.ok p)
    (hfuel : p.c5fuel ≤ fuel) {bs : Bytes}
    (hser : PSBT.serialize p = some bs) :
    PSBT.parse fuel bs = some p := by
  obtain ⟨hwt, hmap_ins, hmap_outs, hinswf, houtswf, hhdwf, hhdsort, hhdcond,
    hexwf, hexsort, hexcond⟩ := h
  have houtsval := validate_ok_outs hval
  unfold PSBT.serialize at hser
  rcases htser : Tx.serialize p.tx_obj with _ | tser
  · rw [htser] at hser
    cases hser
  · rw [htser] at hser
    simp only [opt_some_bind] at hser
    rw [opt_bind_eq_some] at hser
    obtain ⟨btx, hbtx, hser⟩ := hser
    rw [opt_bind_eq_some] at hser
    obtain ⟨part_hd, hhd, hser⟩ := hser
    obtain ⟨bh, hbh, hphd⟩ := hd_part_eq hhdwf hhdsort hhd
    subst hphd
    try dsimp only at hser
    rw [opt_bind_eq_some] at hser
    obtain ⟨part_ex, hex, hser⟩ := hser
    obtain ⟨bex, hbex, hpex⟩ := skv_extra_part_eq hexwf hexsort hex
    subst hpex
    try dsimp only at hser
    rw [opt_bind_eq_some] at hser
    obtain ⟨part_ins, hins, hser⟩ := hser
    rw [foldlM_append_eq PSBTIn.serialize p.psbt_ins
      (((btx ++ bh) ++ bex) ++ [0x00])] at hins
    rcases hpins : parts_concat PSBTIn.serialize p.psbt_ins with _ | bins
    · rw [hpins] at hins
      cases hins
    · rw [hpins] at hins
      have hins2 : some ((((btx ++ bh) ++ bex) ++ [0x00]) ++ bins) =
        some part_ins := hins
      cases hins2
      try dsimp only at hser
      rw [opt_bind_eq_some] at hser
      obtain ⟨part_outs, houts, hser⟩ := hser
      rw [foldlM_append_eq PSBTOut.serialize p.psbt_outs
        ((((btx ++ bh) ++ bex) ++ [0x00]) ++ bins)] at houts
      rcases hpos : parts_concat PSBTOut.serialize p.psbt_outs with _ | bouts
      · rw [hpos] at houts
        cases houts
      · rw [hpos] at houts
        have houts2 : some (((((btx ++ bh) ++ bex) ++ [0x00]) ++ bins) ++
          bouts) = some part_outs := houts
        cases houts2
        try dsimp only at hser
        cases hser
        rw [psbt_parse_magic]
        rw [show (((((btx ++ bh) ++ bex) ++ [0x00]) ++ bins) ++ bouts) =
          btx ++ (bh ++ (bex ++ (0 :: (bins ++ bouts)))) from by
          simp [List.append_assoc]]
        rw [global_loop_all2 hwt htser p.hd_pubs p.extra_map hhdwf hhdcond
          hexwf hexcond hbtx hbh hbex fuel
          (by unfold PSBT.c5fuel at hfuel; omega) (bins ++ bouts)]
        rw [opt_some_bind]
        try dsimp only
        rw [opt_some_bind]
        try dsimp only
        rw [hmap_ins]
        rw [psbt_ins_chain p.psbt_ins bins bouts fuel hinswf
          (fun pin hpin => le_trans
            (List.single_le_sum (fun x _ => Nat.zero_le x) _
              (List.mem_map_of_mem PSBTIn.c5records hpin))
            (by unfold PSBT.c5fuel at hfuel; omega)) hpins]
        rw [opt_some_bind]
        try dsimp only
        rw [hmap_outs]
        rw [show bouts = bouts ++ ([] : Bytes) from (List.append_nil _).symm]
        rw [psbt_outs_chain p.psbt_outs bouts [] fuel houtswf houtsval
          (fun po hpo => le_trans
            (List.single_le_sum (fun x _ => Nat.zero_le x) _
              (List.mem_map_of_mem PSBTOut.c5records hpo))
            (by unfold PSBT.c5fuel at hfuel; omega)) hpos]
        rw [opt_some_bind]
        try dsimp only
        rw [← hmap_ins, ← hmap_outs]
        show (match PSBT.validate fuel p with
          | Except.error _ => none
          | Except.ok p => some p) = some p
        rw [hval]

/-! ## Claim C5 — serialize/parse round trip

The claim quantifies over every PSBT that serializes successfully.  It fails
in that generality: `PSBTIn.serialize` writes redeem/witness scripts with
`raw_serialize` (no push-length re-validation), so an input whose redeem
script is the lone opcode `OP_PUSHDATA1` (76) serializes to a record whose
value `Script.parse` re-reads as a truncated pushdata — `PSBT.parse` then
fails although the PSBT passed `validate` and serialized successfully.  The
counterexample below is such a PSBT.  The amended theorem proves the round
trip (with the claim's sorted orderings) on an explicitly-characterized
class: canonical scripts, sorted well-formed maps, no provenance records and
no finalized `script_sig`/witness on the inputs. -/

/-- The counterexample's redeem script: the single opcode 76
(`OP_PUSHDATA1`), whose raw serialization `[76]` cannot be re-parsed. -/
def c5_rs : Script := ⟨[Cmd.op 76]⟩

/-- The spent ScriptPubKey: pay-to-script-hash of `c5_rs`. -/
def c5_spk : Script := P2SHScriptPubKey (hash160 [76])

/-- A previous transaction holding the spent output. -/
def c5_prev_tx : Tx := ⟨1, [], [⟨50, c5_spk⟩], 0⟩

/-- The transaction input spending it (caches as `update` would set them). -/
def c5_tx_in : TxIn :=
  ⟨(c5_prev_tx.hash).getD [], 0, ⟨[]⟩, 0xffffffff, ⟨[]⟩, some 50, some c5_spk⟩

/-- The PSBT input: full previous-transaction provenance plus the poisonous
redeem script; it passes `PSBTIn.validate`. -/
def c5_pin : PSBTIn :=
  ⟨c5_tx_in, some c5_prev_tx, none, [], none, some c5_rs, none, [], none,
    none, []⟩

/-- The unsigned transaction skeleton. -/
def c5_tx : Tx := ⟨1, [c5_tx_in], [], 0⟩

/-- The counterexample PSBT. -/
def c5_p : PSBT := ⟨c5_tx, [c5_pin], [], [], []⟩

/-- A witness transaction input. -/
def c5w_tx_in : TxIn :=
  ⟨List.replicate 32 0xaa, 0, ⟨[]⟩, 0xffffffff, ⟨[]⟩, none, none⟩

/-- A witness transaction output (p2pkh). -/
def c5w_tx_out : TxOut :=
  ⟨1000, P2PKHScriptPubKey (List.replicate 20 5)⟩

/-- The witness transaction skeleton. -/
def c5w_tx : Tx := ⟨1, [c5w_tx_in], [c5w_tx_out], 0⟩

/-- A witness PSBT input: one partial signature, a hash type, one key
annotation and one extra record. -/
def c5w_pin : PSBTIn :=
  ⟨c5w_tx_in, none, none, [(2 :: List.replicate 32 2, [48, 1])], some 1,
    none, none, [(2 :: List.replicate 32 7, ⟨⟨2 :: List.replicate 32 7⟩, [1, 2, 3, 4]⟩)],
    none, none, [([9, 9], [1])]⟩

/-- A witness PSBT output with one extra record. -/
def c5w_po : PSBTOut := ⟨c5w_tx_out, none, none, [], [([3], [2])]⟩

/-- A witness global extended key. -/
def c5w_hd : NamedHDPublicKey :=
  ⟨⟨⟨2 :: List.replicate 32 9⟩, List.replicate 32 3, 0, [0, 0, 0, 0], 0,
    false⟩, [0xaa, 0xaa, 0xaa, 0xaa]⟩

/-- The witness PSBT: nonempty signature, annotation, extended-key and extra
maps. -/
def c5w_p : PSBT :=
  ⟨c5w_tx, [c5w_pin], [c5w_po],
    [((HDPublicKey.raw_serialize c5w_hd.toHDPublicKey).getD [], c5w_hd)],
    [([2, 1], [7])]⟩

/-- The witness serialization. -/
def c5w_bs : Bytes := (PSBT.serialize c5w_p).getD []

end Buidl
